import Mathlib

/-!
# A verification model of the govisor supervision engine

This file gives a shallow embedding, in Lean 4, of the core of the govisor
service supervisor (files `service.go` and `manager.go` of the repository),
and proves properties of the embedded operations.

Modelling conventions:

* A `Service` record mirrors the Go `Service` struct field by field; the
  provider (`prov`) is replaced by an oracle `Env` that decides, per service,
  whether `provider.Start` and `provider.Check` succeed, and what the current
  wall-clock time (`time.Now()`) is during the operation.  The `mgr` pointer
  becomes a `registered` flag; Go maps/sets of services become lists of
  indices into the manager's service list.
* Time is in abstract nanoseconds (`Nat`).
* The recursive graph walks `startRecurse`/`stopRecurse` are defined with an
  explicit fuel parameter.  In the Go code the recursion depth is bounded by
  the number of services, because every frame that recurses first flips one
  service's `running` (start) or `stopping` (stop) flag and guarded re-entry
  returns immediately; all top-level calls therefore pass
  `numServices + 1` fuel, which is never exhausted.
* Provider invocations and routine entries are recorded in an event trace so
  that claims about "X is invoked" and about invocation order can be stated.
  Log output (`logf`) is not modelled; "state" of a service means the fields
  of its record.
-/

namespace Govisor

/-- Errors of the govisor core (`errors.go`). -/
inductive GErr where
  | noManager
  | conflict
  | isEnabled
  | notRunning
  | rateLimited
  | provErr (msg : String)
  deriving DecidableEq, Repr

/-- Trace events: provider invocations and routine entries. -/
inductive Ev where
  | checkSvc (i : Nat)
  | startRec (i : Nat)
  | provStart (i : Nat)
  | provStop (i : Nat)
  | provCheck (i : Nat)
  deriving DecidableEq, Repr

/-- The provider/time oracle for one operation: the current time, and for
each service whether `provider.Start` / `provider.Check` fail (with which
message). -/
structure Env where
  now : Nat
  startErr : Nat → Option String
  checkErr : Nat → Option String

/-- The `Service` struct of `service.go`, plus the per-service `serial`
field that `manager.go` stores into (`s.serial = m.bumpSerial()`). -/
structure Service where
  name : String
  desc : String
  depends : List String
  conflicts : List String
  provides : List String
  enabled : Bool
  running : Bool
  stopping : Bool
  failed : Bool
  restart : Bool
  checking : Bool
  err : Option GErr
  parents : List (String × List Nat)
  children : List Nat
  incompat : List Nat
  stamp : Nat
  reason : String
  starts : Nat
  rateLog : Bool
  rateLimit : Nat
  ratePeriod : Nat
  startTimes : List Nat
  registered : Bool
  serial : Int
  deriving DecidableEq, Repr

instance : Inhabited Service where
  default :=
    { name := "", desc := "", depends := [], conflicts := [], provides := []
      enabled := false, running := false, stopping := false, failed := false
      restart := false, checking := false, err := none, parents := []
      children := [], incompat := [], stamp := 0, reason := "", starts := 0
      rateLog := false, rateLimit := 0, ratePeriod := 0, startTimes := []
      registered := false, serial := 0 }

/-- The `Manager` struct of `manager.go` (lock, loggers and condition
variables are not modelled; the event trace `evs` is added). -/
structure MState where
  svcs : List Service
  evs : List Ev
  name : String
  serial : Int
  listSerial : Int
  listStamp : Nat
  createTime : Nat
  updateTime : Nat
  monitoring : Bool
  deriving DecidableEq, Repr

/-- Read the `i`-th service record (default record when out of range). -/
def getS (m : MState) (i : Nat) : Service :=
  m.svcs.getD i default

/-- Update the `i`-th element of a list in place. -/
def updAt {α : Type} : List α → Nat → (α → α) → List α
  | [], _, _ => []
  | a :: t, 0, f => f a :: t
  | a :: t, n + 1, f => a :: updAt t n f

/-- Update the `i`-th service record of the manager state. -/
def updS (m : MState) (i : Nat) (f : Service → Service) : MState :=
  { m with svcs := updAt m.svcs i f }

/-- Append one event to the trace. -/
def pushEv (m : MState) (e : Ev) : MState :=
  { m with evs := m.evs ++ [e] }

/-! ## Service-name matching (`serviceMatches`, `Service.Matches`) -/

/-- `strings.SplitN(s, ":", 2)`: the base name and, when a `:` separator is
present, the variant. -/
def splitChars : List Char → List Char × Option (List Char)
  | [] => ([], none)
  | c :: rest =>
    if c = ':' then ([], some rest)
    else
      let p := splitChars rest
      (c :: p.1, p.2)

/-- `strings.SplitN(s, ":", 2)`: base name and the remainder after the first
colon, if any. -/
def splitName (s : String) : String × Option String :=
  (String.mk (splitChars s.toList).1, (splitChars s.toList).2.map String.mk)

/-- `serviceMatches` of `service.go`: the first (concrete) name matches the
second if the bases agree and either the check has no variant or the two
variants agree. -/
def serviceMatches (s1 s2 : String) : Bool :=
  let a1 := splitName s1
  let a2 := splitName s2
  if a1.1 ≠ a2.1 then false
  else
    match a1.2 with
    | none => true
    | some v1 =>
      match a2.2 with
      | none => false
      | some v2 => v1 == v2

/-- `Service.Matches`: the check matches the name or any of the provides. -/
def svcMatches (s : Service) (check : String) : Bool :=
  serviceMatches check s.name || s.provides.any (fun p => serviceMatches check p)

/-! ## The per-service ring log (`ServiceLog`) -/

/-- `maxLogRecords` of `service.go`. -/
def maxLogRecords : Nat := 1000

/-- The `ServiceLog` struct. -/
structure ServiceLog where
  records : List String
  numRecords : Nat
  deriving DecidableEq, Repr

/-- `strings.Trim(s, "\n")`. -/
def trimNL (s : String) : String :=
  String.mk (((s.toList.dropWhile (fun c => c == '\n')).reverse.dropWhile
    (fun c => c == '\n')).reverse)

/-- `ServiceLog.Write`: allocate the ring on first use, then store each line
at `NumRecords mod len(Records)` and count it. -/
def slogWrite (sl : ServiceLog) (b : String) : ServiceLog :=
  let sl := if sl.records.isEmpty then
    { sl with records := List.replicate maxLogRecords "" } else sl
  ((trimNL b).splitOn "\n").foldl
    (fun sl line =>
      { records := sl.records.set (sl.numRecords % sl.records.length) line
        numRecords := sl.numRecords + 1 }) sl

/-- `Service.GetLog` (`service.go` lines 501-517): `cur := NumRecords`,
`cnt := cur mod len(Records)` (capped at `cur`), then the loop
`for i := cur-cnt; i < cnt; i++` collecting `Records[i mod len(Records)]`. -/
def GetLog (sl : ServiceLog) : List String :=
  let cur := sl.numRecords
  let cnt0 := cur % sl.records.length
  let cnt := if cnt0 > cur then cur else cnt0
  (List.range' (cur - cnt) (cnt - (cur - cnt))).map
    (fun i => sl.records.getD (i % sl.records.length) "")

/-! ## The rate governor (`tooQuickly`) -/

/-- `Service.tooQuickly` (`service.go` lines 720-759).  Returns the verdict
and the updated service record (only `rateLog` can change).  The Go indices
`(starts-1) % rateLimit` and `(starts-2) % rateLimit` are computed on `int`;
both branches are only reached when `starts ≥ rateLimit ≥ 1`, where the `Nat`
truncated subtraction used here agrees with the Go computation (in the single
corner `starts = rateLimit = 1`, Go's `(-1) % 1 = 0 = (1-2) % 1` in `Nat`). -/
def tooQuickly (s : Service) (now : Nat) : Option GErr × Service :=
  if s.rateLimit == 0 then (none, s)
  else if s.starts < s.rateLimit then (none, s)
  -- idx := (starts - 1) % rateLimit; end := startTimes[idx]
  else if now < s.startTimes.getD ((s.starts - 1) % s.rateLimit) 0 + s.ratePeriod then
    (some .rateLimited, { s with rateLog := true })
  else if !s.rateLog then (none, s)
  -- idx := (starts - 2) % rateLimit; end := startTimes[idx]
  else if now < s.startTimes.getD ((s.starts - 2) % s.rateLimit) 0 + s.ratePeriod then
    (some .rateLimited, s)
  else (none, { s with rateLog := false })

/-! ## `canRun` and the recursive start/stop walks -/

/-- Is some provider in the set a satisfying dependency
(`d.enabled && d.running && !d.stopping && !d.failed`)? -/
def depSat (svcs : List Service) (ids : List Nat) : Bool :=
  ids.any (fun j =>
    let d := svcs.getD j default
    d.enabled && d.running && !d.stopping && !d.failed)

/-- `Service.canRun` (`service.go` lines 669-692). -/
def canRun (svcs : List Service) (i : Nat) : Bool :=
  if (svcs.getD i default).stopping || !(svcs.getD i default).enabled then false
  else if (svcs.getD i default).parents.all (fun e => depSat svcs e.2) then
    (svcs.getD i default).incompat.all (fun c => !(svcs.getD c default).enabled)
  else false

/-- `Service.startRecurse` (`service.go` lines 617-647), with fuel.  An
entry event is recorded at every invocation, and `provider.Start` is recorded
when it is invoked. -/
def startRecurse (env : Env) : Nat → String → Nat → MState → MState
  | 0, _, _, m => m
  | fuel + 1, detail, i, m =>
    let m := pushEv m (.startRec i)
    let s := getS m i
    if s.running then m
    else if !(canRun m.svcs i) then m
    else
      match tooQuickly s env.now with
      | (some _, s') => updS m i (fun _ => s')
      | (none, s') =>
        let m := updS m i (fun _ => s')
        let m := if 0 < (getS m i).rateLimit then
            updS m i (fun s => { s with
              startTimes := s.startTimes.set (s.starts % s.rateLimit) env.now })
          else m
        let m := updS m i (fun s => { s with starts := s.starts + 1 })
        let m := pushEv m (.provStart i)
        match env.startErr i with
        | some msg =>
          updS m i (fun s => { s with
            reason := "Failed to start:" ++ msg, stamp := env.now
            err := some (.provErr msg), failed := true })
        | none =>
          let m := updS m i (fun s => { s with
            reason := "Started: " ++ detail, stamp := env.now
            running := true, failed := false })
          (getS m i).children.foldl
            (fun m c => startRecurse env fuel "Dependency running" c m) m

/-- `Service.stopRecurse` (`service.go` lines 649-667), with fuel:
mark `stopping`, stop each child that can no longer run, then invoke
`provider.Stop` and clear `running`/`stopping`. -/
def stopRecurse (env : Env) : Nat → String → Nat → MState → MState
  | 0, _, _, m => m
  | fuel + 1, detail, i, m =>
    let s := getS m i
    if !s.running || s.stopping then m
    else
      let m := updS m i (fun s => { s with stopping := true })
      let m := (getS m i).children.foldl
        (fun m c => if canRun m.svcs c then m
          else stopRecurse env fuel "Dependency stopped" c m) m
      let m := pushEv m (.provStop i)
      updS m i (fun s => { s with
        reason := "Stopped: " ++ detail, stamp := env.now
        running := false, stopping := false })

/-- Fuel that is always sufficient for the recursion depth. -/
def bigFuel (m : MState) : Nat := m.svcs.length + 1

/-! ## The public service operations -/

/-- `Service.Enable` (`service.go` lines 206-231). -/
def Enable (env : Env) (i : Nat) (m : MState) : Option GErr × MState :=
  let s := getS m i
  if !s.registered then (some .noManager, m)
  else if s.enabled then (none, m)
  else if s.incompat.any (fun c => (getS m c).enabled) then (some .conflict, m)
  else
    let m := updS m i (fun s => { s with
      reason := "Waiting to start", stamp := env.now
      enabled := true, starts := 0 })
    (none, startRecurse env (bigFuel m) "Enabled service" i m)

/-- `Service.Disable` (`service.go` lines 236-255). -/
def Disable (env : Env) (i : Nat) (m : MState) : Option GErr × MState :=
  let s := getS m i
  if !s.registered then (some .noManager, m)
  else if !s.enabled then (none, m)
  else
    let m := updS m i (fun s => { s with
      stamp := env.now, reason := "Disabled service"
      enabled := false, failed := false, err := none })
    (none, stopRecurse env (bigFuel m) "Disabled service" i m)

/-- `Service.Restart` (`service.go` lines 259-283). -/
def Restart (env : Env) (i : Nat) (m : MState) : Option GErr × MState :=
  let s := getS m i
  if !s.registered then (some .noManager, m)
  else if !s.enabled then (none, m)
  else
    let m := updS m i (fun s => { s with enabled := false })
    let m := stopRecurse env (bigFuel m) "Restarted service" i m
    let m := updS m i (fun s => { s with
      stamp := env.now, reason := "Restarted service", starts := 0
      failed := false, err := none, enabled := true })
    (none, startRecurse env (bigFuel m) "Restarted service" i m)

/-- `Service.Clear` (`service.go` lines 288-304). -/
def Clear (env : Env) (i : Nat) (m : MState) : MState :=
  let s := getS m i
  if !s.registered then m
  else
    let m := if s.failed then
        updS m i (fun s => { s with reason := "Cleared fault", stamp := env.now })
      else m
    let m := updS m i (fun s => { s with starts := 0, failed := false, err := none })
    startRecurse env (bigFuel m) "Cleared fault" i m

/-- `Service.checkService` (`service.go` lines 694-712).  The entry is
recorded as a `checkSvc` event; `provider.Check` as a `provCheck` event. -/
def checkService (env : Env) (i : Nat) (m : MState) : Option GErr × MState :=
  let m := pushEv m (.checkSvc i)
  let s := getS m i
  if s.failed then (s.err, m)
  else if !s.running then (some .notRunning, m)
  else
    let m := updS m i (fun s => { s with checking := true })
    let m := pushEv m (.provCheck i)
    match env.checkErr i with
    | some msg =>
      let m := updS m i (fun s => { s with failed := true })
      let m := stopRecurse env (bigFuel m) ("Faulted: " ++ msg) i m
      let m := updS m i (fun s => { s with
        err := some (.provErr msg), checking := false })
      (some (.provErr msg), m)
    | none =>
      (none, updS m i (fun s => { s with checking := false }))

/-- `Service.Check` (`service.go` lines 310-315). -/
def Check (env : Env) (i : Nat) (m : MState) : Option GErr × MState :=
  if !(getS m i).registered then (some .noManager, m)
  else checkService env i m

/-- `Service.selfHeal` (`service.go` lines 761-766). -/
def selfHeal (env : Env) (i : Nat) (m : MState) : MState :=
  let s := getS m i
  if s.failed && s.restart then
    startRecurse env (bigFuel m) "Self-healing attempt" i m
  else m

/-- The body of the monitor loop for a single service
(`manager.go` lines 260-266). -/
def monitorStep (env : Env) (m : MState) (i : Nat) : MState :=
  let s := getS m i
  if s.registered && s.enabled then
    match checkService env i m with
    | (some _, m1) => selfHeal env i m1
    | (none, m1) => m1
  else m

/-- One pass of `Manager.monitor` (`manager.go` lines 255-278): when
`monitoring` is set, walk all services and check/heal the enabled ones. -/
def monitorPass (env : Env) (m : MState) : MState :=
  if m.monitoring then
    (List.range m.svcs.length).foldl (monitorStep env) m
  else m

/-- `Manager.notify` (`manager.go` lines 286-296). -/
def notifyHandler (env : Env) (i : Nat) (m : MState) : MState :=
  let s := getS m i
  if s.checking then m
  else if s.enabled then
    match checkService env i m with
    | (some _, m1) => selfHeal env i m1
    | (none, m1) => m1
  else m

/-! ## Registration: `setManager`, `AddService`, `delManager`, `Shutdown` -/

/-- Set-insertion into an id list (Go map insertion). -/
def insertId (j : Nat) (l : List Nat) : List Nat :=
  if j ∈ l then l else l ++ [j]

/-- Insert a provider into the `parents` set of one dependency name. -/
def addParent (d : String) (j : Nat) (ps : List (String × List Nat)) :
    List (String × List Nat) :=
  ps.map (fun e => if e.1 == d then (e.1, insertId j e.2) else e)

/-- One iteration of the `for t := range mgr.services` loop of
`Service.setManager` (`service.go` lines 536-569): in each direction the loop
over dependency names `break`s after the first match; the conflict loops have
no `break`. -/
def linkStep (si : Nat) (m : MState) (tj : Nat) : MState :=
  if tj == si || !(getS m tj).registered then m
  else
    -- do we satisfy a dependency of t?  (break after the first match)
    let m := match (getS m tj).depends.find? (fun d => svcMatches (getS m si) d) with
      | some d =>
        let m := updS m tj (fun t => { t with parents := addParent d si t.parents })
        updS m si (fun s => { s with children := insertId tj s.children })
      | none => m
    -- does t satisfy a dependency of s?  (break after the first match)
    let m := match (getS m si).depends.find? (fun d => svcMatches (getS m tj) d) with
      | some d =>
        let m := updS m si (fun s => { s with parents := addParent d tj s.parents })
        updS m tj (fun t => { t with children := insertId si t.children })
      | none => m
    -- do we conflict with t?  (both conflict lists, no break)
    let m := (getS m tj).conflicts.foldl
      (fun m c => if svcMatches (getS m si) c then
          let m := updS m si (fun s => { s with incompat := insertId tj s.incompat })
          updS m tj (fun t => { t with incompat := insertId si t.incompat })
        else m) m
    (getS m si).conflicts.foldl
      (fun m c => if svcMatches (getS m tj) c then
          let m := updS m si (fun s => { s with incompat := insertId tj s.incompat })
          updS m tj (fun t => { t with incompat := insertId si t.incompat })
        else m) m

/-- `Service.setManager` (`service.go` lines 522-575): reset the edge maps,
compile edges pairwise against every registered service, then mark the
service registered. -/
def setManager (env : Env) (si : Nat) (m : MState) : MState :=
  let m := updS m si (fun s => { s with
    incompat := [], children := []
    parents := s.depends.map (fun d => (d, [])) })
  let m := (List.range m.svcs.length).foldl (linkStep si) m
  updS m si (fun s => { s with
    stamp := env.now, reason := "Added service", registered := true })

/-- `Manager.bumpSerial` (`manager.go` lines 72-78). -/
def bumpSerial (env : Env) (m : MState) : Int × MState :=
  let m := { m with updateTime := env.now, serial := m.serial + 1 }
  (m.serial, m)

/-- `Manager.AddService` (`manager.go` lines 160-167).  Go panics when the
service already has a manager; that programmer error is modelled as a no-op
guard. -/
def AddService (env : Env) (i : Nat) (m : MState) : MState :=
  if (getS m i).registered then m
  else
    let m := setManager env i m
    let (ls, m) := bumpSerial env m
    let m := { m with listSerial := ls }
    let (ss, m) := bumpSerial env m
    let m := updS m i (fun s => { s with serial := ss })
    { m with listStamp := env.now }

/-- `Service.delManager` (`service.go` lines 577-611): sever conflict edges,
remove ourselves from our children's parent sets, remove ourselves from our
parents' child sets, then clear our own edge maps and detach. -/
def delManager (env : Env) (i : Nat) (m : MState) : MState :=
  if !(getS m i).registered then m
  else
    let s := getS m i
    let m := s.incompat.foldl
      (fun m c => updS m c (fun t => { t with incompat := t.incompat.filter (fun x => x ≠ i) })) m
    let m := s.children.foldl
      (fun m c => updS m c (fun t => { t with
        parents := t.parents.map (fun e => (e.1, e.2.filter (fun x => x ≠ i))) })) m
    let m := s.parents.foldl
      (fun m e => e.2.foldl
        (fun m t => updS m t (fun u => { u with children := u.children.filter (fun x => x ≠ i) })) m) m
    updS m i (fun u => { u with
      incompat := [], children := [], parents := []
      reason := "Removed service", stamp := env.now, registered := false })

/-- `Manager.Shutdown` (`manager.go` lines 323-333): stop monitoring, then
for every registered service clear `enabled`, stop it recursively, and
unregister it. -/
def Shutdown (env : Env) (m : MState) : MState :=
  let m := { m with monitoring := false }
  (List.range m.svcs.length).foldl
    (fun m i =>
      if (getS m i).registered then
        let m := updS m i (fun s => { s with enabled := false })
        let m := stopRecurse env (bigFuel m) "Shutting down" i m
        delManager env i m
      else m) m

/-- `NewManager` (`manager.go` lines 345-366): the global serial is seeded
from the current nanosecond clock; `listSerial` is left at the zero value of
the struct literal. -/
def NewManager (now : Nat) (name : String) : MState :=
  let name := if name == "" then "govisor" else name
  { svcs := [], evs := [], name := name, serial := now, listSerial := 0
    listStamp := 0, createTime := now, updateTime := now, monitoring := true }

/-- Construction data for a service (the provider identity plus the
properties settable before registration). -/
structure SvcSpec where
  name : String
  desc : String
  provides : List String
  depends : List String
  conflicts : List String
  restart : Bool
  rateLimit : Nat
  ratePeriod : Nat

/-- `NewService` (`service.go` lines 788-806) followed by the pre-registration
`SetProperty` calls for `PropRestart`, `PropRateLimit` and `PropRatePeriod`
(the latter two reset `starts` and re-allocate `startTimes`). -/
def NewService (p : SvcSpec) : Service :=
  { name := p.name, desc := p.desc, provides := p.provides
    depends := p.depends, conflicts := p.conflicts
    enabled := false, running := false, stopping := false, failed := false
    restart := p.restart, checking := false, err := none
    parents := [], children := [], incompat := []
    stamp := 0, reason := "", starts := 0, rateLog := false
    rateLimit := p.rateLimit, ratePeriod := p.ratePeriod
    startTimes := List.replicate p.rateLimit 0
    registered := false, serial := 0 }

/-- A manager freshly created at time `now` holding the given services,
registered in order with `AddService`. -/
def initManager (now : Nat) (specs : List SvcSpec) : MState :=
  let m := { NewManager now "govisor" with svcs := specs.map NewService }
  (List.range m.svcs.length).foldl
    (fun m i => AddService (Env.mk now (fun _ => none) (fun _ => none)) i m) m

/-! ## The public operations as labelled steps -/

/-- A public operation (with its provider/time oracle). -/
inductive Op where
  | enable (i : Nat) (env : Env)
  | disable (i : Nat) (env : Env)
  | restart (i : Nat) (env : Env)
  | clear (i : Nat) (env : Env)
  | check (i : Nat) (env : Env)
  | monitor (env : Env)
  | shutdown (env : Env)

/-- Execute one operation. -/
def runOp (m : MState) : Op → MState
  | .enable i env => (Enable env i m).2
  | .disable i env => (Disable env i m).2
  | .restart i env => (Restart env i m).2
  | .clear i env => Clear env i m
  | .check i env => (Check env i m).2
  | .monitor env => monitorPass env m
  | .shutdown env => Shutdown env m

/-- Execute a sequence of operations. -/
def runOps (ops : List Op) (m : MState) : MState := ops.foldl runOp m

/-- The providers recorded for dependency name `d` of service `i`
(Go `s.parents[d]`). -/
def lookupParents (m : MState) (i : Nat) (d : String) : List Nat :=
  (((getS m i).parents.find? (fun e => e.1 == d)).map (fun e => e.2)).getD []

/-! ## Claim C8: the per-service log ring buffer -/

/-- What the claim says `GetLog` returns: all lines when fewer than the
capacity have been written, otherwise the most recent capacity-many lines
(`cnt` elements starting at ring index `(cur - cnt) mod capacity`).
Modelled from the claim's words for comparison with the source's `GetLog`. -/
def claimGetLog (sl : ServiceLog) : List String :=
  let cap := sl.records.length
  let cur := sl.numRecords
  if cur < cap then (List.range cur).map (fun i => sl.records.getD i "")
  else (List.range' (cur - cap) cap).map (fun i => sl.records.getD (i % cap) "")

/-! ## Invariant machinery for the graph walks

The central invariant (claim C3) is that every running service has, for each
of its dependency map entries, some provider that is enabled, running, not
stopping and not failed.  `stopRecurse` temporarily breaks this for the
subtree being stopped; the induction below tracks, for each service currently
marked `stopping`, the suffix of its child list that its recursion has not
yet visited, as an explicit context. -/

/-- `j` is a live provider: enabled, running, not stopping, not failed
(exactly the witness condition used by `canRun`). -/
def goodP (m : MState) (j : Nat) : Prop :=
  (getS m j).enabled = true ∧ (getS m j).running = true ∧
  (getS m j).stopping = false ∧ (getS m j).failed = false

instance (m : MState) (j : Nat) : Decidable (goodP m j) := by
  unfold goodP; infer_instance

/-- Some provider in `ids` is live. -/
def entryGood (m : MState) (ids : List Nat) : Prop :=
  ∃ j ∈ ids, goodP m j

/-- Recursion context: each `stopping` service paired with the children its
stop walk has not yet examined. -/
abbrev Ctx : Type := List (Nat × List Nat)

/-- Service `i` is exempted by some pending stop walk in the context: a
context entry whose service occurs in `ids` and whose pending list still
contains `i`. -/
def ctxEx (ctx : Ctx) (i : Nat) (ids : List Nat) : Prop :=
  ∃ p ∈ ctx, p.1 ∈ ids ∧ i ∈ p.2

/-- The dependency invariant relative to a context: every running,
non-stopping service has, for each of its parent-map entries, a live
provider or a pending exemption. -/
def JInv (m : MState) (ctx : Ctx) : Prop :=
  ∀ i, (getS m i).running = true → (getS m i).stopping = false →
    ∀ e ∈ (getS m i).parents, entryGood m e.2 ∨ ctxEx ctx i e.2

/-- `JInv` with service `s` itself exempted, and dependencies on `s`
discharged by the promise that `s` (currently running and not stopping) is
about to be stopped. -/
def JInvX (m : MState) (ctx : Ctx) (s : Nat) : Prop :=
  ∀ i, i ≠ s → (getS m i).running = true → (getS m i).stopping = false →
    ∀ e ∈ (getS m i).parents,
      entryGood m e.2 ∨
      (s ∈ e.2 ∧ (getS m s).running = true ∧ (getS m s).stopping = false) ∨
      ctxEx ctx i e.2

/-- Parent edges are mirrored by child edges (established by `setManager`). -/
def EdgeSym (m : MState) : Prop :=
  ∀ c e, e ∈ (getS m c).parents → ∀ j ∈ e.2, c ∈ (getS m j).children

/-- Number of running, non-stopping services: the termination measure of the
stop walk. -/
def muRS (svcs : List Service) : Nat :=
  svcs.countP (fun s => s.running && !s.stopping)

/-- Fields of a service record that `stopRecurse` never changes, together
with monotone decrease of `running`. -/
structure SFr (a b : Service) : Prop where
  enabled : b.enabled = a.enabled
  failed : b.failed = a.failed
  stopping : b.stopping = a.stopping
  runMono : b.running = true → a.running = true
  parents : b.parents = a.parents
  children : b.children = a.children
  incompat : b.incompat = a.incompat
  depends : b.depends = a.depends
  registered : b.registered = a.registered
  err : b.err = a.err
  checking : b.checking = a.checking
  starts : b.starts = a.starts
  startTimes : b.startTimes = a.startTimes
  rateLog : b.rateLog = a.rateLog

/-- Fields that `startRecurse` never changes, with monotone increase of
`running`. -/
structure TFr (a b : Service) : Prop where
  enabled : b.enabled = a.enabled
  stopping : b.stopping = a.stopping
  runMono : a.running = true → b.running = true
  parents : b.parents = a.parents
  children : b.children = a.children
  incompat : b.incompat = a.incompat
  depends : b.depends = a.depends
  registered : b.registered = a.registered
  checking : b.checking = a.checking

/-! ### Soundness of the stop walk -/

/-- The child loop of `stopRecurse`, as a named function. -/
def stopFold (env : Env) (fuel : Nat) (cs : List Nat) (m : MState) : MState :=
  cs.foldl (fun m c => if canRun m.svcs c then m
    else stopRecurse env fuel "Dependency stopped" c m) m

/-- Postcondition of `stopRecurse env fuel det s`: the dependency invariant
holds again relative to the surrounding context, only
`running`/`stopping`/`reason`/`stamp` fields changed (with `running`
decreasing and `stopping` restored), services already stopping are untouched,
`s` does not run afterwards, and the trace of a non-trivial stop ends with
`provider.Stop` of `s`. -/
structure StopPost (s : Nat) (ctx : Ctx) (m m' : MState) : Prop where
  jinv : JInv m' ctx
  fr : ∀ j, SFr (getS m j) (getS m' j)
  frozen : ∀ j, (getS m j).stopping = true → getS m' j = getS m j
  stopped : (getS m s).stopping = false → (getS m' s).running = false
  len : m'.svcs.length = m.svcs.length
  mu : muRS m'.svcs ≤ muRS m.svcs
  evs : ∃ E, m'.evs = m.evs ++ E
  evsStop : (getS m s).running = true → (getS m s).stopping = false →
    ∃ E, m'.evs = m.evs ++ E ++ [Ev.provStop s]

/-- The child loop of `startRecurse`, as a named function. -/
def startFold (env : Env) (fuel : Nat) (cs : List Nat) (m : MState) : MState :=
  cs.foldl (fun m c => startRecurse env fuel "Dependency running" c m) m

/-- Postcondition of the start walk: the dependency invariant (with empty
context) is preserved, the static fields and `stopping` are untouched,
`running` only increases, live providers stay live, and every service that
runs afterwards was running before or is enabled. -/
structure StartPost (m m' : MState) : Prop where
  jinv : JInv m' []
  fr : ∀ j, TFr (getS m j) (getS m' j)
  good : ∀ j, goodP m j → goodP m' j
  runEn : ∀ j, (getS m' j).running = true →
    (getS m j).running = true ∨ (getS m' j).enabled = true
  len : m'.svcs.length = m.svcs.length
  evs : ∃ E, m'.evs = m.evs ++ E

/-- The fields relevant to `goodP` and to the dependency invariant agree. -/
def eqG (a b : Service) : Prop :=
  b.enabled = a.enabled ∧ b.running = a.running ∧ b.stopping = a.stopping ∧
  b.failed = a.failed ∧ b.parents = a.parents

/-! ### The global invariant preserved by the public operations -/

/-- The bundle of invariants maintained by every public operation on a
registered service set: no service is observed mid-stop, running services
are enabled, enabled services are registered, registered services keep
their full dependency map, every running service has a live provider per
dependency, and parent edges are mirrored by child edges. -/
structure GInv (m : MState) : Prop where
  nostop : ∀ j, (getS m j).stopping = false
  runEn : ∀ j, (getS m j).running = true → (getS m j).enabled = true
  enReg : ∀ j, (getS m j).enabled = true → (getS m j).registered = true
  keys : ∀ j, (getS m j).registered = true →
    (getS m j).parents.map Prod.fst = (getS m j).depends
  jinv : JInv m []
  esym : EdgeSym m
  fresh : ∀ j, (getS m j).registered = false →
    ∀ c e, e ∈ (getS m c).parents → j ∉ e.2

/-- Equality of the fields `GInv` depends on. -/
def eqGR (a b : Service) : Prop :=
  b.enabled = a.enabled ∧ b.running = a.running ∧ b.stopping = a.stopping ∧
  b.failed = a.failed ∧ b.registered = a.registered ∧ b.depends = a.depends ∧
  b.parents = a.parents ∧ b.children = a.children

/-- The state just before the final start walk of `Service.Restart`
(a named subterm of `Restart`). -/
def restartMid (env : Env) (i : Nat) (m : MState) : MState :=
  updS (stopRecurse env
      (bigFuel (updS m i (fun s => { s with enabled := false })))
      "Restarted service" i
      (updS m i (fun s => { s with enabled := false }))) i
    (fun s => { s with
      stamp := env.now, reason := "Restarted service", starts := 0
      failed := false, err := none, enabled := true })

/-- The state just before the start walk of `Service.Clear`
(a named subterm of `Clear`). -/
def clearMid (env : Env) (i : Nat) (m : MState) : MState :=
  updS (if (getS m i).failed then
      updS m i (fun s => { s with reason := "Cleared fault", stamp := env.now })
    else m) i
    (fun s => { s with starts := 0, failed := false, err := none })

/-- The state after the checking flag is raised and the provider check event
is recorded (a named subterm of `checkService`). -/
def chkPre (i : Nat) (m : MState) : MState :=
  pushEv (updS (pushEv m (Ev.checkSvc i)) i
    (fun s => { s with checking := true })) (Ev.provCheck i)

/-- The final state of the faulted branch of `checkService`
(a named subterm of `checkService`). -/
def chkFault (env : Env) (msg : String) (i : Nat) (m : MState) : MState :=
  updS (stopRecurse env
      (bigFuel (updS (chkPre i m) i (fun s => { s with failed := true })))
      ("Faulted: " ++ msg) i
      (updS (chkPre i m) i (fun s => { s with failed := true }))) i
    (fun s => { s with err := some (GErr.provErr msg), checking := false })

/-- The per-service update of the incompat-severing fold of `delManager`. -/
def delInc (i : Nat) (t : Service) : Service :=
  { t with incompat := t.incompat.filter (fun x => x ≠ i) }

/-- The per-service update of the parents-severing fold of `delManager`. -/
def delPar (i : Nat) (t : Service) : Service :=
  { t with parents := t.parents.map (fun e => (e.1, e.2.filter (fun x => x ≠ i))) }

/-- The per-service update of the children-severing fold of `delManager`. -/
def delChl (i : Nat) (u : Service) : Service :=
  { u with children := u.children.filter (fun x => x ≠ i) }

/-- The final detach update of `delManager`. -/
def delFin (env : Env) (u : Service) : Service :=
  { u with
    incompat := [], children := [], parents := []
    reason := "Removed service", stamp := env.now, registered := false }

/-- The dependency-direction update of `linkStep` where `si` may satisfy a
dependency of `tj` (a named subterm of `linkStep`). -/
def linkDep1 (si tj : Nat) (m : MState) : MState :=
  match (getS m tj).depends.find? (fun d => svcMatches (getS m si) d) with
  | some d =>
    updS (updS m tj (fun t => { t with parents := addParent d si t.parents })) si
      (fun s => { s with children := insertId tj s.children })
  | none => m

/-- The dependency-direction update of `linkStep` where `tj` may satisfy a
dependency of `si`. -/
def linkDep2 (si tj : Nat) (m : MState) : MState :=
  match (getS m si).depends.find? (fun d => svcMatches (getS m tj) d) with
  | some d =>
    updS (updS m si (fun s => { s with parents := addParent d tj s.parents })) tj
      (fun t => { t with children := insertId si t.children })
  | none => m

/-- The first conflict fold of `linkStep`. -/
def linkCf1 (si tj : Nat) (m : MState) : MState :=
  (getS m tj).conflicts.foldl
    (fun m c => if svcMatches (getS m si) c then
        updS (updS m si (fun s => { s with incompat := insertId tj s.incompat }))
          tj (fun t => { t with incompat := insertId si t.incompat })
      else m) m

/-- The second conflict fold of `linkStep`. -/
def linkCf2 (si tj : Nat) (m : MState) : MState :=
  (getS m si).conflicts.foldl
    (fun m c => if svcMatches (getS m tj) c then
        updS (updS m si (fun s => { s with incompat := insertId tj s.incompat }))
          tj (fun t => { t with incompat := insertId si t.incompat })
      else m) m

/-- The invariant maintained through the `setManager` linking fold: the
global invariant with the service being registered (`si`) exempted where its
not-yet-set `registered` bit matters, plus the book-keeping facts about `si`
itself. -/
structure LInv (si : Nat) (m : MState) : Prop where
  siLt : si < m.svcs.length
  nostop : ∀ j, (getS m j).stopping = false
  runEn : ∀ j, (getS m j).running = true → (getS m j).enabled = true
  enReg : ∀ j, (getS m j).enabled = true → (getS m j).registered = true
  keys : ∀ j, j ≠ si → (getS m j).registered = true →
    (getS m j).parents.map Prod.fst = (getS m j).depends
  keysSi : (getS m si).parents.map Prod.fst = (getS m si).depends
  jinv : JInv m []
  esym : EdgeSym m
  freshX : ∀ j, j ≠ si → (getS m j).registered = false →
    ∀ c e, e ∈ (getS m c).parents → j ∉ e.2
  regSi : (getS m si).registered = false
  enSi : (getS m si).enabled = false
  runSi : (getS m si).running = false

@[simp] theorem length_updAt {α : Type} (l : List α) (i : Nat) (f : α → α) :
    (updAt l i f).length = l.length := by
  induction l generalizing i with
  | nil => rfl
  | cons a t ih =>
    cases i with
    | zero => rfl
    | succ n => simp [updAt, ih]

theorem getD_updAt_ne {α : Type} (l : List α) (i j : Nat) (f : α → α) (d : α)
    (h : j ≠ i) : (updAt l i f).getD j d = l.getD j d := by
  induction l generalizing i j with
  | nil => rfl
  | cons a t ih =>
    cases i with
    | zero =>
      cases j with
      | zero => exact absurd rfl h
      | succ n => rfl
    | succ n =>
      cases j with
      | zero => rfl
      | succ k =>
        simp only [updAt, List.getD_cons_succ]
        exact ih n k (by omega)

theorem getD_updAt_self {α : Type} (l : List α) (i : Nat) (f : α → α) (d : α)
    (h : i < l.length) : (updAt l i f).getD i d = f (l.getD i d) := by
  induction l generalizing i with
  | nil => simp at h
  | cons a t ih =>
    cases i with
    | zero => rfl
    | succ n =>
      simp only [updAt, List.getD_cons_succ]
      exact ih n (by simpa using h)

theorem getS_updS_ne (m : MState) (i j : Nat) (f : Service → Service)
    (h : j ≠ i) : getS (updS m i f) j = getS m j :=
  getD_updAt_ne m.svcs i j f default h

theorem getS_updS_self (m : MState) (i : Nat) (f : Service → Service)
    (h : i < m.svcs.length) : getS (updS m i f) i = f (getS m i) :=
  getD_updAt_self m.svcs i f default h

@[simp] theorem svcs_pushEv (m : MState) (e : Ev) : (pushEv m e).svcs = m.svcs := rfl

@[simp] theorem getS_pushEv (m : MState) (e : Ev) (j : Nat) :
    getS (pushEv m e) j = getS m j := rfl

@[simp] theorem evs_updS (m : MState) (i : Nat) (f : Service → Service) :
    (updS m i f).evs = m.evs := rfl

@[simp] theorem len_updS (m : MState) (i : Nat) (f : Service → Service) :
    (updS m i f).svcs.length = m.svcs.length := length_updAt ..

/-! ## Claim C2: the rate governor -/

/-- C2.  The rate governor `tooQuickly` permits unconditionally when
`rate_limit = 0` or `starts < rate_limit`; otherwise it denies with
`RateLimitedError` exactly when `now < start_times[(starts-1) mod rate_limit]
+ rate_period`, or when the cool-down flag is latched and
`now < start_times[(starts-2) mod rate_limit] + rate_period`.  The cool-down
flag is latched by a denial of the first kind and cleared exactly when the
governor permits with the latch set; no other field of the service changes. -/
theorem c2_tooQuickly_characterization (s : Service) (now : Nat) :
    ((tooQuickly s now).1 = some .rateLimited ↔
      (s.rateLimit ≠ 0 ∧ s.rateLimit ≤ s.starts ∧
        (now < s.startTimes.getD ((s.starts - 1) % s.rateLimit) 0 + s.ratePeriod ∨
          (s.rateLog = true ∧
            now < s.startTimes.getD ((s.starts - 2) % s.rateLimit) 0 + s.ratePeriod))))
    ∧ ((tooQuickly s now).1 = none ∨ (tooQuickly s now).1 = some .rateLimited)
    ∧ ((tooQuickly s now).2.rateLog =
        if s.rateLimit ≠ 0 ∧ s.rateLimit ≤ s.starts then
          (if now < s.startTimes.getD ((s.starts - 1) % s.rateLimit) 0 + s.ratePeriod
            then true
            else if s.rateLog = true ∧
                s.startTimes.getD ((s.starts - 2) % s.rateLimit) 0 + s.ratePeriod ≤ now
              then false else s.rateLog)
        else s.rateLog)
    ∧ ((tooQuickly s now).2 = { s with rateLog := (tooQuickly s now).2.rateLog }) := by
  by_cases h0 : s.rateLimit = 0
  · have ht : tooQuickly s now = (none, s) := by
      unfold tooQuickly
      rw [if_pos (by simp [h0])]
    rw [ht]
    refine ⟨by simp [h0], Or.inl rfl, by rw [if_neg (by simp [h0])], rfl⟩
  by_cases h1 : s.starts < s.rateLimit
  · have ht : tooQuickly s now = (none, s) := by
      unfold tooQuickly
      rw [if_neg (by simp [h0]), if_pos h1]
    rw [ht]
    refine ⟨by simp; omega, Or.inl rfl, by rw [if_neg (by omega)], rfl⟩
  by_cases h2 : now < s.startTimes.getD ((s.starts - 1) % s.rateLimit) 0 + s.ratePeriod
  · have ht : tooQuickly s now = (some .rateLimited, { s with rateLog := true }) := by
      unfold tooQuickly
      rw [if_neg (by simp [h0]), if_neg h1, if_pos h2]
    rw [ht]
    exact ⟨⟨fun _ => ⟨h0, by omega, Or.inl h2⟩, fun _ => rfl⟩, Or.inr rfl,
      by rw [if_pos ⟨h0, by omega⟩, if_pos h2], rfl⟩
  cases hl : s.rateLog with
  | false =>
    have ht : tooQuickly s now = (none, s) := by
      unfold tooQuickly
      rw [if_neg (by simp [h0]), if_neg h1, if_neg h2, if_pos (by simp [hl])]
    rw [ht]
    refine ⟨⟨(fun h => nomatch h), ?_⟩, Or.inl rfl, ?_, rfl⟩
    · rintro ⟨-, -, h | ⟨h, -⟩⟩
      · omega
      · cases h
    · rw [if_pos ⟨h0, by omega⟩, if_neg h2, if_neg (fun hc => by cases hc.1), hl]
  | true =>
    by_cases h4 : now < s.startTimes.getD ((s.starts - 2) % s.rateLimit) 0 + s.ratePeriod
    · have ht : tooQuickly s now = (some .rateLimited, s) := by
        unfold tooQuickly
        rw [if_neg (by simp [h0]), if_neg h1, if_neg h2, if_neg (by simp [hl]), if_pos h4]
      rw [ht]
      refine ⟨⟨fun _ => ⟨h0, by omega, Or.inr ⟨rfl, h4⟩⟩, fun _ => rfl⟩, Or.inr rfl, ?_, rfl⟩
      rw [if_pos ⟨h0, by omega⟩, if_neg h2, if_neg (fun hc => absurd hc.2 (by omega)), hl]
    · have ht : tooQuickly s now = (none, { s with rateLog := false }) := by
        unfold tooQuickly
        rw [if_neg (by simp [h0]), if_neg h1, if_neg h2, if_neg (by simp [hl]), if_neg h4]
      rw [ht]
      refine ⟨⟨(fun h => nomatch h), ?_⟩, Or.inl rfl, ?_, rfl⟩
      · rintro ⟨-, -, h | ⟨-, h⟩⟩ <;> omega
      · rw [if_pos ⟨h0, by omega⟩, if_neg h2, if_pos ⟨rfl, by omega⟩]

set_option maxRecDepth 8000 in
/-- C8 (code bug).  With 1,500 records written to the 1,000-line ring, the
source's `GetLog` loop `for i := cur-cnt; i < cnt; i++` returns nothing at
all, while the claimed behaviour returns the most recent 1,000 lines; for
under-capacity logs the source does return all lines in order. -/
theorem c8_getlog_underread :
    GetLog { records := List.replicate 1000 "x", numRecords := 1500 } = []
    ∧ (claimGetLog { records := List.replicate 1000 "x", numRecords := 1500 }).length
        = 1000
    ∧ GetLog { records := List.replicate 1000 "x", numRecords := 30 }
        = claimGetLog { records := List.replicate 1000 "x", numRecords := 30 } := by
  refine ⟨rfl, ?_, rfl⟩
  simp [claimGetLog]

/-! ## Claim C9: serial seeding in `NewManager` -/

/-- C9 counterexample.  `NewManager` seeds the global serial from the clock
but leaves `listSerial` at the Go zero value `0`, so for a manager created at
nanosecond 5 the two counters differ: the claim that *both* are initialised
to the creation timestamp fails. -/
theorem c9_counterexample :
    (NewManager 5 "x").serial = 5 ∧ (NewManager 5 "x").listSerial = 0 ∧
      (NewManager 5 "x").listSerial ≠ (5 : Int) := by
  refine ⟨rfl, rfl, by decide⟩

/-- C9 (amended).  `NewManager` initialises the global `serial` to the
wall-clock nanosecond timestamp at creation; `listSerial` starts at zero and
only receives a clock-derived value from `bumpSerial` at the first change of
the service set. -/
theorem c9_amended (now : Nat) (name : String) :
    (NewManager now name).serial = (now : Int) ∧
      (NewManager now name).listSerial = 0 ∧
      (NewManager now name).createTime = now := ⟨rfl, rfl, rfl⟩

theorem sfrRefl (a : Service) : SFr a a :=
  ⟨rfl, rfl, rfl, id, rfl, rfl, rfl, rfl, rfl, rfl, rfl, rfl, rfl, rfl⟩

theorem sfrComp {a b c : Service} (h1 : SFr a b) (h2 : SFr b c) : SFr a c :=
  ⟨h2.enabled.trans h1.enabled, h2.failed.trans h1.failed,
    h2.stopping.trans h1.stopping, fun h => h1.runMono (h2.runMono h),
    h2.parents.trans h1.parents, h2.children.trans h1.children,
    h2.incompat.trans h1.incompat, h2.depends.trans h1.depends,
    h2.registered.trans h1.registered, h2.err.trans h1.err,
    h2.checking.trans h1.checking, h2.starts.trans h1.starts,
    h2.startTimes.trans h1.startTimes, h2.rateLog.trans h1.rateLog⟩

theorem tfrRefl (a : Service) : TFr a a :=
  ⟨rfl, rfl, id, rfl, rfl, rfl, rfl, rfl, rfl⟩

theorem tfrComp {a b c : Service} (h1 : TFr a b) (h2 : TFr b c) : TFr a c :=
  ⟨h2.enabled.trans h1.enabled, h2.stopping.trans h1.stopping,
    fun h => h2.runMono (h1.runMono h), h2.parents.trans h1.parents,
    h2.children.trans h1.children, h2.incompat.trans h1.incompat,
    h2.depends.trans h1.depends, h2.registered.trans h1.registered,
    h2.checking.trans h1.checking⟩

theorem getD_out {α : Type} [Inhabited α] (l : List α) (i : Nat)
    (h : l.length ≤ i) : l.getD i default = default := by
  rw [List.getD_eq_getElem?_getD, List.getElem?_eq_none h]
  rfl

theorem getD_eq_getS (m : MState) (j : Nat) :
    m.svcs.getD j default = getS m j := rfl

/-- A service that is running (or stopping) is in range. -/
theorem lt_length_of_running {m : MState} {i : Nat}
    (h : (getS m i).running = true) : i < m.svcs.length := by
  by_contra hlt
  rw [show getS m i = m.svcs.getD i default from rfl,
    getD_out m.svcs i (by omega)] at h
  exact absurd h (by decide)

theorem lt_length_of_stopping {m : MState} {i : Nat}
    (h : (getS m i).stopping = true) : i < m.svcs.length := by
  by_contra hlt
  rw [show getS m i = m.svcs.getD i default from rfl,
    getD_out m.svcs i (by omega)] at h
  exact absurd h (by decide)

/-- `depSat` as a proposition. -/
theorem depSat_iff (m : MState) (ids : List Nat) :
    depSat m.svcs ids = true ↔ entryGood m ids := by
  unfold depSat entryGood goodP
  rw [List.any_eq_true]
  constructor
  · rintro ⟨j, hj, hb⟩
    simp only [Bool.and_eq_true, Bool.not_eq_true'] at hb
    exact ⟨j, hj, hb.1.1.1, hb.1.1.2, hb.1.2, hb.2⟩
  · rintro ⟨j, hj, he, hr, hs, hf⟩
    refine ⟨j, hj, ?_⟩
    simp only [Bool.and_eq_true, Bool.not_eq_true']
    exact ⟨⟨⟨he, hr⟩, hs⟩, hf⟩

/-- `canRun` as a proposition. -/
theorem canRun_iff (m : MState) (i : Nat) :
    canRun m.svcs i = true ↔
      ((getS m i).stopping = false ∧ (getS m i).enabled = true ∧
        (∀ e ∈ (getS m i).parents, entryGood m e.2) ∧
        (∀ c ∈ (getS m i).incompat, (getS m c).enabled = false)) := by
  unfold canRun
  simp only [getD_eq_getS]
  split_ifs with hg hp
  · constructor
    · intro h; cases h
    · rintro ⟨hs, he, -, -⟩
      rw [hs, he] at hg
      cases hg
  · have hs : (getS m i).stopping = false := by
      revert hg; cases (getS m i).stopping <;> simp
    have he : (getS m i).enabled = true := by
      revert hg; cases (getS m i).enabled <;> simp
    rw [List.all_eq_true] at hp
    rw [List.all_eq_true]
    constructor
    · intro h
      refine ⟨hs, he, fun e hin => (depSat_iff m e.2).1 (hp e hin), ?_⟩
      intro c hc
      have := h c hc
      revert this
      cases (getS m c).enabled <;> simp
    · rintro ⟨-, -, -, h⟩
      intro c hc
      rw [h c hc]
      rfl
  · constructor
    · intro h; cases h
    · rintro ⟨-, -, hdep, -⟩
      apply hp
      rw [List.all_eq_true]
      intro e hin
      exact (depSat_iff m e.2).2 (hdep e hin)

/-- Exemptions through an exhausted context head are plain exemptions. -/
theorem ctxEx_cons_nil {ctx : Ctx} {s : Nat} {i : Nat} {ids : List Nat}
    (h : ctxEx ((s, []) :: ctx) i ids) : ctxEx ctx i ids := by
  obtain ⟨p, hp, h1, h2⟩ := h
  rcases List.mem_cons.1 hp with rfl | hp
  · cases h2
  · exact ⟨p, hp, h1, h2⟩

theorem ctxEx_mono {ctx : Ctx} {q : Nat × List Nat} {i : Nat} {ids : List Nat}
    (h : ctxEx ctx i ids) : ctxEx (q :: ctx) i ids := by
  obtain ⟨p, hp, h1, h2⟩ := h
  exact ⟨p, List.mem_cons_of_mem q hp, h1, h2⟩

/-- `EdgeSym` only depends on the `parents` and `children` fields. -/
theorem EdgeSym_transport {m m' : MState}
    (hp : ∀ j, (getS m' j).parents = (getS m j).parents)
    (hc : ∀ j, (getS m' j).children = (getS m j).children)
    (h : EdgeSym m) : EdgeSym m' := by
  intro c e he j hj
  rw [hc j]
  exact h c e (by rw [hp c] at he; exact he) j hj

/-! ### Counting lemmas for the termination measure -/

theorem muRS_updAt_le (l : List Service) (i : Nat) (f : Service → Service)
    (h : ∀ x, ((f x).running && !(f x).stopping) = true →
      (x.running && !x.stopping) = true) :
    muRS (updAt l i f) ≤ muRS l := by
  induction l generalizing i with
  | nil => exact Nat.le_refl _
  | cons a t ih =>
    cases i with
    | zero =>
      simp only [updAt, muRS, List.countP_cons]
      have hle : (if ((f a).running && !(f a).stopping) = true then 1 else 0) ≤
          (if (a.running && !a.stopping) = true then 1 else 0) := by
        by_cases hfa : ((f a).running && !(f a).stopping) = true
        · rw [if_pos hfa, if_pos (h a hfa)]
        · rw [if_neg hfa]
          omega
      omega
    | succ n =>
      simp only [updAt, muRS, List.countP_cons]
      have := ih n
      simp only [muRS] at this
      omega

theorem muRS_updAt_lt (l : List Service) (i : Nat) (f : Service → Service)
    (hi : i < l.length)
    (h1 : ((l.getD i default).running && !(l.getD i default).stopping) = true)
    (h2 : ((f (l.getD i default)).running && !(f (l.getD i default)).stopping) = false) :
    muRS (updAt l i f) < muRS l := by
  induction l generalizing i with
  | nil => simp at hi
  | cons a t ih =>
    cases i with
    | zero =>
      simp only [List.getD_cons_zero] at h1 h2
      simp only [updAt, muRS, List.countP_cons, h1, h2]
      simp
    | succ n =>
      simp only [List.getD_cons_succ] at h1 h2
      simp only [updAt, muRS, List.countP_cons]
      have := ih n (by simpa using hi) h1 h2
      simp only [muRS] at this
      omega

theorem muRS_updAt_eq (l : List Service) (i : Nat) (f : Service → Service)
    (h : ∀ x, ((f x).running && !(f x).stopping) = (x.running && !x.stopping)) :
    muRS (updAt l i f) = muRS l := by
  induction l generalizing i with
  | nil => rfl
  | cons a t ih =>
    cases i with
    | zero => simp only [updAt, muRS, List.countP_cons, h a]
    | succ n =>
      simp only [updAt, muRS, List.countP_cons]
      have := ih n
      simp only [muRS] at this
      omega

theorem stopRecurse_succ (env : Env) (fuel : Nat) (det : String) (i : Nat)
    (m : MState) :
    stopRecurse env (fuel + 1) det i m =
      if (!(getS m i).running || (getS m i).stopping) then m
      else
        updS (pushEv
          (stopFold env fuel
            ((getS (updS m i (fun s => { s with stopping := true })) i).children)
            (updS m i (fun s => { s with stopping := true })))
          (.provStop i)) i
          (fun s => { s with
            reason := "Stopped: " ++ det, stamp := env.now
            running := false, stopping := false }) := rfl

theorem stopFold_nil (env : Env) (fuel : Nat) (m : MState) :
    stopFold env fuel [] m = m := rfl

theorem stopFold_cons (env : Env) (fuel : Nat) (c : Nat) (cs : List Nat)
    (m : MState) :
    stopFold env fuel (c :: cs) m =
      stopFold env fuel cs
        (if canRun m.svcs c then m
          else stopRecurse env fuel "Dependency stopped" c m) := rfl

theorem stopRecurse_sound :
    ∀ (fuel : Nat) (env : Env) (det : String) (s : Nat) (m : MState) (ctx : Ctx),
      muRS m.svcs < fuel → EdgeSym m → JInvX m ctx s →
      StopPost s ctx m (stopRecurse env fuel det s m) := by
  intro fuel
  induction fuel with
  | zero => intro env det s m ctx hfuel _ _; omega
  | succ fuel ih =>
    intro env det s m ctx hfuel hsym hinv
    by_cases hg : (!(getS m s).running || (getS m s).stopping) = true
    · -- guard failure: nothing happens
      rw [stopRecurse_succ, if_pos hg]
      have hgor : (getS m s).running = false ∨ (getS m s).stopping = true := by
        revert hg
        cases (getS m s).running <;> cases (getS m s).stopping <;> simp
      refine ⟨?_, fun j => sfrRefl _, fun j _ => rfl, ?_, rfl, Nat.le_refl _,
        ⟨[], by simp⟩, ?_⟩
      · intro i hr hs e he
        by_cases his : i = s
        · subst his
          rcases hgor with h | h
          · rw [hr] at h; cases h
          · rw [hs] at h; cases h
        · rcases hinv i his hr hs e he with h | ⟨-, h1, h2⟩ | h
          · exact Or.inl h
          · rcases hgor with h | h
            · rw [h1] at h; cases h
            · rw [h2] at h; cases h
          · exact Or.inr h
      · intro hs
        rcases hgor with h | h
        · exact h
        · rw [hs] at h; cases h
      · intro hr hs
        rcases hgor with h | h
        · rw [hr] at h; cases h
        · rw [hs] at h; cases h
    · -- the service is running and not stopping: it gets stopped
      have hrun : (getS m s).running = true := by
        revert hg; cases (getS m s).running <;> simp
      have hstp : (getS m s).stopping = false := by
        revert hg; cases (getS m s).stopping <;> simp
      have hslen : s < m.svcs.length := lt_length_of_running hrun
      rw [stopRecurse_succ, if_neg hg]
      set m1 := updS m s (fun s => { s with stopping := true }) with hm1
      have g1 : getS m1 s = { getS m s with stopping := true } :=
        getS_updS_self m s _ hslen
      have g2 : ∀ j, j ≠ s → getS m1 j = getS m j :=
        fun j hj => getS_updS_ne m s j _ hj
      have hlen1 : m1.svcs.length = m.svcs.length := len_updS ..
      have hmu1 : muRS m1.svcs < muRS m.svcs := by
        rw [hm1]
        exact muRS_updAt_lt m.svcs s _ hslen
          (by rw [getD_eq_getS, hrun, hstp]; rfl)
          (by simp)
      have hsym1 : EdgeSym m1 := by
        refine EdgeSym_transport (fun j => ?_) (fun j => ?_) hsym <;>
          by_cases hj : j = s
        · subst hj; rw [g1]
        · rw [g2 j hj]
        · subst hj; rw [g1]
        · rw [g2 j hj]
      have hJ1 : JInv m1 ((s, (getS m1 s).children) :: ctx) := by
        intro i hr hs e he
        by_cases his : i = s
        · subst his
          rw [g1] at hs
          exact absurd hs (by simp)
        · have hgi : getS m1 i = getS m i := g2 i his
          rw [hgi] at hr hs he
          rcases hinv i his hr hs e he with ⟨j, hj, hgood⟩ | ⟨hse, -, -⟩ | h
          · by_cases hjs : j = s
            · subst hjs
              -- the witness was s itself: use the pending exemption
              refine Or.inr ⟨(j, (getS m1 j).children), List.mem_cons_self .., hj, ?_⟩
              rw [g1]
              exact hsym i e he j hj
            · refine Or.inl ⟨j, hj, ?_⟩
              show goodP m1 j
              unfold goodP
              rw [g2 j hjs]
              exact hgood
          · refine Or.inr ⟨(s, (getS m1 s).children), List.mem_cons_self .., hse, ?_⟩
            rw [g1]
            exact hsym i e he s hse
          · exact Or.inr (ctxEx_mono h)
      have hstp1 : (getS m1 s).stopping = true := by rw [g1]
      -- the child loop
      have fold_sound : ∀ (cs : List Nat) (w : MState),
          muRS w.svcs < fuel → EdgeSym w → (getS w s).stopping = true →
          JInv w ((s, cs) :: ctx) →
          JInv (stopFold env fuel cs w) ((s, ([] : List Nat)) :: ctx)
          ∧ (∀ j, SFr (getS w j) (getS (stopFold env fuel cs w) j))
          ∧ (∀ j, (getS w j).stopping = true →
              getS (stopFold env fuel cs w) j = getS w j)
          ∧ (stopFold env fuel cs w).svcs.length = w.svcs.length
          ∧ muRS (stopFold env fuel cs w).svcs ≤ muRS w.svcs
          ∧ (∃ E, (stopFold env fuel cs w).evs = w.evs ++ E) := by
        intro cs
        induction cs with
        | nil =>
          intro w _ _ _ hJ
          exact ⟨hJ, fun j => sfrRefl _, fun j _ => rfl, rfl, Nat.le_refl _,
            ⟨[], by rw [stopFold_nil]; simp⟩⟩
        | cons c cs' ihc =>
          intro w hμ hsymw hstw hJ
          rw [stopFold_cons]
          by_cases hcr : canRun w.svcs c = true
          · rw [if_pos hcr]
            have hJ' : JInv w ((s, cs') :: ctx) := by
              intro i hr hs e he
              rcases hJ i hr hs e he with h | ⟨p, hp, h1, h2⟩
              · exact Or.inl h
              · rcases List.mem_cons.1 hp with rfl | hp
                · -- exemption through the head entry
                  rcases List.mem_cons.1 h2 with rfl | h2
                  · -- i is exactly the child just examined, which can run
                    exact Or.inl (((canRun_iff w i).1 hcr).2.2.1 e he)
                  · exact Or.inr ⟨(s, cs'), List.mem_cons_self .., h1, h2⟩
                · exact Or.inr (ctxEx_mono ⟨p, hp, h1, h2⟩)
            exact ihc w hμ hsymw hstw hJ'
          · rw [if_neg hcr]
            have hX : JInvX w ((s, cs') :: ctx) c := by
              intro i hic hr hs e he
              rcases hJ i hr hs e he with h | ⟨p, hp, h1, h2⟩
              · exact Or.inl h
              · rcases List.mem_cons.1 hp with rfl | hp
                · rcases List.mem_cons.1 h2 with rfl | h2
                  · exact absurd rfl hic
                  · exact Or.inr (Or.inr ⟨(s, cs'), List.mem_cons_self .., h1, h2⟩)
                · exact Or.inr (Or.inr (ctxEx_mono ⟨p, hp, h1, h2⟩))
            have post := ih env "Dependency stopped" c w ((s, cs') :: ctx) hμ hsymw hX
            set w1 := stopRecurse env fuel "Dependency stopped" c w with hw1
            have hst1 : (getS w1 s).stopping = true := by
              rw [(post.fr s).stopping]; exact hstw
            have hμ1 : muRS w1.svcs < fuel := Nat.lt_of_le_of_lt post.mu hμ
            have hsym2 : EdgeSym w1 :=
              EdgeSym_transport (fun j => (post.fr j).parents)
                (fun j => (post.fr j).children) hsymw
            have rest := ihc w1 hμ1 hsym2 hst1 post.jinv
            refine ⟨rest.1, fun j => sfrComp (post.fr j) (rest.2.1 j), ?_, ?_, ?_, ?_⟩
            · intro j hj
              have h1 := post.frozen j hj
              have h2 : (getS w1 j).stopping = true := by rw [h1]; exact hj
              rw [rest.2.2.1 j h2, h1]
            · rw [rest.2.2.2.1, post.len]
            · exact Nat.le_trans rest.2.2.2.2.1 post.mu
            · obtain ⟨E1, he1⟩ := post.evs
              obtain ⟨E2, he2⟩ := rest.2.2.2.2.2
              exact ⟨E1 ++ E2, by rw [he2, he1, List.append_assoc]⟩
      have foldres := fold_sound ((getS m1 s).children) m1
        (by omega) hsym1 hstp1 hJ1
      set m2 := stopFold env fuel ((getS m1 s).children) m1 with hm2
      have hlen2 : m2.svcs.length = m.svcs.length := by
        rw [foldres.2.2.2.1, hlen1]
      have hstp2 : (getS m2 s).stopping = true := by
        rw [(foldres.2.1 s).stopping]; exact hstp1
      set m3 := pushEv m2 (.provStop s) with hm3
      have hslen3 : s < m3.svcs.length := by
        show s < m2.svcs.length
        omega
      set m4 := updS m3 s (fun s => { s with
        reason := "Stopped: " ++ det, stamp := env.now
        running := false, stopping := false }) with hm4
      have g4s : getS m4 s = { getS m2 s with
          reason := "Stopped: " ++ det, stamp := env.now
          running := false, stopping := false } := by
        rw [hm4]
        exact getS_updS_self m3 s _ hslen3
      have g4ne : ∀ j, j ≠ s → getS m4 j = getS m2 j :=
        fun j hj => getS_updS_ne m3 s j _ hj
      refine ⟨?_, ?_, ?_, ?_, ?_, ?_, ?_, ?_⟩
      · -- the dependency invariant
        intro i hr hs e he
        by_cases his : i = s
        · subst his
          rw [g4s] at hr
          exact absurd hr (by simp)
        · rw [g4ne i his] at hr hs he
          rcases foldres.1 i hr hs e he with ⟨j, hj, hgood⟩ | h
          · have hjs : j ≠ s := by
              intro hjs
              subst hjs
              have h2 := hgood.2.2.1
              rw [hstp2] at h2
              cases h2
            refine Or.inl ⟨j, hj, ?_⟩
            show goodP m4 j
            unfold goodP
            rw [g4ne j hjs]
            exact hgood
          · exact Or.inr (ctxEx_cons_nil h)
      · -- frame
        intro j
        by_cases hj : j = s
        · subst hj
          have hc := foldres.2.1 j
          rw [g1] at hc
          refine ⟨?_, ?_, ?_, ?_, ?_, ?_, ?_, ?_, ?_, ?_, ?_, ?_, ?_, ?_⟩ <;>
            rw [g4s]
          · exact hc.enabled
          · exact hc.failed
          · exact hstp.symm
          · exact fun h => absurd h (by simp)
          · exact hc.parents
          · exact hc.children
          · exact hc.incompat
          · exact hc.depends
          · exact hc.registered
          · exact hc.err
          · exact hc.checking
          · exact hc.starts
          · exact hc.startTimes
          · exact hc.rateLog
        · rw [g4ne j hj]
          have := foldres.2.1 j
          rw [g2 j hj] at this
          exact this
      · -- services that were stopping are untouched
        intro j hj
        have hjs : j ≠ s := fun h => by rw [h, hstp] at hj; cases hj
        rw [g4ne j hjs]
        have h1 : getS m1 j = getS m j := g2 j hjs
        have h2 : (getS m1 j).stopping = true := by rw [h1]; exact hj
        rw [foldres.2.2.1 j h2, h1]
      · intro _
        rw [g4s]
      · rw [hm4]
        show (updAt m3.svcs s _).length = m.svcs.length
        rw [length_updAt]
        exact hlen2
      · -- measure does not increase
        have h4 : muRS m4.svcs ≤ muRS m2.svcs := by
          rw [hm4]
          apply muRS_updAt_le
          intro x h
          simp at h
        calc muRS m4.svcs ≤ muRS m2.svcs := h4
          _ ≤ muRS m1.svcs := foldres.2.2.2.2.1
          _ ≤ muRS m.svcs := Nat.le_of_lt hmu1
      · obtain ⟨E, hE⟩ := foldres.2.2.2.2.2
        refine ⟨E ++ [Ev.provStop s], ?_⟩
        show m3.evs = m.evs ++ (E ++ [Ev.provStop s])
        rw [hm3]
        show m2.evs ++ [Ev.provStop s] = m.evs ++ (E ++ [Ev.provStop s])
        rw [hE]
        show m1.evs ++ E ++ [Ev.provStop s] = _
        rw [show m1.evs = m.evs from rfl, List.append_assoc]
      · intro _ _
        obtain ⟨E, hE⟩ := foldres.2.2.2.2.2
        refine ⟨E, ?_⟩
        show m3.evs = m.evs ++ E ++ [Ev.provStop s]
        rw [hm3]
        show m2.evs ++ [Ev.provStop s] = m.evs ++ E ++ [Ev.provStop s]
        rw [hE]
        rfl

/-! ### Soundness of the start walk -/

/-- Only the `rateLog` flag of the service can change in `tooQuickly`. -/
theorem tooQuickly_keep (s : Service) (now : Nat) :
    (tooQuickly s now).2.enabled = s.enabled ∧
    (tooQuickly s now).2.running = s.running ∧
    (tooQuickly s now).2.stopping = s.stopping ∧
    (tooQuickly s now).2.failed = s.failed ∧
    (tooQuickly s now).2.parents = s.parents ∧
    (tooQuickly s now).2.children = s.children ∧
    (tooQuickly s now).2.incompat = s.incompat ∧
    (tooQuickly s now).2.depends = s.depends ∧
    (tooQuickly s now).2.registered = s.registered ∧
    (tooQuickly s now).2.checking = s.checking ∧
    (tooQuickly s now).2.starts = s.starts ∧
    (tooQuickly s now).2.startTimes = s.startTimes ∧
    (tooQuickly s now).2.rateLimit = s.rateLimit := by
  unfold tooQuickly
  split_ifs <;>
    exact ⟨rfl, rfl, rfl, rfl, rfl, rfl, rfl, rfl, rfl, rfl, rfl, rfl, rfl⟩

/-- `JInv` only depends on the fields used by `goodP` and on the parent
edges. -/
theorem JInv_transport {m m' : MState}
    (h : ∀ j, (getS m' j).enabled = (getS m j).enabled ∧
      (getS m' j).running = (getS m j).running ∧
      (getS m' j).stopping = (getS m j).stopping ∧
      (getS m' j).failed = (getS m j).failed ∧
      (getS m' j).parents = (getS m j).parents)
    (ctx : Ctx) (hJ : JInv m ctx) : JInv m' ctx := by
  intro i hr hs e he
  rw [(h i).2.1] at hr
  rw [(h i).2.2.1] at hs
  rw [(h i).2.2.2.2] at he
  rcases hJ i hr hs e he with ⟨j, hj, hg⟩ | hc
  · refine Or.inl ⟨j, hj, ?_, ?_, ?_, ?_⟩
    · rw [(h j).1]; exact hg.1
    · rw [(h j).2.1]; exact hg.2.1
    · rw [(h j).2.2.1]; exact hg.2.2.1
    · rw [(h j).2.2.2.1]; exact hg.2.2.2
  · exact Or.inr hc

theorem startFold_nil (env : Env) (fuel : Nat) (m : MState) :
    startFold env fuel [] m = m := rfl

theorem startFold_cons (env : Env) (fuel : Nat) (c : Nat) (cs : List Nat)
    (m : MState) :
    startFold env fuel (c :: cs) m =
      startFold env fuel cs (startRecurse env fuel "Dependency running" c m) := rfl

theorem eqGRefl (a : Service) : eqG a a := ⟨rfl, rfl, rfl, rfl, rfl⟩

theorem eqGTrans {a b c : Service} (h1 : eqG a b) (h2 : eqG b c) : eqG a c :=
  ⟨h2.1.trans h1.1, h2.2.1.trans h1.2.1, h2.2.2.1.trans h1.2.2.1,
    h2.2.2.2.1.trans h1.2.2.2.1, h2.2.2.2.2.trans h1.2.2.2.2⟩

theorem getS_updS_out (m : MState) (i j : Nat) (f : Service → Service)
    (h : m.svcs.length ≤ j) : getS (updS m i f) j = getS m j := by
  show (updAt m.svcs i f).getD j default = m.svcs.getD j default
  rw [getD_out _ j (by rw [length_updAt]; exact h), getD_out _ j h]

/-- An update whose effect at the updated record preserves the `eqG` fields
preserves them pointwise everywhere. -/
theorem eqG_updS (m : MState) (i : Nat) (f : Service → Service)
    (hf : eqG (getS m i) (f (getS m i))) :
    ∀ j, eqG (getS m j) (getS (updS m i f) j) := by
  intro j
  by_cases hj : j = i
  · subst hj
    by_cases hl : j < m.svcs.length
    · rw [getS_updS_self m j f hl]; exact hf
    · rw [getS_updS_out m j j f (by omega)]; exact eqGRefl _
  · rw [getS_updS_ne m i j f hj]; exact eqGRefl _

theorem JInv_of_eqG {m m' : MState} (h : ∀ j, eqG (getS m j) (getS m' j))
    (ctx : Ctx) (hJ : JInv m ctx) : JInv m' ctx :=
  JInv_transport h ctx hJ

theorem goodP_of_eqG {m m' : MState} (h : ∀ j, eqG (getS m j) (getS m' j))
    (j : Nat) (hg : goodP m j) : goodP m' j := by
  obtain ⟨h1, h2, h3, h4, -⟩ := h j
  exact ⟨h1.trans hg.1, h2.trans hg.2.1, h3.trans hg.2.2.1, h4.trans hg.2.2.2⟩

/-- An update whose effect at the updated record satisfies `TFr` yields `TFr`
pointwise everywhere. -/
theorem TFr_updS (m : MState) (i : Nat) (f : Service → Service)
    (hf : TFr (getS m i) (f (getS m i))) :
    ∀ j, TFr (getS m j) (getS (updS m i f) j) := by
  intro j
  by_cases hj : j = i
  · subst hj
    by_cases hl : j < m.svcs.length
    · rw [getS_updS_self m j f hl]; exact hf
    · rw [getS_updS_out m j j f (by omega)]; exact tfrRefl _
  · rw [getS_updS_ne m i j f hj]; exact tfrRefl _

theorem lt_length_of_enabled {m : MState} {i : Nat}
    (h : (getS m i).enabled = true) : i < m.svcs.length := by
  by_contra hlt
  rw [show getS m i = m.svcs.getD i default from rfl,
    getD_out m.svcs i (by omega)] at h
  exact absurd h (by decide)

theorem startRecurse_zero (env : Env) (detail : String) (i : Nat) (m : MState) :
    startRecurse env 0 detail i m = m := rfl

theorem startRecurse_succ (env : Env) (fuel : Nat) (detail : String) (i : Nat)
    (m : MState) :
    startRecurse env (fuel + 1) detail i m =
      (let m1 := pushEv m (.startRec i)
       if (getS m1 i).running then m1
       else if !(canRun m1.svcs i) then m1
       else
        match tooQuickly (getS m1 i) env.now with
        | (some _, s') => updS m1 i (fun _ => s')
        | (none, s') =>
          let m2 := updS m1 i (fun _ => s')
          let m3 := if 0 < (getS m2 i).rateLimit then
              updS m2 i (fun s => { s with
                startTimes := s.startTimes.set (s.starts % s.rateLimit) env.now })
            else m2
          let m4 := updS m3 i (fun s => { s with starts := s.starts + 1 })
          let m5 := pushEv m4 (.provStart i)
          match env.startErr i with
          | some msg =>
            updS m5 i (fun s => { s with
              reason := "Failed to start:" ++ msg, stamp := env.now
              err := some (.provErr msg), failed := true })
          | none =>
            let m6 := updS m5 i (fun s => { s with
              reason := "Started: " ++ detail, stamp := env.now
              running := true, failed := false })
            startFold env fuel ((getS m6 i).children) m6) := rfl

theorem startRecurse_sound :
    ∀ (fuel : Nat) (env : Env) (detail : String) (i : Nat) (m : MState),
      JInv m [] → StartPost m (startRecurse env fuel detail i m) := by
  intro fuel
  induction fuel with
  | zero =>
    intro env detail i m hJ
    exact ⟨hJ, fun j => tfrRefl _, fun j h => h, fun j h => Or.inl h, rfl,
      ⟨[], by rw [startRecurse_zero]; simp⟩⟩
  | succ fuel ih =>
    intro env detail i m hJ
    -- the child loop is sound whenever each recursive start is
    have fold_sound : ∀ (cs : List Nat) (w : MState), JInv w [] →
        StartPost w (startFold env fuel cs w) := by
      intro cs
      induction cs with
      | nil =>
        intro w hJw
        exact ⟨hJw, fun j => tfrRefl _, fun j h => h, fun j h => Or.inl h,
          rfl, ⟨[], by rw [startFold_nil]; simp⟩⟩
      | cons c cs' ihc =>
        intro w hJw
        rw [startFold_cons]
        have post := ih env "Dependency running" c w hJw
        have rest := ihc _ post.jinv
        refine ⟨rest.jinv, fun j => tfrComp (post.fr j) (rest.fr j),
          fun j h => rest.good j (post.good j h), ?_,
          by rw [rest.len, post.len], ?_⟩
        · intro j hr
          rcases rest.runEn j hr with h | h
          · rcases post.runEn j h with h2 | h2
            · exact Or.inl h2
            · right
              rw [(rest.fr j).enabled]
              exact h2
          · exact Or.inr h
        · obtain ⟨E1, h1⟩ := post.evs
          obtain ⟨E2, h2⟩ := rest.evs
          exact ⟨E1 ++ E2, by rw [h2, h1, List.append_assoc]⟩
    rw [startRecurse_succ]
    set m1 := pushEv m (.startRec i) with hm1
    have hJ1 : JInv m1 [] := hJ
    by_cases hrun : (getS m1 i).running = true
    · rw [if_pos hrun]
      exact ⟨hJ1, fun j => tfrRefl _, fun j h => h, fun j h => Or.inl h, rfl,
        ⟨[.startRec i], rfl⟩⟩
    · rw [if_neg hrun]
      rw [Bool.not_eq_true] at hrun
      by_cases hcan : canRun m1.svcs i = true
      · rw [if_neg (by rw [hcan]; decide)]
        rcases htq : tooQuickly (getS m1 i) env.now with ⟨e, s'⟩
        have hkeep := tooQuickly_keep (getS m1 i) env.now
        rw [htq] at hkeep
        have hG2 : eqG (getS m1 i) s' :=
          ⟨hkeep.1, hkeep.2.1, hkeep.2.2.1, hkeep.2.2.2.1, hkeep.2.2.2.2.1⟩
        have hT2 : TFr (getS m1 i) s' :=
          ⟨hkeep.1, hkeep.2.2.1, fun h => by rw [hkeep.2.1]; exact h,
            hkeep.2.2.2.2.1, hkeep.2.2.2.2.2.1, hkeep.2.2.2.2.2.2.1,
            hkeep.2.2.2.2.2.2.2.1, hkeep.2.2.2.2.2.2.2.2.1,
            hkeep.2.2.2.2.2.2.2.2.2.1⟩
        cases e with
        | some err =>
          -- rate limited: only rateLog may change
          refine ⟨JInv_of_eqG (eqG_updS m1 i _ hG2) [] hJ1,
            fun j => TFr_updS m1 i _ hT2 j,
            fun j hg => goodP_of_eqG (eqG_updS m1 i _ hG2) j hg, ?_,
            by rw [len_updS]; rfl, ⟨[.startRec i], rfl⟩⟩
          intro j hr
          left
          rw [(eqG_updS m1 i (fun _ => s') hG2 j).2.1] at hr
          exact hr
        | none =>
          set m2 := updS m1 i (fun _ => s') with hm2
          have eG12 : ∀ j, eqG (getS m1 j) (getS m2 j) := eqG_updS m1 i _ hG2
          have fT12 : ∀ j, TFr (getS m1 j) (getS m2 j) := TFr_updS m1 i _ hT2
          set f3 := fun (s : Service) => { s with
            startTimes := s.startTimes.set (s.starts % s.rateLimit) env.now }
            with hf3
          set m3 := if 0 < (getS m2 i).rateLimit then updS m2 i f3 else m2
            with hm3
          have eG23 : ∀ j, eqG (getS m2 j) (getS m3 j) := by
            rw [hm3]
            split_ifs
            · exact eqG_updS m2 i _ ⟨rfl, rfl, rfl, rfl, rfl⟩
            · exact fun j => eqGRefl _
          have fT23 : ∀ j, TFr (getS m2 j) (getS m3 j) := by
            rw [hm3]
            split_ifs
            · exact TFr_updS m2 i _ ⟨rfl, rfl, id, rfl, rfl, rfl, rfl, rfl, rfl⟩
            · exact fun j => tfrRefl _
          have hlen3 : m3.svcs.length = m.svcs.length := by
            rw [hm3]
            split_ifs <;> simp [hm2, hm1]
          set m4 := updS m3 i (fun s => { s with starts := s.starts + 1 })
            with hm4
          have eG34 : ∀ j, eqG (getS m3 j) (getS m4 j) :=
            eqG_updS m3 i _ ⟨rfl, rfl, rfl, rfl, rfl⟩
          have fT34 : ∀ j, TFr (getS m3 j) (getS m4 j) :=
            TFr_updS m3 i _ ⟨rfl, rfl, id, rfl, rfl, rfl, rfl, rfl, rfl⟩
          set m5 := pushEv m4 (.provStart i) with hm5
          have e5 : ∀ j, getS m5 j = getS m4 j := fun j => rfl
          have eG15 : ∀ j, eqG (getS m1 j) (getS m5 j) := by
            intro j
            rw [e5]
            exact eqGTrans (eqGTrans (eG12 j) (eG23 j)) (eG34 j)
          have fT15 : ∀ j, TFr (getS m1 j) (getS m5 j) := by
            intro j
            rw [e5]
            exact tfrComp (tfrComp (fT12 j) (fT23 j)) (fT34 j)
          have hJ5 : JInv m5 [] := JInv_of_eqG eG15 [] hJ1
          have hrun5 : (getS m5 i).running = false := by
            rw [(eG15 i).2.1]
            exact hrun
          have hlen5 : m5.svcs.length = m.svcs.length := by
            rw [hm5]
            show m4.svcs.length = m.svcs.length
            rw [hm4, len_updS]
            exact hlen3
          have hevs5 : m5.evs = m.evs ++ [.startRec i, .provStart i] := by
            have hevs3 : m3.evs = m1.evs := by
              rw [hm3]
              split_ifs <;> rfl
            rw [hm5]
            show m4.evs ++ [Ev.provStart i] = m.evs ++ [.startRec i, .provStart i]
            rw [show m4.evs = m3.evs from rfl, hevs3,
              show m1.evs = m.evs ++ [Ev.startRec i] from rfl, List.append_assoc]
            rfl
          cases hse : env.startErr i with
          | some msg =>
            -- provider.Start failed: latch the fault, no propagation
            set f6 := fun (s : Service) => { s with
              reason := "Failed to start:" ++ msg, stamp := env.now
              err := some (GErr.provErr msg), failed := true } with hf6
            have hT6 : TFr (getS m5 i) (f6 (getS m5 i)) :=
              ⟨rfl, rfl, id, rfl, rfl, rfl, rfl, rfl, rfl⟩
            have g6ne : ∀ j, j ≠ i → getS (updS m5 i f6) j = getS m5 j :=
              fun j hj => getS_updS_ne m5 i j f6 hj
            have hrun6 : ∀ j, (getS (updS m5 i f6) j).running = (getS m5 j).running := by
              intro j
              by_cases hj : j = i
              · subst hj
                by_cases hl : j < m5.svcs.length
                · rw [getS_updS_self m5 j f6 hl]
                · rw [getS_updS_out m5 j j f6 (by omega)]
              · rw [g6ne j hj]
            refine ⟨?_, fun j => tfrComp (fT15 j) (TFr_updS m5 i f6 hT6 j),
              ?_, ?_, by rw [len_updS]; exact hlen5,
              ⟨[.startRec i, .provStart i], by rw [evs_updS, hevs5]⟩⟩
            · -- invariant: i is not running, so latching failed is harmless
              intro k hrk hsk e hek
              by_cases hk : k = i
              · subst hk
                rw [hrun6 k, hrun5] at hrk
                cases hrk
              · rw [g6ne k hk] at hrk hsk hek
                rcases hJ5 k hrk hsk e hek with ⟨j, hj, hg⟩ | hc
                · have hji : j ≠ i := by
                    intro h
                    subst h
                    have hx := hg.2.1
                    rw [hrun5] at hx
                    cases hx
                  refine Or.inl ⟨j, hj, ?_⟩
                  show goodP (updS m5 i f6) j
                  unfold goodP
                  rw [g6ne j hji]
                  exact hg
                · obtain ⟨p, hp, -⟩ := hc
                  exact absurd hp (List.not_mem_nil p)
            · intro j hg
              have hg5 := goodP_of_eqG eG15 j hg
              have hji : j ≠ i := by
                intro h
                subst h
                have hx := hg5.2.1
                rw [hrun5] at hx
                exact absurd hx (by decide)
              show goodP (updS m5 i f6) j
              unfold goodP
              rw [g6ne j hji]
              exact hg5
            · intro j hr
              left
              rw [hrun6 j, (eG15 j).2.1] at hr
              exact hr
          | none =>
            -- the provider started: mark running and visit the children
            set f6 := fun (s : Service) => { s with
              reason := "Started: " ++ detail, stamp := env.now
              running := true, failed := false } with hf6
            have hcan1 := (canRun_iff m1 i).1 hcan
            have hl5 : i < m5.svcs.length := by
              rw [hlen5]
              exact lt_length_of_enabled hcan1.2.1
            set m6 := updS m5 i f6 with hm6
            have g6 : getS m6 i = f6 (getS m5 i) := getS_updS_self m5 i f6 hl5
            have g6ne : ∀ j, j ≠ i → getS m6 j = getS m5 j :=
              fun j hj => getS_updS_ne m5 i j f6 hj
            have hT6 : TFr (getS m5 i) (f6 (getS m5 i)) :=
              ⟨rfl, rfl, fun _ => rfl, rfl, rfl, rfl, rfl, rfl, rfl⟩
            have fT16 : ∀ j, TFr (getS m1 j) (getS m6 j) :=
              fun j => tfrComp (fT15 j) (TFr_updS m5 i f6 hT6 j)
            have good16 : ∀ j, goodP m1 j → goodP m6 j := by
              intro j hg
              have hg5 := goodP_of_eqG eG15 j hg
              by_cases hj : j = i
              · subst hj
                have hx := hg5.2.1
                rw [hrun5] at hx
                exact absurd hx (by decide)
              · show goodP m6 j
                unfold goodP
                rw [g6ne j hj]
                exact hg5
            have hJ6 : JInv m6 [] := by
              intro k hrk hsk e hek
              by_cases hk : k = i
              · subst hk
                rw [g6] at hek
                have hek1 : e ∈ (getS m1 k).parents := by
                  have hp : (getS m5 k).parents = (getS m1 k).parents :=
                    (eG15 k).2.2.2.2
                  rw [show (f6 (getS m5 k)).parents = (getS m5 k).parents from rfl,
                    hp] at hek
                  exact hek
                obtain ⟨j, hj, hg1⟩ := hcan1.2.2.1 e hek1
                have hji : j ≠ k := by
                  intro h
                  rw [h] at hg1
                  have hx := hg1.2.1
                  rw [hrun] at hx
                  cases hx
                refine Or.inl ⟨j, hj, ?_⟩
                show goodP m6 j
                unfold goodP
                rw [g6ne j hji]
                exact goodP_of_eqG eG15 j hg1
              · rw [g6ne k hk] at hrk hsk hek
                rcases hJ5 k hrk hsk e hek with ⟨j, hj, hg⟩ | hc
                · have hji : j ≠ i := by
                    intro h
                    subst h
                    have hx := hg.2.1
                    rw [hrun5] at hx
                    cases hx
                  refine Or.inl ⟨j, hj, ?_⟩
                  show goodP m6 j
                  unfold goodP
                  rw [g6ne j hji]
                  exact hg
                · obtain ⟨p, hp, -⟩ := hc
                  exact absurd hp (List.not_mem_nil p)
            have foldpost := fold_sound ((getS m6 i).children) m6 hJ6
            refine ⟨foldpost.jinv,
              fun j => tfrComp (fT16 j) (foldpost.fr j),
              fun j hg => foldpost.good j (good16 j hg), ?_, ?_, ?_⟩
            · intro j hr
              rcases foldpost.runEn j hr with h | h
              · by_cases hj : j = i
                · subst hj
                  right
                  rw [(foldpost.fr j).enabled, g6,
                    show (f6 (getS m5 j)).enabled = (getS m5 j).enabled from rfl,
                    (eG15 j).1]
                  exact hcan1.2.1
                · left
                  rw [g6ne j hj, (eG15 j).2.1] at h
                  exact h
              · exact Or.inr h
            · rw [foldpost.len, hm6, len_updS]
              exact hlen5
            · obtain ⟨E, hE⟩ := foldpost.evs
              refine ⟨[.startRec i, .provStart i] ++ E, ?_⟩
              rw [hE, show m6.evs = m5.evs from rfl, hevs5, List.append_assoc]
      · rw [if_pos (by rw [Bool.not_eq_true] at hcan; rw [Bool.not_eq_true']; exact hcan)]
        exact ⟨hJ1, fun j => tfrRefl _, fun j h => h, fun j h => Or.inl h, rfl,
          ⟨[.startRec i], rfl⟩⟩

theorem eqGRRefl (a : Service) : eqGR a a :=
  ⟨rfl, rfl, rfl, rfl, rfl, rfl, rfl, rfl⟩

theorem eqGRTrans {a b c : Service} (h1 : eqGR a b) (h2 : eqGR b c) : eqGR a c :=
  ⟨h2.1.trans h1.1, h2.2.1.trans h1.2.1, h2.2.2.1.trans h1.2.2.1,
    h2.2.2.2.1.trans h1.2.2.2.1, h2.2.2.2.2.1.trans h1.2.2.2.2.1,
    h2.2.2.2.2.2.1.trans h1.2.2.2.2.2.1,
    h2.2.2.2.2.2.2.1.trans h1.2.2.2.2.2.2.1,
    h2.2.2.2.2.2.2.2.trans h1.2.2.2.2.2.2.2⟩

theorem GInv_transport {m m' : MState}
    (h : ∀ j, eqGR (getS m j) (getS m' j)) (g : GInv m) : GInv m' := by
  refine ⟨?_, ?_, ?_, ?_, ?_, ?_, ?_⟩
  · intro j; rw [(h j).2.2.1]; exact g.nostop j
  · intro j hr
    rw [(h j).2.1] at hr
    rw [(h j).1]
    exact g.runEn j hr
  · intro j he
    rw [(h j).1] at he
    rw [(h j).2.2.2.2.1]
    exact g.enReg j he
  · intro j hr
    rw [(h j).2.2.2.2.1] at hr
    rw [(h j).2.2.2.2.2.2.1, (h j).2.2.2.2.2.1]
    exact g.keys j hr
  · exact JInv_transport (fun j => ⟨(h j).1, (h j).2.1, (h j).2.2.1,
      (h j).2.2.2.1, (h j).2.2.2.2.2.2.1⟩) [] g.jinv
  · exact EdgeSym_transport (fun j => (h j).2.2.2.2.2.2.1)
      (fun j => (h j).2.2.2.2.2.2.2) g.esym
  · intro j hjr c e he
    rw [(h j).2.2.2.2.1] at hjr
    rw [(h c).2.2.2.2.2.2.1] at he
    exact g.fresh j hjr c e he

/-- Pointwise `eqGR` for an update whose effect preserves those fields. -/
theorem eqGR_updS (m : MState) (i : Nat) (f : Service → Service)
    (hf : eqGR (getS m i) (f (getS m i))) :
    ∀ j, eqGR (getS m j) (getS (updS m i f) j) := by
  intro j
  by_cases hj : j = i
  · subst hj
    by_cases hl : j < m.svcs.length
    · rw [getS_updS_self m j f hl]; exact hf
    · rw [getS_updS_out m j j f (by omega)]; exact eqGRRefl _
  · rw [getS_updS_ne m i j f hj]; exact eqGRRefl _

/-- A `StartPost` step preserves the global invariant. -/
theorem GInv_of_StartPost {m m' : MState} (g : GInv m) (p : StartPost m m') :
    GInv m' := by
  refine ⟨?_, ?_, ?_, ?_, p.jinv, ?_, ?_⟩
  · intro j; rw [(p.fr j).stopping]; exact g.nostop j
  · intro j hr
    rcases p.runEn j hr with h | h
    · rw [(p.fr j).enabled]; exact g.runEn j h
    · exact h
  · intro j he
    rw [(p.fr j).enabled] at he
    rw [(p.fr j).registered]
    exact g.enReg j he
  · intro j hr
    rw [(p.fr j).registered] at hr
    rw [(p.fr j).parents, (p.fr j).depends]
    exact g.keys j hr
  · exact EdgeSym_transport (fun j => (p.fr j).parents)
      (fun j => (p.fr j).children) g.esym
  · intro j hjr c e he
    rw [(p.fr j).registered] at hjr
    rw [(p.fr c).parents] at he
    exact g.fresh j hjr c e he

/-- A `StopPost` step (with empty context) restores the global invariant,
given the invariant held except possibly for the running/enabled link of the
service being stopped. -/
theorem GInv_of_StopPost {m m' : MState} {s : Nat}
    (hns : ∀ j, (getS m j).stopping = false)
    (hre : ∀ j, j ≠ s → (getS m j).running = true → (getS m j).enabled = true)
    (her : ∀ j, (getS m j).enabled = true → (getS m j).registered = true)
    (hk : ∀ j, (getS m j).registered = true →
      (getS m j).parents.map Prod.fst = (getS m j).depends)
    (hsym : EdgeSym m)
    (hfr : ∀ j, (getS m j).registered = false →
      ∀ c e, e ∈ (getS m c).parents → j ∉ e.2)
    (p : StopPost s [] m m') : GInv m' := by
  refine ⟨?_, ?_, ?_, ?_, p.jinv, ?_, ?_⟩
  · intro j; rw [(p.fr j).stopping]; exact hns j
  · intro j hr
    by_cases hj : j = s
    · subst hj
      rw [p.stopped (hns j)] at hr
      cases hr
    · rw [(p.fr j).enabled]
      exact hre j hj ((p.fr j).runMono hr)
  · intro j he
    rw [(p.fr j).enabled] at he
    rw [(p.fr j).registered]
    exact her j he
  · intro j hr
    rw [(p.fr j).registered] at hr
    rw [(p.fr j).parents, (p.fr j).depends]
    exact hk j hr
  · exact EdgeSym_transport (fun j => (p.fr j).parents)
      (fun j => (p.fr j).children) hsym
  · intro j hjr c e he
    rw [(p.fr j).registered] at hjr
    rw [(p.fr c).parents] at he
    exact hfr j hjr c e he

/-- Updating one service in a way that keeps `running`, `stopping` and
`parents`, and can only improve its liveness, preserves the dependency
invariant. -/
theorem JInv_updS_mono (m : MState) (i : Nat) (f : Service → Service)
    (hrun : (f (getS m i)).running = (getS m i).running)
    (hstp : (f (getS m i)).stopping = (getS m i).stopping)
    (hpar : (f (getS m i)).parents = (getS m i).parents)
    (hgood : goodP m i → ((f (getS m i)).enabled = true ∧
      (f (getS m i)).failed = false))
    (hJ : JInv m []) : JInv (updS m i f) [] := by
  have hne : ∀ j, j ≠ i → getS (updS m i f) j = getS m j :=
    fun j hj => getS_updS_ne m i j f hj
  have hself : ∀ j, j = i → (getS (updS m i f) j).running = (getS m j).running
      ∧ (getS (updS m i f) j).stopping = (getS m j).stopping
      ∧ (getS (updS m i f) j).parents = (getS m j).parents := by
    intro j hj
    subst hj
    by_cases hl : j < m.svcs.length
    · rw [getS_updS_self m j f hl]
      exact ⟨hrun, hstp, hpar⟩
    · rw [getS_updS_out m j j f (by omega)]
      exact ⟨rfl, rfl, rfl⟩
  intro k hrk hsk e hek
  have hk3 : (getS m k).running = true ∧ (getS m k).stopping = false ∧
      e ∈ (getS m k).parents := by
    by_cases hki : k = i
    · obtain ⟨h1, h2, h3⟩ := hself k hki
      rw [h1] at hrk
      rw [h2] at hsk
      rw [h3] at hek
      exact ⟨hrk, hsk, hek⟩
    · rw [hne k hki] at hrk hsk hek
      exact ⟨hrk, hsk, hek⟩
  rcases hJ k hk3.1 hk3.2.1 e hk3.2.2 with ⟨j, hj, hg⟩ | hc
  · refine Or.inl ⟨j, hj, ?_⟩
    by_cases hji : j = i
    · subst hji
      obtain ⟨he, hf⟩ := hgood hg
      by_cases hl : j < m.svcs.length
      · show goodP (updS m j f) j
        unfold goodP
        rw [getS_updS_self m j f hl]
        exact ⟨he, hrun.trans hg.2.1, hstp.trans hg.2.2.1, hf⟩
      · show goodP (updS m j f) j
        unfold goodP
        rw [getS_updS_out m j j f (by omega)]
        exact hg
    · show goodP (updS m i f) j
      unfold goodP
      rw [hne j hji]
      exact hg
  · obtain ⟨p, hp, -⟩ := hc
    exact absurd hp (List.not_mem_nil p)

theorem muRS_le_len (l : List Service) : muRS l ≤ l.length :=
  List.countP_le_length _

theorem field_updS (m : MState) (i : Nat) (f : Service → Service) (j : Nat) :
    getS (updS m i f) j = getS m j ∨
      (j = i ∧ j < m.svcs.length ∧ getS (updS m i f) j = f (getS m j)) := by
  by_cases hj : j = i
  · subst hj
    by_cases hl : j < m.svcs.length
    · exact Or.inr ⟨rfl, hl, getS_updS_self m j f hl⟩
    · exact Or.inl (getS_updS_out m j j f (by omega))
  · exact Or.inl (getS_updS_ne m i j f hj)

/-! ### Preservation of the global invariant by each operation -/

theorem Enable_eq (env : Env) (i : Nat) (m : MState) :
    Enable env i m =
      if !(getS m i).registered then (some .noManager, m)
      else if (getS m i).enabled then (none, m)
      else if (getS m i).incompat.any (fun c => (getS m c).enabled) then
        (some .conflict, m)
      else
        (none, startRecurse env
          (bigFuel (updS m i (fun s => { s with
            reason := "Waiting to start", stamp := env.now
            enabled := true, starts := 0 })))
          "Enabled service" i
          (updS m i (fun s => { s with
            reason := "Waiting to start", stamp := env.now
            enabled := true, starts := 0 }))) := rfl

theorem Enable_pres (env : Env) (i : Nat) {m : MState} (g : GInv m) :
    GInv (Enable env i m).2 := by
  rw [Enable_eq]
  split_ifs with h1 h2 h3
  · exact g
  · exact g
  · exact g
  · have hreg : (getS m i).registered = true := by
      revert h1; cases (getS m i).registered <;> simp
    set fA := fun (s : Service) => { s with
      reason := "Waiting to start", stamp := env.now
      enabled := true, starts := 0 } with hfA
    set mA := updS m i fA with hmA
    have gA : GInv mA := by
      refine ⟨?_, ?_, ?_, ?_, ?_, ?_, ?_⟩
      · intro j
        rcases field_updS m i fA j with h | ⟨rfl, hl, h⟩ <;> rw [h]
        · exact g.nostop j
        · exact g.nostop j
      · intro j hr
        rcases field_updS m i fA j with h | ⟨rfl, hl, h⟩
        · rw [h] at hr ⊢; exact g.runEn j hr
        · rw [h]
      · intro j he
        rcases field_updS m i fA j with h | ⟨rfl, hl, h⟩ <;> rw [h] at he ⊢
        · exact g.enReg j he
        · exact hreg
      · intro j hr
        rcases field_updS m i fA j with h | ⟨rfl, hl, h⟩ <;> rw [h] at hr ⊢
        · exact g.keys j hr
        · exact g.keys j hr
      · refine JInv_updS_mono m i fA rfl rfl rfl ?_ g.jinv
        intro hg
        exact ⟨rfl, hg.2.2.2⟩
      · refine EdgeSym_transport (fun j => ?_) (fun j => ?_) g.esym <;>
          rcases field_updS m i fA j with h | ⟨rfl, hl, h⟩ <;> rw [h]
      · intro j hjr c e he
        have hjr' : (getS m j).registered = false := by
          rcases field_updS m i fA j with h | ⟨rfl, hl, h⟩ <;> rw [h] at hjr <;>
            exact hjr
        have he' : e ∈ (getS m c).parents := by
          rcases field_updS m i fA c with h | ⟨rfl, hl, h⟩ <;> rw [h] at he <;>
            exact he
        exact g.fresh j hjr' c e he'
    exact GInv_of_StartPost gA (startRecurse_sound _ env _ i mA gA.jinv)

theorem Disable_eq (env : Env) (i : Nat) (m : MState) :
    Disable env i m =
      if !(getS m i).registered then (some .noManager, m)
      else if !(getS m i).enabled then (none, m)
      else
        (none, stopRecurse env
          (bigFuel (updS m i (fun s => { s with
            stamp := env.now, reason := "Disabled service"
            enabled := false, failed := false, err := none })))
          "Disabled service" i
          (updS m i (fun s => { s with
            stamp := env.now, reason := "Disabled service"
            enabled := false, failed := false, err := none }))) := rfl

theorem Disable_pres (env : Env) (i : Nat) {m : MState} (g : GInv m) :
    GInv (Disable env i m).2 := by
  rw [Disable_eq]
  split_ifs with h1 h2
  · exact g
  · exact g
  · set fD := fun (s : Service) => { s with
      stamp := env.now, reason := "Disabled service"
      enabled := false, failed := false, err := none } with hfD
    set mA := updS m i fD with hmA
    have hns : ∀ j, (getS mA j).stopping = false := by
      intro j
      rcases field_updS m i fD j with h | ⟨rfl, hl, h⟩ <;> rw [h]
      · exact g.nostop j
      · exact g.nostop j
    have hre : ∀ j, j ≠ i → (getS mA j).running = true →
        (getS mA j).enabled = true := by
      intro j hj hr
      rw [getS_updS_ne m i j fD hj] at hr ⊢
      exact g.runEn j hr
    have her : ∀ j, (getS mA j).enabled = true → (getS mA j).registered = true := by
      intro j he
      rcases field_updS m i fD j with h | ⟨rfl, hl, h⟩ <;> rw [h] at he ⊢
      · exact g.enReg j he
      · cases he
    have hk : ∀ j, (getS mA j).registered = true →
        (getS mA j).parents.map Prod.fst = (getS mA j).depends := by
      intro j hr
      rcases field_updS m i fD j with h | ⟨rfl, hl, h⟩ <;> rw [h] at hr ⊢
      · exact g.keys j hr
      · exact g.keys j hr
    have hsymA : EdgeSym mA := by
      refine EdgeSym_transport (fun j => ?_) (fun j => ?_) g.esym <;>
        rcases field_updS m i fD j with h | ⟨rfl, hl, h⟩ <;> rw [h]
    have hX : JInvX mA [] i := by
      intro k hki hrk hsk e hek
      rw [getS_updS_ne m i k fD hki] at hrk hsk hek
      rcases g.jinv k hrk hsk e hek with ⟨j, hj, hg⟩ | hc
      · by_cases hji : j = i
        · rw [hji] at hj hg
          refine Or.inr (Or.inl ⟨hj, ?_, ?_⟩)
          · rcases field_updS m i fD i with h | ⟨-, hl, h⟩ <;> rw [h]
            · exact hg.2.1
            · exact hg.2.1
          · rcases field_updS m i fD i with h | ⟨-, hl, h⟩ <;> rw [h]
            · exact hg.2.2.1
            · exact hg.2.2.1
        · refine Or.inl ⟨j, hj, ?_⟩
          show goodP mA j
          unfold goodP
          rw [getS_updS_ne m i j fD hji]
          exact hg
      · obtain ⟨p, hp, -⟩ := hc
        exact absurd hp (List.not_mem_nil p)
    have hfrA : ∀ j, (getS mA j).registered = false →
        ∀ c e, e ∈ (getS mA c).parents → j ∉ e.2 := by
      intro j hjr c e he
      have hjr' : (getS m j).registered = false := by
        rcases field_updS m i fD j with h | ⟨rfl, hl, h⟩ <;> rw [h] at hjr <;>
          exact hjr
      have he' : e ∈ (getS m c).parents := by
        rcases field_updS m i fD c with h | ⟨rfl, hl, h⟩ <;> rw [h] at he <;>
          exact he
      exact g.fresh j hjr' c e he'
    have post := stopRecurse_sound (bigFuel mA) env "Disabled service" i mA []
      (by have := muRS_le_len mA.svcs; unfold bigFuel; omega) hsymA hX
    exact GInv_of_StopPost hns hre her hk hsymA hfrA post

theorem Restart_eq (env : Env) (i : Nat) (m : MState) :
    Restart env i m =
      if !(getS m i).registered then (some .noManager, m)
      else if !(getS m i).enabled then (none, m)
      else
        (none, startRecurse env (bigFuel (restartMid env i m))
          "Restarted service" i (restartMid env i m)) := rfl

theorem Restart_pres (env : Env) (i : Nat) {m : MState} (g : GInv m) :
    GInv (Restart env i m).2 := by
  rw [Restart_eq]
  split_ifs with h1 h2
  · exact g
  · exact g
  · have hreg : (getS m i).registered = true := by
      revert h1; cases (getS m i).registered <;> simp
    set f1 := fun (s : Service) => { s with enabled := false } with hf1
    set mA := updS m i f1 with hmA
    have hns : ∀ j, (getS mA j).stopping = false := by
      intro j
      rcases field_updS m i f1 j with h | ⟨rfl, hl, h⟩ <;> rw [h]
      · exact g.nostop j
      · exact g.nostop j
    have hre : ∀ j, j ≠ i → (getS mA j).running = true →
        (getS mA j).enabled = true := by
      intro j hj hr
      rw [getS_updS_ne m i j f1 hj] at hr ⊢
      exact g.runEn j hr
    have her : ∀ j, (getS mA j).enabled = true → (getS mA j).registered = true := by
      intro j he
      rcases field_updS m i f1 j with h | ⟨rfl, hl, h⟩ <;> rw [h] at he ⊢
      · exact g.enReg j he
      · cases he
    have hk : ∀ j, (getS mA j).registered = true →
        (getS mA j).parents.map Prod.fst = (getS mA j).depends := by
      intro j hr
      rcases field_updS m i f1 j with h | ⟨rfl, hl, h⟩ <;> rw [h] at hr ⊢
      · exact g.keys j hr
      · exact g.keys j hr
    have hsymA : EdgeSym mA := by
      refine EdgeSym_transport (fun j => ?_) (fun j => ?_) g.esym <;>
        rcases field_updS m i f1 j with h | ⟨rfl, hl, h⟩ <;> rw [h]
    have hX : JInvX mA [] i := by
      intro k hki hrk hsk e hek
      rw [getS_updS_ne m i k f1 hki] at hrk hsk hek
      rcases g.jinv k hrk hsk e hek with ⟨j, hj, hg⟩ | hc
      · by_cases hji : j = i
        · rw [hji] at hj hg
          refine Or.inr (Or.inl ⟨hj, ?_, ?_⟩)
          · rcases field_updS m i f1 i with h | ⟨-, hl, h⟩ <;> rw [h]
            · exact hg.2.1
            · exact hg.2.1
          · rcases field_updS m i f1 i with h | ⟨-, hl, h⟩ <;> rw [h]
            · exact hg.2.2.1
            · exact hg.2.2.1
        · refine Or.inl ⟨j, hj, ?_⟩
          show goodP mA j
          unfold goodP
          rw [getS_updS_ne m i j f1 hji]
          exact hg
      · obtain ⟨p, hp, -⟩ := hc
        exact absurd hp (List.not_mem_nil p)
    have hfrA : ∀ j, (getS mA j).registered = false →
        ∀ c e, e ∈ (getS mA c).parents → j ∉ e.2 := by
      intro j hjr c e he
      have hjr' : (getS m j).registered = false := by
        rcases field_updS m i f1 j with h | ⟨rfl, hl, h⟩ <;> rw [h] at hjr <;>
          exact hjr
      have he' : e ∈ (getS m c).parents := by
        rcases field_updS m i f1 c with h | ⟨rfl, hl, h⟩ <;> rw [h] at he <;>
          exact he
      exact g.fresh j hjr' c e he'
    have post := stopRecurse_sound (bigFuel mA) env "Restarted service" i mA []
      (by have := muRS_le_len mA.svcs; unfold bigFuel; omega) hsymA hX
    have gB := GInv_of_StopPost hns hre her hk hsymA hfrA post
    set mB := stopRecurse env (bigFuel mA) "Restarted service" i mA with hmB
    have hregB : (getS mB i).registered = true := by
      rw [(post.fr i).registered]
      rcases field_updS m i f1 i with hh | ⟨-, hl, hh⟩ <;> rw [hh]
      · exact hreg
      · exact hreg
    set f2 := fun (s : Service) => { s with
      stamp := env.now, reason := "Restarted service", starts := 0
      failed := false, err := none, enabled := true } with hf2
    rw [show restartMid env i m = updS mB i f2 from rfl]
    have gC : GInv (updS mB i f2) := by
      refine ⟨?_, ?_, ?_, ?_, ?_, ?_, ?_⟩
      · intro j
        rcases field_updS mB i f2 j with h | ⟨rfl, hl, h⟩ <;> rw [h]
        · exact gB.nostop j
        · exact gB.nostop j
      · intro j hr
        rcases field_updS mB i f2 j with h | ⟨rfl, hl, h⟩
        · rw [h] at hr ⊢; exact gB.runEn j hr
        · rw [h]
      · intro j he
        rcases field_updS mB i f2 j with h | ⟨rfl, hl, h⟩ <;> rw [h] at he ⊢
        · exact gB.enReg j he
        · exact hregB
      · intro j hr
        rcases field_updS mB i f2 j with h | ⟨rfl, hl, h⟩ <;> rw [h] at hr ⊢
        · exact gB.keys j hr
        · exact gB.keys j hr
      · refine JInv_updS_mono mB i f2 rfl rfl rfl ?_ gB.jinv
        intro hg
        exact ⟨rfl, rfl⟩
      · refine EdgeSym_transport (fun j => ?_) (fun j => ?_) gB.esym <;>
          rcases field_updS mB i f2 j with h | ⟨rfl, hl, h⟩ <;> rw [h]
      · intro j hjr c e he
        have hjr' : (getS mB j).registered = false := by
          rcases field_updS mB i f2 j with h | ⟨rfl, hl, h⟩ <;> rw [h] at hjr <;>
            exact hjr
        have he' : e ∈ (getS mB c).parents := by
          rcases field_updS mB i f2 c with h | ⟨rfl, hl, h⟩ <;> rw [h] at he <;>
            exact he
        exact gB.fresh j hjr' c e he'
    exact GInv_of_StartPost gC (startRecurse_sound _ env _ i _ gC.jinv)

theorem Clear_eq (env : Env) (i : Nat) (m : MState) :
    Clear env i m =
      if !(getS m i).registered then m
      else startRecurse env (bigFuel (clearMid env i m)) "Cleared fault" i
        (clearMid env i m) := rfl

theorem Clear_pres (env : Env) (i : Nat) {m : MState} (g : GInv m) :
    GInv (Clear env i m) := by
  rw [Clear_eq]
  split_ifs with h1
  · exact g
  · set fc1 := fun (s : Service) => { s with
      reason := "Cleared fault", stamp := env.now } with hfc1
    set mA := if (getS m i).failed = true then updS m i fc1 else m with hmA
    have gA : GInv mA := by
      rw [hmA]
      split_ifs with hf
      · exact GInv_transport
          (eqGR_updS m i fc1 ⟨rfl, rfl, rfl, rfl, rfl, rfl, rfl, rfl⟩) g
      · exact g
    set fc2 := fun (s : Service) => { s with
      starts := 0, failed := false, err := none } with hfc2
    rw [show clearMid env i m = updS mA i fc2 from rfl]
    have gB : GInv (updS mA i fc2) := by
      refine ⟨?_, ?_, ?_, ?_, ?_, ?_, ?_⟩
      · intro j
        rcases field_updS mA i fc2 j with h | ⟨rfl, hl, h⟩ <;> rw [h]
        · exact gA.nostop j
        · exact gA.nostop j
      · intro j hr
        rcases field_updS mA i fc2 j with h | ⟨rfl, hl, h⟩ <;> rw [h] at hr ⊢
        · exact gA.runEn j hr
        · exact gA.runEn j hr
      · intro j he
        rcases field_updS mA i fc2 j with h | ⟨rfl, hl, h⟩ <;> rw [h] at he ⊢
        · exact gA.enReg j he
        · exact gA.enReg j he
      · intro j hr
        rcases field_updS mA i fc2 j with h | ⟨rfl, hl, h⟩ <;> rw [h] at hr ⊢
        · exact gA.keys j hr
        · exact gA.keys j hr
      · refine JInv_updS_mono mA i fc2 rfl rfl rfl ?_ gA.jinv
        intro hg
        exact ⟨hg.1, rfl⟩
      · refine EdgeSym_transport (fun j => ?_) (fun j => ?_) gA.esym <;>
          rcases field_updS mA i fc2 j with h | ⟨rfl, hl, h⟩ <;> rw [h]
      · intro j hjr c e he
        have hjr' : (getS mA j).registered = false := by
          rcases field_updS mA i fc2 j with h | ⟨rfl, hl, h⟩ <;> rw [h] at hjr <;>
            exact hjr
        have he' : e ∈ (getS mA c).parents := by
          rcases field_updS mA i fc2 c with h | ⟨rfl, hl, h⟩ <;> rw [h] at he <;>
            exact he
        exact gA.fresh j hjr' c e he'
    exact GInv_of_StartPost gB (startRecurse_sound _ env _ i _ gB.jinv)

theorem checkService_eq (env : Env) (i : Nat) (m : MState) :
    checkService env i m =
      if (getS m i).failed then ((getS m i).err, pushEv m (Ev.checkSvc i))
      else if !(getS m i).running then
        (some .notRunning, pushEv m (Ev.checkSvc i))
      else
        match env.checkErr i with
        | some msg => (some (.provErr msg), chkFault env msg i m)
        | none =>
          (none, updS (chkPre i m) i (fun s => { s with checking := false })) :=
  rfl

theorem checkService_pres (env : Env) (i : Nat) {m : MState} (g : GInv m) :
    GInv (checkService env i m).2 := by
  rw [checkService_eq]
  have g2 : GInv (chkPre i m) := by
    refine GInv_transport (fun j => ?_) g
    have h := eqGR_updS (pushEv m (Ev.checkSvc i)) i
      (fun s => { s with checking := true })
      ⟨rfl, rfl, rfl, rfl, rfl, rfl, rfl, rfl⟩ j
    exact h
  split_ifs with h1 h2
  · exact GInv_transport (fun j => eqGRRefl (getS m j)) g
  · exact GInv_transport (fun j => eqGRRefl (getS m j)) g
  · rcases hc : env.checkErr i with - | msg
    · exact GInv_transport
        (eqGR_updS (chkPre i m) i (fun s => { s with checking := false })
          ⟨rfl, rfl, rfl, rfl, rfl, rfl, rfl, rfl⟩) g2
    · have hrun : (getS m i).running = true := by
        revert h2; cases (getS m i).running <;> simp
      set m2 := chkPre i m with hm2
      have hgs2 : ∀ j, getS m2 j = getS (updS m i
          (fun s => { s with checking := true })) j := fun j => rfl
      set ff := fun (s : Service) => { s with failed := true } with hff
      set mC := updS m2 i ff with hmC
      have hns : ∀ j, (getS mC j).stopping = false := by
        intro j
        rcases field_updS m2 i ff j with h | ⟨rfl, hl, h⟩ <;> rw [h]
        · exact g2.nostop j
        · exact g2.nostop j
      have hre : ∀ j, j ≠ i → (getS mC j).running = true →
          (getS mC j).enabled = true := by
        intro j hj hr
        rw [getS_updS_ne m2 i j ff hj] at hr ⊢
        exact g2.runEn j hr
      have her : ∀ j, (getS mC j).enabled = true →
          (getS mC j).registered = true := by
        intro j he
        rcases field_updS m2 i ff j with h | ⟨rfl, hl, h⟩ <;> rw [h] at he ⊢
        · exact g2.enReg j he
        · exact g2.enReg j he
      have hk : ∀ j, (getS mC j).registered = true →
          (getS mC j).parents.map Prod.fst = (getS mC j).depends := by
        intro j hr
        rcases field_updS m2 i ff j with h | ⟨rfl, hl, h⟩ <;> rw [h] at hr ⊢
        · exact g2.keys j hr
        · exact g2.keys j hr
      have hsymC : EdgeSym mC := by
        refine EdgeSym_transport (fun j => ?_) (fun j => ?_) g2.esym <;>
          rcases field_updS m2 i ff j with h | ⟨rfl, hl, h⟩ <;> rw [h]
      have hX : JInvX mC [] i := by
        intro k hki hrk hsk e hek
        rw [getS_updS_ne m2 i k ff hki] at hrk hsk hek
        rcases g2.jinv k hrk hsk e hek with ⟨j, hj, hg⟩ | hcx
        · by_cases hji : j = i
          · rw [hji] at hj hg
            refine Or.inr (Or.inl ⟨hj, ?_, ?_⟩)
            · rcases field_updS m2 i ff i with h | ⟨-, hl, h⟩ <;> rw [h]
              · exact hg.2.1
              · exact hg.2.1
            · rcases field_updS m2 i ff i with h | ⟨-, hl, h⟩ <;> rw [h]
              · exact hg.2.2.1
              · exact hg.2.2.1
          · refine Or.inl ⟨j, hj, ?_⟩
            show goodP mC j
            unfold goodP
            rw [getS_updS_ne m2 i j ff hji]
            exact hg
        · obtain ⟨p, hp, -⟩ := hcx
          exact absurd hp (List.not_mem_nil p)
      have hfrC : ∀ j, (getS mC j).registered = false →
          ∀ c e, e ∈ (getS mC c).parents → j ∉ e.2 := by
        intro j hjr c e he
        have hjr' : (getS m2 j).registered = false := by
          rcases field_updS m2 i ff j with h | ⟨rfl, hl, h⟩ <;> rw [h] at hjr <;>
            exact hjr
        have he' : e ∈ (getS m2 c).parents := by
          rcases field_updS m2 i ff c with h | ⟨rfl, hl, h⟩ <;> rw [h] at he <;>
            exact he
        exact g2.fresh j hjr' c e he'
      have post := stopRecurse_sound (bigFuel mC) env ("Faulted: " ++ msg) i mC []
        (by have := muRS_le_len mC.svcs; unfold bigFuel; omega) hsymC hX
      have gD := GInv_of_StopPost hns hre her hk hsymC hfrC post
      set mD := stopRecurse env (bigFuel mC) ("Faulted: " ++ msg) i mC with hmD
      show GInv (updS mD i
        (fun s => { s with err := some (GErr.provErr msg), checking := false }))
      exact GInv_transport
        (eqGR_updS mD i
          (fun s => { s with err := some (GErr.provErr msg), checking := false })
          ⟨rfl, rfl, rfl, rfl, rfl, rfl, rfl, rfl⟩) gD

theorem Check_pres (env : Env) (i : Nat) {m : MState} (g : GInv m) :
    GInv (Check env i m).2 := by
  unfold Check
  split_ifs with h1
  · exact g
  · exact checkService_pres env i g

theorem selfHeal_eq (env : Env) (i : Nat) (m : MState) :
    selfHeal env i m =
      if (getS m i).failed && (getS m i).restart then
        startRecurse env (bigFuel m) "Self-healing attempt" i m
      else m := rfl

theorem selfHeal_pres (env : Env) (i : Nat) {m : MState} (g : GInv m) :
    GInv (selfHeal env i m) := by
  rw [selfHeal_eq]
  split_ifs with h1
  · exact GInv_of_StartPost g (startRecurse_sound _ env _ i m g.jinv)
  · exact g

theorem monitorStep_eq (env : Env) (m : MState) (i : Nat) :
    monitorStep env m i =
      if (getS m i).registered && (getS m i).enabled then
        match checkService env i m with
        | (some _, m1) => selfHeal env i m1
        | (none, m1) => m1
      else m := rfl

theorem monitorStep_pres (env : Env) {m : MState} (i : Nat) (g : GInv m) :
    GInv (monitorStep env m i) := by
  rw [monitorStep_eq]
  split_ifs with h1
  · rcases hcs : checkService env i m with ⟨e, m1⟩
    have g1 : GInv m1 := by
      have h := checkService_pres env i g
      rw [hcs] at h
      exact h
    cases e with
    | none => exact g1
    | some a => exact selfHeal_pres env i g1
  · exact g

theorem lt_length_of_registered {m : MState} {i : Nat}
    (h : (getS m i).registered = true) : i < m.svcs.length := by
  by_contra hlt
  rw [show getS m i = m.svcs.getD i default from rfl,
    getD_out m.svcs i (by omega)] at h
  exact absurd h (by decide)

/-! ### Characterising folds of single-field updates (for `delManager`) -/

theorem foldl_updS_len (L : List Nat) (f : Service → Service) (m : MState) :
    (L.foldl (fun m c => updS m c f) m).svcs.length = m.svcs.length := by
  induction L generalizing m with
  | nil => rfl
  | cons a L ih => rw [List.foldl_cons, ih, len_updS]

theorem foldl2_updS_len (ps : List (String × List Nat)) (f : Service → Service)
    (m : MState) :
    (ps.foldl (fun m e => e.2.foldl (fun m t => updS m t f) m) m).svcs.length =
      m.svcs.length := by
  induction ps generalizing m with
  | nil => rfl
  | cons a ps ih => rw [List.foldl_cons, ih, foldl_updS_len]

/-- Any field projection an update preserves is preserved pointwise by a
fold of that update. -/
theorem foldl_updS_proj {α : Type} (p : Service → α) (L : List Nat)
    (f : Service → Service) (hf : ∀ x, p (f x) = p x) (m : MState) :
    ∀ j, p (getS (L.foldl (fun m c => updS m c f) m) j) = p (getS m j) := by
  induction L generalizing m with
  | nil => intro j; rfl
  | cons a L ih =>
    intro j
    rw [List.foldl_cons, ih (updS m a f) j]
    rcases field_updS m a f j with h | ⟨rfl, hl, h⟩ <;> rw [h]
    exact hf _

theorem foldl2_updS_proj {α : Type} (p : Service → α)
    (ps : List (String × List Nat)) (f : Service → Service)
    (hf : ∀ x, p (f x) = p x) (m : MState) :
    ∀ j, p (getS (ps.foldl (fun m e => e.2.foldl (fun m t => updS m t f) m) m) j)
      = p (getS m j) := by
  induction ps generalizing m with
  | nil => intro j; rfl
  | cons a ps ih =>
    intro j
    rw [List.foldl_cons, ih _ j, foldl_updS_proj p a.2 f hf m j]

/-- Exclusive characterisation of a fold of an idempotent single-service
update: untouched indices keep their record, touched in-range indices get
exactly one application of `f`. -/
theorem foldl_updS_char (L : List Nat) (f : Service → Service)
    (hidem : ∀ x, f (f x) = f x) (m : MState) (j : Nat) :
    (j ∉ L → getS (L.foldl (fun m c => updS m c f) m) j = getS m j) ∧
    (j ∈ L → j < m.svcs.length →
      getS (L.foldl (fun m c => updS m c f) m) j = f (getS m j)) ∧
    (m.svcs.length ≤ j → getS (L.foldl (fun m c => updS m c f) m) j = getS m j) := by
  induction L generalizing m with
  | nil =>
    exact ⟨fun _ => rfl, fun h => absurd h (List.not_mem_nil j), fun _ => rfl⟩
  | cons a L ih =>
    obtain ⟨ih1, ih2, ih3⟩ := ih (updS m a f)
    rw [List.foldl_cons]
    refine ⟨?_, ?_, ?_⟩
    · intro hj
      have hja : j ≠ a := fun h => hj (h ▸ List.mem_cons_self a L)
      have hjL : j ∉ L := fun h => hj (List.mem_cons_of_mem a h)
      rw [ih1 hjL, getS_updS_ne m a j f hja]
    · intro hj hlt
      by_cases hjL : j ∈ L
      · rw [ih2 hjL (by rw [len_updS]; exact hlt)]
        by_cases hja : j = a
        · subst hja
          rw [getS_updS_self m j f hlt, hidem]
        · rw [getS_updS_ne m a j f hja]
      · have hja : j = a := by
          rcases List.mem_cons.mp hj with h | h
          · exact h
          · exact absurd h hjL
        subst hja
        rw [ih1 hjL, getS_updS_self m j f hlt]
    · intro hle
      rw [ih3 (by rw [len_updS]; exact hle), getS_updS_out m a j f hle]

/-- The nested version for the parents-entries fold. -/
theorem foldl2_updS_char (ps : List (String × List Nat)) (f : Service → Service)
    (hidem : ∀ x, f (f x) = f x) (m : MState) (j : Nat) :
    ((¬ ∃ e ∈ ps, j ∈ e.2) →
      getS (ps.foldl (fun m e => e.2.foldl (fun m t => updS m t f) m) m) j
        = getS m j) ∧
    ((∃ e ∈ ps, j ∈ e.2) → j < m.svcs.length →
      getS (ps.foldl (fun m e => e.2.foldl (fun m t => updS m t f) m) m) j
        = f (getS m j)) ∧
    (m.svcs.length ≤ j →
      getS (ps.foldl (fun m e => e.2.foldl (fun m t => updS m t f) m) m) j
        = getS m j) := by
  induction ps generalizing m with
  | nil =>
    refine ⟨fun _ => rfl, fun h => ?_, fun _ => rfl⟩
    obtain ⟨e, he, -⟩ := h
    exact absurd he (List.not_mem_nil e)
  | cons a ps ih =>
    obtain ⟨ih1, ih2, ih3⟩ := ih (a.2.foldl (fun m t => updS m t f) m)
    obtain ⟨in1, in2, in3⟩ := foldl_updS_char a.2 f hidem m j
    rw [List.foldl_cons]
    refine ⟨?_, ?_, ?_⟩
    · intro hj
      have hja : j ∉ a.2 := fun h => hj ⟨a, List.mem_cons_self a ps, h⟩
      have hjp : ¬ ∃ e ∈ ps, j ∈ e.2 :=
        fun ⟨e, he, hm⟩ => hj ⟨e, List.mem_cons_of_mem a he, hm⟩
      rw [ih1 hjp, in1 hja]
    · intro hj hlt
      by_cases hjp : ∃ e ∈ ps, j ∈ e.2
      · rw [ih2 hjp (by rw [foldl_updS_len]; exact hlt)]
        by_cases hja : j ∈ a.2
        · rw [in2 hja hlt, hidem]
        · rw [in1 hja]
      · have hja : j ∈ a.2 := by
          obtain ⟨e, he, hm⟩ := hj
          rcases List.mem_cons.mp he with h | h
          · exact h ▸ hm
          · exact absurd ⟨e, h, hm⟩ hjp
        rw [ih1 hjp, in2 hja hlt]
    · intro hle
      rw [ih3 (by rw [foldl_updS_len]; exact hle), in3 hle]

theorem filter_idem {α : Type} (p : α → Bool) (l : List α) :
    (l.filter p).filter p = l.filter p := by
  induction l with
  | nil => rfl
  | cons a l ih =>
    by_cases h : p a = true
    · rw [List.filter_cons_of_pos h, List.filter_cons_of_pos h, ih]
    · rw [List.filter_cons_of_neg h]; exact ih

theorem delInc_idem (i : Nat) (t : Service) :
    delInc i (delInc i t) = delInc i t := by
  show ({ t with
    incompat := (t.incompat.filter (fun x => x ≠ i)).filter (fun x => x ≠ i) }
    : Service) = { t with incompat := t.incompat.filter (fun x => x ≠ i) }
  rw [filter_idem]

theorem delChl_idem (i : Nat) (t : Service) :
    delChl i (delChl i t) = delChl i t := by
  show ({ t with
    children := (t.children.filter (fun x => x ≠ i)).filter (fun x => x ≠ i) }
    : Service) = { t with children := t.children.filter (fun x => x ≠ i) }
  rw [filter_idem]

theorem delPar_idem (i : Nat) (t : Service) :
    delPar i (delPar i t) = delPar i t := by
  show ({ t with
    parents := (t.parents.map
      (fun e => (e.1, e.2.filter (fun x => x ≠ i)))).map
        (fun e => (e.1, e.2.filter (fun x => x ≠ i))) } : Service) =
    { t with
      parents := t.parents.map (fun e => (e.1, e.2.filter (fun x => x ≠ i))) }
  rw [List.map_map]
  have h : t.parents.map
      ((fun e : String × List Nat => (e.1, e.2.filter (fun x => x ≠ i))) ∘
        (fun e : String × List Nat => (e.1, e.2.filter (fun x => x ≠ i)))) =
      t.parents.map (fun e : String × List Nat =>
        (e.1, e.2.filter (fun x => x ≠ i))) := by
    refine List.map_congr_left ?_
    intro e he
    show (e.1, (e.2.filter (fun x => x ≠ i)).filter (fun x => x ≠ i)) =
      (e.1, e.2.filter (fun x => x ≠ i))
    rw [filter_idem]
  rw [h]

theorem delManager_eq (env : Env) (i : Nat) (m : MState) :
    delManager env i m =
      if !(getS m i).registered then m
      else updS
        ((getS m i).parents.foldl
          (fun m e => e.2.foldl (fun m t => updS m t (delChl i)) m)
          ((getS m i).children.foldl (fun m c => updS m c (delPar i))
            ((getS m i).incompat.foldl (fun m c => updS m c (delInc i)) m)))
        i (delFin env) := rfl

/-- `delManager` preserves the global invariant when the departing service is
neither running nor enabled (as arranged by `Shutdown`). -/
theorem delManager_pres (env : Env) (i : Nat) {m : MState} (g : GInv m)
    (hen : (getS m i).enabled = false) (hrun : (getS m i).running = false) :
    GInv (delManager env i m) := by
  rw [delManager_eq]
  split_ifs with h1
  · exact g
  · have hregT : (getS m i).registered = true := by
      revert h1; cases (getS m i).registered <;> simp
    have hlt : i < m.svcs.length := lt_length_of_registered hregT
    set m1 := (getS m i).incompat.foldl (fun m c => updS m c (delInc i)) m with hm1
    set m2 := (getS m i).children.foldl (fun m c => updS m c (delPar i)) m1 with hm2
    set m3 := (getS m i).parents.foldl
      (fun m e => e.2.foldl (fun m t => updS m t (delChl i)) m) m2 with hm3
    have hlen1 : m1.svcs.length = m.svcs.length :=
      foldl_updS_len (getS m i).incompat (delInc i) m
    have hlen2 : m2.svcs.length = m.svcs.length :=
      (foldl_updS_len (getS m i).children (delPar i) m1).trans hlen1
    have hlen3 : m3.svcs.length = m.svcs.length :=
      (foldl2_updS_len (getS m i).parents (delChl i) m2).trans hlen2
    have hEn : ∀ j, (getS m3 j).enabled = (getS m j).enabled := fun j =>
      (foldl2_updS_proj (fun x => x.enabled) (getS m i).parents (delChl i)
          (fun x => rfl) m2 j).trans
        ((foldl_updS_proj (fun x => x.enabled) (getS m i).children (delPar i)
            (fun x => rfl) m1 j).trans
          (foldl_updS_proj (fun x => x.enabled) (getS m i).incompat (delInc i)
            (fun x => rfl) m j))
    have hRun : ∀ j, (getS m3 j).running = (getS m j).running := fun j =>
      (foldl2_updS_proj (fun x => x.running) (getS m i).parents (delChl i)
          (fun x => rfl) m2 j).trans
        ((foldl_updS_proj (fun x => x.running) (getS m i).children (delPar i)
            (fun x => rfl) m1 j).trans
          (foldl_updS_proj (fun x => x.running) (getS m i).incompat (delInc i)
            (fun x => rfl) m j))
    have hStp : ∀ j, (getS m3 j).stopping = (getS m j).stopping := fun j =>
      (foldl2_updS_proj (fun x => x.stopping) (getS m i).parents (delChl i)
          (fun x => rfl) m2 j).trans
        ((foldl_updS_proj (fun x => x.stopping) (getS m i).children (delPar i)
            (fun x => rfl) m1 j).trans
          (foldl_updS_proj (fun x => x.stopping) (getS m i).incompat (delInc i)
            (fun x => rfl) m j))
    have hFail : ∀ j, (getS m3 j).failed = (getS m j).failed := fun j =>
      (foldl2_updS_proj (fun x => x.failed) (getS m i).parents (delChl i)
          (fun x => rfl) m2 j).trans
        ((foldl_updS_proj (fun x => x.failed) (getS m i).children (delPar i)
            (fun x => rfl) m1 j).trans
          (foldl_updS_proj (fun x => x.failed) (getS m i).incompat (delInc i)
            (fun x => rfl) m j))
    have hReg : ∀ j, (getS m3 j).registered = (getS m j).registered := fun j =>
      (foldl2_updS_proj (fun x => x.registered) (getS m i).parents (delChl i)
          (fun x => rfl) m2 j).trans
        ((foldl_updS_proj (fun x => x.registered) (getS m i).children (delPar i)
            (fun x => rfl) m1 j).trans
          (foldl_updS_proj (fun x => x.registered) (getS m i).incompat (delInc i)
            (fun x => rfl) m j))
    have hDep : ∀ j, (getS m3 j).depends = (getS m j).depends := fun j =>
      (foldl2_updS_proj (fun x => x.depends) (getS m i).parents (delChl i)
          (fun x => rfl) m2 j).trans
        ((foldl_updS_proj (fun x => x.depends) (getS m i).children (delPar i)
            (fun x => rfl) m1 j).trans
          (foldl_updS_proj (fun x => x.depends) (getS m i).incompat (delInc i)
            (fun x => rfl) m j))
    have hPar1 : ∀ j, (getS m1 j).parents = (getS m j).parents := fun j =>
      foldl_updS_proj (fun x => x.parents) (getS m i).incompat (delInc i)
        (fun x => rfl) m j
    have hPar32 : ∀ j, (getS m3 j).parents = (getS m2 j).parents := fun j =>
      foldl2_updS_proj (fun x => x.parents) (getS m i).parents (delChl i)
        (fun x => rfl) m2 j
    have hCh : ∀ j, (getS m2 j).children = (getS m j).children := fun j =>
      (foldl_updS_proj (fun x => x.children) (getS m i).children (delPar i)
          (fun x => rfl) m1 j).trans
        (foldl_updS_proj (fun x => x.children) (getS m i).incompat (delInc i)
          (fun x => rfl) m j)
    have char2 : ∀ j,
        (j ∉ (getS m i).children → getS m2 j = getS m1 j) ∧
        (j ∈ (getS m i).children → j < m1.svcs.length →
          getS m2 j = delPar i (getS m1 j)) ∧
        (m1.svcs.length ≤ j → getS m2 j = getS m1 j) :=
      fun j => foldl_updS_char (getS m i).children (delPar i) (delPar_idem i) m1 j
    have char3 : ∀ j,
        ((¬ ∃ e ∈ (getS m i).parents, j ∈ e.2) → getS m3 j = getS m2 j) ∧
        ((∃ e ∈ (getS m i).parents, j ∈ e.2) → j < m2.svcs.length →
          getS m3 j = delChl i (getS m2 j)) ∧
        (m2.svcs.length ≤ j → getS m3 j = getS m2 j) :=
      fun j => foldl2_updS_char (getS m i).parents (delChl i) (delChl_idem i) m2 j
    refine ⟨?_, ?_, ?_, ?_, ?_, ?_, ?_⟩
    · -- nostop
      intro j
      rcases field_updS m3 i (delFin env) j with h | ⟨rfl, hl, h⟩ <;> rw [h]
      · rw [hStp j]; exact g.nostop j
      · show (getS m3 j).stopping = false
        rw [hStp j]; exact g.nostop j
    · -- runEn
      intro j hr
      rcases field_updS m3 i (delFin env) j with h | ⟨rfl, hl, h⟩
      · rw [h] at hr ⊢
        rw [hRun j] at hr
        rw [hEn j]
        exact g.runEn j hr
      · exfalso
        rw [h] at hr
        have hr2 : (getS m j).running = true := by rw [← hRun j]; exact hr
        rw [hrun] at hr2
        exact Bool.false_ne_true hr2
    · -- enReg
      intro j he
      rcases field_updS m3 i (delFin env) j with h | ⟨rfl, hl, h⟩
      · rw [h] at he ⊢
        rw [hEn j] at he
        rw [hReg j]
        exact g.enReg j he
      · exfalso
        rw [h] at he
        have he2 : (getS m j).enabled = true := by rw [← hEn j]; exact he
        rw [hen] at he2
        exact Bool.false_ne_true he2
    · -- keys
      intro j hr
      rcases field_updS m3 i (delFin env) j with h | ⟨rfl, hl, h⟩
      · rw [h] at hr ⊢
        rw [hReg j] at hr
        rw [hPar32 j, hDep j]
        by_cases hjc : j ∈ (getS m i).children
        · by_cases hjl : j < m1.svcs.length
          · rw [(char2 j).2.1 hjc hjl]
            have hmm : (delPar i (getS m1 j)).parents =
                (getS m1 j).parents.map
                  (fun e => (e.1, e.2.filter (fun x => x ≠ i))) := rfl
            rw [hmm, List.map_map, hPar1 j]
            have hfst : (Prod.fst ∘ fun e : String × List Nat =>
                (e.1, e.2.filter (fun x => x ≠ i))) = Prod.fst := by
              funext e; rfl
            rw [hfst]
            exact g.keys j hr
          · rw [(char2 j).2.2 (le_of_not_lt hjl), hPar1 j]
            exact g.keys j hr
        · rw [(char2 j).1 hjc, hPar1 j]
          exact g.keys j hr
      · exfalso
        rw [h] at hr
        exact Bool.false_ne_true hr
    · -- dependency invariant
      intro j hr4 hs4 e' he'
      by_cases hji : j = i
      · exfalso
        have h4 := getS_updS_self m3 i (delFin env) (by rw [hlen3]; exact hlt)
        rw [hji, h4] at hr4
        have hr2 : (getS m i).running = true := by rw [← hRun i]; exact hr4
        rw [hrun] at hr2
        exact Bool.false_ne_true hr2
      · have h4 := getS_updS_ne m3 i j (delFin env) hji
        rw [h4] at hr4 hs4 he'
        have hrj : (getS m j).running = true := by rw [← hRun j]; exact hr4
        have hsj : (getS m j).stopping = false := by rw [← hStp j]; exact hs4
        rw [hPar32 j] at he'
        have main : ∀ e0, e0 ∈ (getS m j).parents →
            (∀ w, w ∈ e0.2 → w ≠ i → w ∈ e'.2) →
            entryGood (updS m3 i (delFin env)) e'.2 ∨
              ctxEx [] j e'.2 := by
          intro e0 he0 hsub
          rcases g.jinv j hrj hsj e0 he0 with ⟨w, hw, hgw⟩ | hc
          · have hwi : w ≠ i := by
              intro hwe
              have hx : (getS m w).running = true := hgw.2.1
              rw [hwe, hrun] at hx
              exact Bool.false_ne_true hx
            refine Or.inl ⟨w, hsub w hw hwi, ?_⟩
            unfold goodP
            rw [getS_updS_ne m3 i w (delFin env) hwi, hEn w, hRun w, hStp w,
              hFail w]
            exact hgw
          · obtain ⟨p, hp, -⟩ := hc
            exact absurd hp (List.not_mem_nil p)
        by_cases hjl : j < m1.svcs.length
        · by_cases hjc : j ∈ (getS m i).children
          · rw [(char2 j).2.1 hjc hjl] at he'
            have he2 : e' ∈ (getS m1 j).parents.map
                (fun e => (e.1, e.2.filter (fun x => x ≠ i))) := he'
            rw [hPar1 j] at he2
            obtain ⟨e0, he0, heq⟩ := List.mem_map.mp he2
            refine main e0 he0 ?_
            intro w hw hwi
            rw [← heq]
            exact List.mem_filter.mpr ⟨hw, decide_eq_true hwi⟩
          · rw [(char2 j).1 hjc, hPar1 j] at he'
            exact main e' he' (fun w hw _ => hw)
        · rw [(char2 j).2.2 (le_of_not_lt hjl), hPar1 j] at he'
          exact main e' he' (fun w hw _ => hw)
    · -- edge symmetry
      intro c e' he4 w hw
      by_cases hci : c = i
      · exfalso
        have h4 := getS_updS_self m3 i (delFin env) (by rw [hlen3]; exact hlt)
        rw [hci, h4] at he4
        exact absurd he4 (List.not_mem_nil e')
      · have hconc : ∀ v, v ≠ i → c ∈ (getS m v).children →
            c ∈ (getS (updS m3 i (delFin env)) v).children := by
          intro v hvi hcv
          rw [getS_updS_ne m3 i v (delFin env) hvi]
          by_cases hvl : v < m2.svcs.length
          · by_cases hvp : ∃ e ∈ (getS m i).parents, v ∈ e.2
            · rw [(char3 v).2.1 hvp hvl]
              refine List.mem_filter.mpr ⟨?_, decide_eq_true hci⟩
              rw [hCh v]
              exact hcv
            · rw [(char3 v).1 hvp, hCh v]
              exact hcv
          · rw [(char3 v).2.2 (le_of_not_lt hvl), hCh v]
            exact hcv
        rw [getS_updS_ne m3 i c (delFin env) hci, hPar32 c] at he4
        by_cases hcl : c < m1.svcs.length
        · by_cases hcc : c ∈ (getS m i).children
          · rw [(char2 c).2.1 hcc hcl] at he4
            have he2 : e' ∈ (getS m1 c).parents.map
                (fun e => (e.1, e.2.filter (fun x => x ≠ i))) := he4
            rw [hPar1 c] at he2
            obtain ⟨e0, he0, heq⟩ := List.mem_map.mp he2
            rw [← heq] at hw
            obtain ⟨hw1, hw2⟩ := List.mem_filter.mp hw
            exact hconc w (of_decide_eq_true hw2) (g.esym c e0 he0 w hw1)
          · rw [(char2 c).1 hcc, hPar1 c] at he4
            have hwi : w ≠ i := by
              intro hwe
              rw [hwe] at hw
              exact hcc (g.esym c e' he4 i hw)
            exact hconc w hwi (g.esym c e' he4 w hw)
        · rw [(char2 c).2.2 (le_of_not_lt hcl), hPar1 c] at he4
          have hcm : (getS m c).parents = [] := by
            rw [show getS m c = m.svcs.getD c default from rfl,
              getD_out m.svcs c (by rw [hlen1] at hcl; omega)]
            rfl
          rw [hcm] at he4
          exact absurd he4 (List.not_mem_nil e')
    · -- fresh
      intro j hjr c e he
      by_cases hci : c = i
      · have h4 := getS_updS_self m3 i (delFin env) (by rw [hlen3]; exact hlt)
        rw [hci, h4] at he
        exact absurd he (List.not_mem_nil e)
      · rw [getS_updS_ne m3 i c (delFin env) hci, hPar32 c] at he
        by_cases hji : j = i
        · rw [hji]
          by_cases hcl : c < m1.svcs.length
          · by_cases hcc : c ∈ (getS m i).children
            · rw [(char2 c).2.1 hcc hcl] at he
              have he2 : e ∈ (getS m1 c).parents.map
                  (fun e => (e.1, e.2.filter (fun x => x ≠ i))) := he
              rw [hPar1 c] at he2
              obtain ⟨e0, he0, heq⟩ := List.mem_map.mp he2
              rw [← heq]
              intro hin
              obtain ⟨-, hdec⟩ := List.mem_filter.mp hin
              exact (of_decide_eq_true hdec) rfl
            · rw [(char2 c).1 hcc, hPar1 c] at he
              intro hin
              exact hcc (g.esym c e he i hin)
          · rw [(char2 c).2.2 (le_of_not_lt hcl), hPar1 c] at he
            have hcm : (getS m c).parents = [] := by
              rw [show getS m c = m.svcs.getD c default from rfl,
                getD_out m.svcs c (by rw [hlen1] at hcl; omega)]
              rfl
            rw [hcm] at he
            exact absurd he (List.not_mem_nil e)
        · have hjr' : (getS m j).registered = false := by
            rw [getS_updS_ne m3 i j (delFin env) hji, hReg j] at hjr
            exact hjr
          by_cases hcl : c < m1.svcs.length
          · by_cases hcc : c ∈ (getS m i).children
            · rw [(char2 c).2.1 hcc hcl] at he
              have he2 : e ∈ (getS m1 c).parents.map
                  (fun e => (e.1, e.2.filter (fun x => x ≠ i))) := he
              rw [hPar1 c] at he2
              obtain ⟨e0, he0, heq⟩ := List.mem_map.mp he2
              rw [← heq]
              intro hin
              obtain ⟨hin0, -⟩ := List.mem_filter.mp hin
              exact g.fresh j hjr' c e0 he0 hin0
            · rw [(char2 c).1 hcc, hPar1 c] at he
              exact g.fresh j hjr' c e he
          · rw [(char2 c).2.2 (le_of_not_lt hcl), hPar1 c] at he
            exact g.fresh j hjr' c e he

/-- The body of the `Shutdown` loop preserves the global invariant. -/
theorem shutdownStep_pres (env : Env) (i : Nat) {m : MState} (g : GInv m) :
    GInv (if (getS m i).registered = true then
      delManager env i (stopRecurse env
        (bigFuel (updS m i (fun s => { s with enabled := false })))
        "Shutting down" i
        (updS m i (fun s => { s with enabled := false })))
    else m) := by
  split_ifs with hreg
  · have hlt : i < m.svcs.length := lt_length_of_registered hreg
    set f1 := fun (s : Service) => { s with enabled := false } with hf1
    set mA := updS m i f1 with hmA
    have hns : ∀ j, (getS mA j).stopping = false := by
      intro j
      rcases field_updS m i f1 j with h | ⟨rfl, hl, h⟩ <;> rw [h]
      · exact g.nostop j
      · exact g.nostop j
    have hre : ∀ j, j ≠ i → (getS mA j).running = true →
        (getS mA j).enabled = true := by
      intro j hj hr
      rw [getS_updS_ne m i j f1 hj] at hr ⊢
      exact g.runEn j hr
    have her : ∀ j, (getS mA j).enabled = true → (getS mA j).registered = true := by
      intro j he
      rcases field_updS m i f1 j with h | ⟨rfl, hl, h⟩ <;> rw [h] at he ⊢
      · exact g.enReg j he
      · cases he
    have hk : ∀ j, (getS mA j).registered = true →
        (getS mA j).parents.map Prod.fst = (getS mA j).depends := by
      intro j hr
      rcases field_updS m i f1 j with h | ⟨rfl, hl, h⟩ <;> rw [h] at hr ⊢
      · exact g.keys j hr
      · exact g.keys j hr
    have hsymA : EdgeSym mA := by
      refine EdgeSym_transport (fun j => ?_) (fun j => ?_) g.esym <;>
        rcases field_updS m i f1 j with h | ⟨rfl, hl, h⟩ <;> rw [h]
    have hX : JInvX mA [] i := by
      intro k hki hrk hsk e hek
      rw [getS_updS_ne m i k f1 hki] at hrk hsk hek
      rcases g.jinv k hrk hsk e hek with ⟨j, hj, hg⟩ | hc
      · by_cases hji : j = i
        · rw [hji] at hj hg
          refine Or.inr (Or.inl ⟨hj, ?_, ?_⟩)
          · rcases field_updS m i f1 i with h | ⟨-, hl, h⟩ <;> rw [h]
            · exact hg.2.1
            · exact hg.2.1
          · rcases field_updS m i f1 i with h | ⟨-, hl, h⟩ <;> rw [h]
            · exact hg.2.2.1
            · exact hg.2.2.1
        · refine Or.inl ⟨j, hj, ?_⟩
          show goodP mA j
          unfold goodP
          rw [getS_updS_ne m i j f1 hji]
          exact hg
      · obtain ⟨p, hp, -⟩ := hc
        exact absurd hp (List.not_mem_nil p)
    have hfrA : ∀ j, (getS mA j).registered = false →
        ∀ c e, e ∈ (getS mA c).parents → j ∉ e.2 := by
      intro j hjr c e he
      have hjr' : (getS m j).registered = false := by
        rcases field_updS m i f1 j with h | ⟨rfl, hl, h⟩ <;> rw [h] at hjr <;>
          exact hjr
      have he' : e ∈ (getS m c).parents := by
        rcases field_updS m i f1 c with h | ⟨rfl, hl, h⟩ <;> rw [h] at he <;>
          exact he
      exact g.fresh j hjr' c e he'
    have post := stopRecurse_sound (bigFuel mA) env "Shutting down" i mA []
      (by have := muRS_le_len mA.svcs; unfold bigFuel; omega) hsymA hX
    have gB := GInv_of_StopPost hns hre her hk hsymA hfrA post
    have henB : (getS (stopRecurse env (bigFuel mA) "Shutting down" i mA) i).enabled
        = false := by
      rw [(post.fr i).enabled, getS_updS_self m i f1 hlt]
    have hrunB := post.stopped (hns i)
    exact delManager_pres env i gB henB hrunB
  · exact g

theorem Shutdown_eq (env : Env) (m : MState) :
    Shutdown env m = (List.range m.svcs.length).foldl
      (fun m i => if (getS m i).registered then
        delManager env i (stopRecurse env
          (bigFuel (updS m i (fun s => { s with enabled := false })))
          "Shutting down" i
          (updS m i (fun s => { s with enabled := false })))
      else m) { m with monitoring := false } := rfl

theorem Shutdown_pres (env : Env) {m : MState} (g : GInv m) :
    GInv (Shutdown env m) := by
  rw [Shutdown_eq]
  have g0 : GInv { m with monitoring := false } :=
    GInv_transport (fun j => eqGRRefl (getS m j)) g
  have hfold : ∀ (L : List Nat) (w : MState), GInv w →
      GInv (L.foldl (fun m i => if (getS m i).registered then
        delManager env i (stopRecurse env
          (bigFuel (updS m i (fun s => { s with enabled := false })))
          "Shutting down" i
          (updS m i (fun s => { s with enabled := false })))
      else m) w) := by
    intro L
    induction L with
    | nil => intro w gw; exact gw
    | cons a L ih => intro w gw; exact ih _ (shutdownStep_pres env a gw)
  exact hfold _ _ g0

/-! ### Registration: `setManager` establishes the invariant -/

theorem insertId_sub (j : Nat) (l : List Nat) : ∀ x ∈ l, x ∈ insertId j l := by
  intro x hx
  unfold insertId
  split_ifs with h
  · exact hx
  · exact List.mem_append_left _ hx

theorem insertId_self (j : Nat) (l : List Nat) : j ∈ insertId j l := by
  unfold insertId
  split_ifs with h
  · exact h
  · exact List.mem_append_right _ (List.mem_singleton.mpr rfl)

theorem mem_insertId {x j : Nat} {l : List Nat} (h : x ∈ insertId j l) :
    x = j ∨ x ∈ l := by
  unfold insertId at h
  split_ifs at h with hj
  · exact Or.inr h
  · rcases List.mem_append.mp h with h | h
    · exact Or.inr h
    · exact Or.inl (List.mem_singleton.mp h)

theorem addParent_keys (d : String) (j : Nat) (ps : List (String × List Nat)) :
    (addParent d j ps).map Prod.fst = ps.map Prod.fst := by
  unfold addParent
  rw [List.map_map]
  refine List.map_congr_left ?_
  intro e he
  show Prod.fst (if e.1 == d then (e.1, insertId j e.2) else e) = e.1
  split_ifs with h
  · rfl
  · rfl

theorem mem_addParent {d : String} {j : Nat} {ps : List (String × List Nat)}
    {e : String × List Nat} (h : e ∈ addParent d j ps) :
    ∃ e0 ∈ ps, e = if e0.1 == d then (e0.1, insertId j e0.2) else e0 := by
  unfold addParent at h
  obtain ⟨e0, he0, heq⟩ := List.mem_map.mp h
  exact ⟨e0, he0, heq.symm⟩

theorem linkStep_eq (si : Nat) (m : MState) (tj : Nat) :
    linkStep si m tj =
      if tj == si || !(getS m tj).registered then m
      else linkCf2 si tj (linkCf1 si tj (linkDep2 si tj (linkDep1 si tj m))) :=
  rfl

/-- Pointwise `eqGR` through any fold whose body preserves it. -/
theorem foldl_eqGR {β : Type} (L : List β) (body : MState → β → MState)
    (hbody : ∀ w c j, eqGR (getS w j) (getS (body w c) j)) (w : MState) :
    ∀ j, eqGR (getS w j) (getS (L.foldl body w) j) := by
  induction L generalizing w with
  | nil => intro j; exact eqGRRefl _
  | cons a L ih =>
    intro j
    exact eqGRTrans (hbody w a j) (ih (body w a) j)

theorem foldl_len_pres {β : Type} (L : List β) (body : MState → β → MState)
    (hbody : ∀ w c, (body w c).svcs.length = w.svcs.length) (w : MState) :
    (L.foldl body w).svcs.length = w.svcs.length := by
  induction L generalizing w with
  | nil => rfl
  | cons a L ih => rw [List.foldl_cons, ih, hbody]

theorem linkCf1_eqGR (si tj : Nat) (m : MState) :
    ∀ j, eqGR (getS m j) (getS (linkCf1 si tj m) j) := by
  refine foldl_eqGR _ _ ?_ m
  intro w c j
  show eqGR (getS w j) (getS (if svcMatches (getS w si) c then
    updS (updS w si (fun s => { s with incompat := insertId tj s.incompat }))
      tj (fun t => { t with incompat := insertId si t.incompat })
    else w) j)
  split_ifs with h
  · exact eqGRTrans
      (eqGR_updS w si (fun s => { s with incompat := insertId tj s.incompat })
        ⟨rfl, rfl, rfl, rfl, rfl, rfl, rfl, rfl⟩ j)
      (eqGR_updS _ tj (fun t => { t with incompat := insertId si t.incompat })
        ⟨rfl, rfl, rfl, rfl, rfl, rfl, rfl, rfl⟩ j)
  · exact eqGRRefl _

theorem linkCf2_eqGR (si tj : Nat) (m : MState) :
    ∀ j, eqGR (getS m j) (getS (linkCf2 si tj m) j) := by
  refine foldl_eqGR _ _ ?_ m
  intro w c j
  show eqGR (getS w j) (getS (if svcMatches (getS w tj) c then
    updS (updS w si (fun s => { s with incompat := insertId tj s.incompat }))
      tj (fun t => { t with incompat := insertId si t.incompat })
    else w) j)
  split_ifs with h
  · exact eqGRTrans
      (eqGR_updS w si (fun s => { s with incompat := insertId tj s.incompat })
        ⟨rfl, rfl, rfl, rfl, rfl, rfl, rfl, rfl⟩ j)
      (eqGR_updS _ tj (fun t => { t with incompat := insertId si t.incompat })
        ⟨rfl, rfl, rfl, rfl, rfl, rfl, rfl, rfl⟩ j)
  · exact eqGRRefl _

theorem linkCf1_len (si tj : Nat) (m : MState) :
    (linkCf1 si tj m).svcs.length = m.svcs.length := by
  refine foldl_len_pres _ _ ?_ m
  intro w c
  show (if svcMatches (getS w si) c then
    updS (updS w si (fun s => { s with incompat := insertId tj s.incompat }))
      tj (fun t => { t with incompat := insertId si t.incompat })
    else w).svcs.length = w.svcs.length
  split_ifs with h
  · rw [len_updS, len_updS]
  · rfl

theorem linkCf2_len (si tj : Nat) (m : MState) :
    (linkCf2 si tj m).svcs.length = m.svcs.length := by
  refine foldl_len_pres _ _ ?_ m
  intro w c
  show (if svcMatches (getS w tj) c then
    updS (updS w si (fun s => { s with incompat := insertId tj s.incompat }))
      tj (fun t => { t with incompat := insertId si t.incompat })
    else w).svcs.length = w.svcs.length
  split_ifs with h
  · rw [len_updS, len_updS]
  · rfl

theorem linkDep1_len (si tj : Nat) (m : MState) :
    (linkDep1 si tj m).svcs.length = m.svcs.length := by
  unfold linkDep1
  rcases (getS m tj).depends.find? (fun d => svcMatches (getS m si) d) with - | d
  · rfl
  · rw [len_updS, len_updS]

theorem linkDep2_len (si tj : Nat) (m : MState) :
    (linkDep2 si tj m).svcs.length = m.svcs.length := by
  unfold linkDep2
  rcases (getS m si).depends.find? (fun d => svcMatches (getS m tj) d) with - | d
  · rfl
  · rw [len_updS, len_updS]

theorem linkStep_len (si : Nat) (m : MState) (tj : Nat) :
    (linkStep si m tj).svcs.length = m.svcs.length := by
  rw [linkStep_eq]
  split_ifs with h
  · rfl
  · rw [linkCf2_len, linkCf1_len, linkDep2_len, linkDep1_len]

theorem linkDep1_reg (si tj : Nat) (m : MState) :
    ∀ j, (getS (linkDep1 si tj m) j).registered = (getS m j).registered := by
  unfold linkDep1
  rcases (getS m tj).depends.find? (fun d => svcMatches (getS m si) d) with - | d
  · intro j; rfl
  · intro j
    have h2 : (getS (updS (updS m tj
        (fun t => { t with parents := addParent d si t.parents })) si
        (fun s => { s with children := insertId tj s.children })) j).registered =
        (getS (updS m tj
          (fun t => { t with parents := addParent d si t.parents })) j).registered := by
      rcases field_updS (updS m tj
          (fun t => { t with parents := addParent d si t.parents })) si
          (fun s => { s with children := insertId tj s.children }) j with
        h | ⟨rfl, hl, h⟩ <;> rw [h]
    have h1 : (getS (updS m tj
        (fun t => { t with parents := addParent d si t.parents })) j).registered =
        (getS m j).registered := by
      rcases field_updS m tj
          (fun t => { t with parents := addParent d si t.parents }) j with
        h | ⟨rfl, hl, h⟩ <;> rw [h]
    exact h2.trans h1

theorem LInv_transport (si : Nat) {m m' : MState}
    (hlen : m'.svcs.length = m.svcs.length)
    (h : ∀ j, eqGR (getS m j) (getS m' j)) (L : LInv si m) : LInv si m' := by
  refine ⟨?_, ?_, ?_, ?_, ?_, ?_, ?_, ?_, ?_, ?_, ?_, ?_⟩
  · rw [hlen]; exact L.siLt
  · intro j; rw [(h j).2.2.1]; exact L.nostop j
  · intro j hr
    rw [(h j).2.1] at hr
    rw [(h j).1]
    exact L.runEn j hr
  · intro j he
    rw [(h j).1] at he
    rw [(h j).2.2.2.2.1]
    exact L.enReg j he
  · intro j hjs hr
    rw [(h j).2.2.2.2.1] at hr
    rw [(h j).2.2.2.2.2.2.1, (h j).2.2.2.2.2.1]
    exact L.keys j hjs hr
  · rw [(h si).2.2.2.2.2.2.1, (h si).2.2.2.2.2.1]
    exact L.keysSi
  · exact JInv_transport (fun j => ⟨(h j).1, (h j).2.1, (h j).2.2.1,
      (h j).2.2.2.1, (h j).2.2.2.2.2.2.1⟩) [] L.jinv
  · exact EdgeSym_transport (fun j => (h j).2.2.2.2.2.2.1)
      (fun j => (h j).2.2.2.2.2.2.2) L.esym
  · intro j hjs hjr c e he
    rw [(h j).2.2.2.2.1] at hjr
    rw [(h c).2.2.2.2.2.2.1] at he
    exact L.freshX j hjs hjr c e he
  · rw [(h si).2.2.2.2.1]; exact L.regSi
  · rw [(h si).1]; exact L.enSi
  · rw [(h si).2.1]; exact L.runSi

/-- Linking one new dependency edge (provider `b` into an entry of `a`, `a`
into the children of `b`) preserves the linking invariant. -/
theorem LInv_addEdge (si a b : Nat) (d : String) {m : MState} (L : LInv si m)
    (hb : b = si ∨ (getS m b).registered = true) (hblt : b < m.svcs.length) :
    LInv si (updS (updS m a
      (fun s => { s with parents := addParent d b s.parents })) b
      (fun t => { t with children := insertId a t.children })) := by
  set fP := fun (s : Service) => { s with parents := addParent d b s.parents }
    with hfP
  set fC := fun (t : Service) => { t with children := insertId a t.children }
    with hfC
  set w1 := updS m a fP with hw1
  set w2 := updS w1 b fC with hw2
  have hEn : ∀ j, (getS w2 j).enabled = (getS m j).enabled := by
    intro j
    have s2 : (getS w2 j).enabled = (getS w1 j).enabled := by
      rcases field_updS w1 b fC j with h | ⟨rfl, hl, h⟩ <;> rw [h]
    have s1 : (getS w1 j).enabled = (getS m j).enabled := by
      rcases field_updS m a fP j with h | ⟨rfl, hl, h⟩ <;> rw [h]
    exact s2.trans s1
  have hRun : ∀ j, (getS w2 j).running = (getS m j).running := by
    intro j
    have s2 : (getS w2 j).running = (getS w1 j).running := by
      rcases field_updS w1 b fC j with h | ⟨rfl, hl, h⟩ <;> rw [h]
    have s1 : (getS w1 j).running = (getS m j).running := by
      rcases field_updS m a fP j with h | ⟨rfl, hl, h⟩ <;> rw [h]
    exact s2.trans s1
  have hStp : ∀ j, (getS w2 j).stopping = (getS m j).stopping := by
    intro j
    have s2 : (getS w2 j).stopping = (getS w1 j).stopping := by
      rcases field_updS w1 b fC j with h | ⟨rfl, hl, h⟩ <;> rw [h]
    have s1 : (getS w1 j).stopping = (getS m j).stopping := by
      rcases field_updS m a fP j with h | ⟨rfl, hl, h⟩ <;> rw [h]
    exact s2.trans s1
  have hFail : ∀ j, (getS w2 j).failed = (getS m j).failed := by
    intro j
    have s2 : (getS w2 j).failed = (getS w1 j).failed := by
      rcases field_updS w1 b fC j with h | ⟨rfl, hl, h⟩ <;> rw [h]
    have s1 : (getS w1 j).failed = (getS m j).failed := by
      rcases field_updS m a fP j with h | ⟨rfl, hl, h⟩ <;> rw [h]
    exact s2.trans s1
  have hReg : ∀ j, (getS w2 j).registered = (getS m j).registered := by
    intro j
    have s2 : (getS w2 j).registered = (getS w1 j).registered := by
      rcases field_updS w1 b fC j with h | ⟨rfl, hl, h⟩ <;> rw [h]
    have s1 : (getS w1 j).registered = (getS m j).registered := by
      rcases field_updS m a fP j with h | ⟨rfl, hl, h⟩ <;> rw [h]
    exact s2.trans s1
  have hDep : ∀ j, (getS w2 j).depends = (getS m j).depends := by
    intro j
    have s2 : (getS w2 j).depends = (getS w1 j).depends := by
      rcases field_updS w1 b fC j with h | ⟨rfl, hl, h⟩ <;> rw [h]
    have s1 : (getS w1 j).depends = (getS m j).depends := by
      rcases field_updS m a fP j with h | ⟨rfl, hl, h⟩ <;> rw [h]
    exact s2.trans s1
  have hpar : ∀ j, j ≠ a → (getS w2 j).parents = (getS m j).parents := by
    intro j hj
    have t2 : (getS w2 j).parents = (getS w1 j).parents := by
      rcases field_updS w1 b fC j with h | ⟨rfl, hl, h⟩ <;> rw [h]
    rw [t2, getS_updS_ne m a j fP hj]
  have hparaCases : (getS w2 a).parents = (getS m a).parents ∨
      (getS w2 a).parents = addParent d b (getS m a).parents := by
    have t2 : (getS w2 a).parents = (getS w1 a).parents := by
      rcases field_updS w1 b fC a with h | ⟨rfl, hl, h⟩ <;> rw [h]
    rcases field_updS m a fP a with h | ⟨-, hl, h⟩
    · left; rw [t2, h]
    · right; rw [t2, h]
  have hchSub : ∀ v x, x ∈ (getS m v).children → x ∈ (getS w2 v).children := by
    intro v x hx
    have t1 : (getS w1 v).children = (getS m v).children := by
      rcases field_updS m a fP v with h | ⟨rfl, hl, h⟩ <;> rw [h]
    rcases field_updS w1 b fC v with h | ⟨rfl, hl, h⟩
    · rw [h, t1]; exact hx
    · rw [h]
      exact insertId_sub a _ x (by rw [t1]; exact hx)
  have hanew : a ∈ (getS w2 b).children := by
    have hbl1 : b < w1.svcs.length := by rw [len_updS]; exact hblt
    rw [getS_updS_self w1 b fC hbl1]
    exact insertId_self a _
  have hgood : ∀ v, goodP m v → goodP w2 v := by
    intro v hgv
    unfold goodP
    rw [hEn v, hRun v, hStp v, hFail v]
    exact hgv
  refine ⟨?_, ?_, ?_, ?_, ?_, ?_, ?_, ?_, ?_, ?_, ?_, ?_⟩
  · rw [len_updS, len_updS]; exact L.siLt
  · intro j; rw [hStp j]; exact L.nostop j
  · intro j hr
    rw [hRun j] at hr
    rw [hEn j]
    exact L.runEn j hr
  · intro j he
    rw [hEn j] at he
    rw [hReg j]
    exact L.enReg j he
  · intro j hjs hr
    rw [hReg j] at hr
    rw [hDep j]
    by_cases hja : j = a
    · subst hja
      rcases hparaCases with h | h
      · rw [h]; exact L.keys j hjs hr
      · rw [h, addParent_keys]; exact L.keys j hjs hr
    · rw [hpar j hja]; exact L.keys j hjs hr
  · rw [hDep si]
    by_cases hsa : si = a
    · have hk := L.keysSi
      rw [hsa] at hk ⊢
      rcases hparaCases with h | h
      · rw [h]; exact hk
      · rw [h, addParent_keys]; exact hk
    · rw [hpar si hsa]; exact L.keysSi
  · intro j hrj hsj e' he'
    have hrj' : (getS m j).running = true := by rw [← hRun j]; exact hrj
    have hsj' : (getS m j).stopping = false := by rw [← hStp j]; exact hsj
    by_cases hja : j = a
    · subst hja
      rcases hparaCases with h | h
      · rw [h] at he'
        rcases L.jinv j hrj' hsj' e' he' with ⟨w, hw, hgw⟩ | hc
        · exact Or.inl ⟨w, hw, hgood w hgw⟩
        · obtain ⟨p, hp, -⟩ := hc
          exact absurd hp (List.not_mem_nil p)
      · rw [h] at he'
        obtain ⟨e0, he0, heq⟩ := mem_addParent he'
        rcases L.jinv j hrj' hsj' e0 he0 with ⟨w, hw, hgw⟩ | hc
        · refine Or.inl ⟨w, ?_, hgood w hgw⟩
          rw [heq]
          split_ifs with hd
          · exact insertId_sub b e0.2 w hw
          · exact hw
        · obtain ⟨p, hp, -⟩ := hc
          exact absurd hp (List.not_mem_nil p)
    · rw [hpar j hja] at he'
      rcases L.jinv j hrj' hsj' e' he' with ⟨w, hw, hgw⟩ | hc
      · exact Or.inl ⟨w, hw, hgood w hgw⟩
      · obtain ⟨p, hp, -⟩ := hc
        exact absurd hp (List.not_mem_nil p)
  · intro c e' he' v hv
    by_cases hca : c = a
    · subst hca
      rcases hparaCases with h | h
      · rw [h] at he'
        exact hchSub v c (L.esym c e' he' v hv)
      · rw [h] at he'
        obtain ⟨e0, he0, heq⟩ := mem_addParent he'
        rw [heq] at hv
        by_cases hd : (e0.1 == d) = true
        · rw [if_pos hd] at hv
          rcases mem_insertId hv with hvb | hv0
          · rw [hvb]; exact hanew
          · exact hchSub v c (L.esym c e0 he0 v hv0)
        · rw [if_neg hd] at hv
          exact hchSub v c (L.esym c e0 he0 v hv)
    · rw [hpar c hca] at he'
      exact hchSub v c (L.esym c e' he' v hv)
  · intro j hjs hjr c e' he'
    have hjr' : (getS m j).registered = false := by rw [← hReg j]; exact hjr
    by_cases hca : c = a
    · subst hca
      rcases hparaCases with h | h
      · rw [h] at he'
        exact L.freshX j hjs hjr' c e' he'
      · rw [h] at he'
        obtain ⟨e0, he0, heq⟩ := mem_addParent he'
        rw [heq]
        split_ifs with hd
        · intro hin
          rcases mem_insertId hin with hjb | hj0
          · rcases hb with hbs | hbr
            · exact hjs (hjb.trans hbs)
            · rw [hjb] at hjr'
              rw [hbr] at hjr'
              exact Bool.false_ne_true hjr'.symm
          · exact L.freshX j hjs hjr' c e0 he0 hj0
        · exact L.freshX j hjs hjr' c e0 he0
    · rw [hpar c hca] at he'
      exact L.freshX j hjs hjr' c e' he'
  · rw [hReg si]; exact L.regSi
  · rw [hEn si]; exact L.enSi
  · rw [hRun si]; exact L.runSi

theorem linkDep1_pres (si tj : Nat) {m : MState} (L : LInv si m) :
    LInv si (linkDep1 si tj m) := by
  unfold linkDep1
  rcases hf : (getS m tj).depends.find? (fun d => svcMatches (getS m si) d)
    with - | d
  · exact L
  · exact LInv_addEdge si tj si d L (Or.inl rfl) L.siLt

theorem linkDep2_pres (si tj : Nat) {m : MState} (L : LInv si m)
    (htj : (getS m tj).registered = true) : LInv si (linkDep2 si tj m) := by
  unfold linkDep2
  rcases hf : (getS m si).depends.find? (fun d => svcMatches (getS m tj) d)
    with - | d
  · exact L
  · exact LInv_addEdge si si tj d L (Or.inr htj) (lt_length_of_registered htj)

theorem linkStep_pres (si : Nat) {m : MState} (L : LInv si m) (tj : Nat) :
    LInv si (linkStep si m tj) := by
  rw [linkStep_eq]
  split_ifs with hg
  · exact L
  · have hparts : (tj == si) = false ∧ (getS m tj).registered = true := by
      revert hg
      cases h1 : (tj == si) <;> cases h2 : (getS m tj).registered <;> simp
    have L1 := linkDep1_pres si tj L
    have hreg1 : (getS (linkDep1 si tj m) tj).registered = true := by
      rw [linkDep1_reg si tj m tj]; exact hparts.2
    have L2 := linkDep2_pres si tj L1 hreg1
    have L3 : LInv si (linkCf1 si tj (linkDep2 si tj (linkDep1 si tj m))) :=
      LInv_transport si (linkCf1_len si tj _) (linkCf1_eqGR si tj _) L2
    exact LInv_transport si (linkCf2_len si tj _) (linkCf2_eqGR si tj _) L3

theorem setManager_eq (env : Env) (si : Nat) (m : MState) :
    setManager env si m =
      updS ((List.range (updS m si (fun s => { s with
          incompat := [], children := []
          parents := s.depends.map (fun d => (d, [])) })).svcs.length).foldl
        (linkStep si)
        (updS m si (fun s => { s with
          incompat := [], children := []
          parents := s.depends.map (fun d => (d, [])) })))
      si (fun s => { s with
        stamp := env.now, reason := "Added service", registered := true }) := rfl

/-- `setManager` (re-)establishes the global invariant when registering a
fresh (unregistered, hence disabled and stopped) service. -/
theorem setManager_pres (env : Env) (si : Nat) {m : MState} (g : GInv m)
    (hunreg : (getS m si).registered = false) (hlt : si < m.svcs.length) :
    GInv (setManager env si m) := by
  have hen : (getS m si).enabled = false := by
    cases h : (getS m si).enabled
    · rfl
    · exfalso
      have h2 := g.enReg si h
      rw [hunreg] at h2
      exact Bool.false_ne_true h2
  have hrun : (getS m si).running = false := by
    cases h : (getS m si).running
    · rfl
    · exfalso
      have h2 := g.runEn si h
      rw [hen] at h2
      exact Bool.false_ne_true h2
  rw [setManager_eq]
  set fRst := fun (s : Service) => { s with
    incompat := [], children := []
    parents := s.depends.map (fun d => (d, [])) } with hfRst
  set mS1 := updS m si fRst with hmS1
  have L0 : LInv si mS1 := by
    refine ⟨?_, ?_, ?_, ?_, ?_, ?_, ?_, ?_, ?_, ?_, ?_, ?_⟩
    · rw [len_updS]; exact hlt
    · intro j
      rcases field_updS m si fRst j with h | ⟨rfl, hl, h⟩ <;> rw [h]
      · exact g.nostop j
      · exact g.nostop j
    · intro j hr
      rcases field_updS m si fRst j with h | ⟨rfl, hl, h⟩ <;> rw [h] at hr ⊢
      · exact g.runEn j hr
      · exact g.runEn j hr
    · intro j he
      rcases field_updS m si fRst j with h | ⟨rfl, hl, h⟩ <;> rw [h] at he ⊢
      · exact g.enReg j he
      · exact g.enReg j he
    · intro j hjs hr
      rw [getS_updS_ne m si j fRst hjs] at hr ⊢
      exact g.keys j hr
    · rw [getS_updS_self m si fRst hlt]
      show ((getS m si).depends.map (fun d => (d, ([] : List Nat)))).map Prod.fst
        = (getS m si).depends
      rw [List.map_map]
      have hcomp : (Prod.fst ∘ fun d : String => (d, ([] : List Nat))) = id := by
        funext x; rfl
      rw [hcomp, List.map_id]
    · intro j hrj hsj e' he'
      by_cases hjs : j = si
      · exfalso
        rw [hjs] at hrj
        have hx : (getS mS1 si).running = (getS m si).running := by
          rw [getS_updS_self m si fRst hlt]
        rw [hx, hrun] at hrj
        exact Bool.false_ne_true hrj
      · rw [getS_updS_ne m si j fRst hjs] at hrj hsj he'
        rcases g.jinv j hrj hsj e' he' with ⟨w, hw, hgw⟩ | hc
        · refine Or.inl ⟨w, hw, ?_⟩
          unfold goodP
          rcases field_updS m si fRst w with h | ⟨rfl, hl, h⟩ <;> rw [h] <;>
            exact hgw
        · obtain ⟨p, hp, -⟩ := hc
          exact absurd hp (List.not_mem_nil p)
    · intro c e' he' v hv
      by_cases hcs : c = si
      · rw [hcs, getS_updS_self m si fRst hlt] at he'
        have he2 : e' ∈ (getS m si).depends.map
            (fun d => (d, ([] : List Nat))) := he'
        obtain ⟨d0, hd0, heq⟩ := List.mem_map.mp he2
        rw [← heq] at hv
        exact absurd hv (List.not_mem_nil v)
      · rw [getS_updS_ne m si c fRst hcs] at he'
        have hvs : v ≠ si := by
          intro hv'
          exact (g.fresh si hunreg c e' he') (hv' ▸ hv)
        rw [getS_updS_ne m si v fRst hvs]
        exact g.esym c e' he' v hv
    · intro j hjs hjr c e' he'
      have hjr' : (getS m j).registered = false := by
        rw [getS_updS_ne m si j fRst hjs] at hjr
        exact hjr
      by_cases hcs : c = si
      · rw [hcs, getS_updS_self m si fRst hlt] at he'
        have he2 : e' ∈ (getS m si).depends.map
            (fun d => (d, ([] : List Nat))) := he'
        obtain ⟨d0, hd0, heq⟩ := List.mem_map.mp he2
        rw [← heq]
        exact List.not_mem_nil j
      · rw [getS_updS_ne m si c fRst hcs] at he'
        exact g.fresh j hjr' c e' he'
    · rw [getS_updS_self m si fRst hlt]
      exact hunreg
    · rw [getS_updS_self m si fRst hlt]
      exact hen
    · rw [getS_updS_self m si fRst hlt]
      exact hrun
  have Lf : LInv si ((List.range mS1.svcs.length).foldl (linkStep si) mS1) := by
    have hall : ∀ (L : List Nat) (w : MState), LInv si w →
        LInv si (L.foldl (linkStep si) w) := by
      intro L
      induction L with
      | nil => intro w Lw; exact Lw
      | cons a L ih => intro w Lw; exact ih _ (linkStep_pres si Lw a)
    exact hall _ mS1 L0
  set wF := (List.range mS1.svcs.length).foldl (linkStep si) mS1 with hwF
  set fFin2 := fun (s : Service) => { s with
    stamp := env.now, reason := "Added service", registered := true } with hfFin2
  refine ⟨?_, ?_, ?_, ?_, ?_, ?_, ?_⟩
  · intro j
    rcases field_updS wF si fFin2 j with h | ⟨rfl, hl, h⟩ <;> rw [h]
    · exact Lf.nostop j
    · exact Lf.nostop j
  · intro j hr
    rcases field_updS wF si fFin2 j with h | ⟨rfl, hl, h⟩ <;> rw [h] at hr ⊢
    · exact Lf.runEn j hr
    · exact Lf.runEn j hr
  · intro j he
    rcases field_updS wF si fFin2 j with h | ⟨rfl, hl, h⟩
    · rw [h] at he ⊢; exact Lf.enReg j he
    · rw [h]
  · intro j hr
    by_cases hjs : j = si
    · rw [hjs, getS_updS_self wF si fFin2 Lf.siLt]
      show (getS wF si).parents.map Prod.fst = (getS wF si).depends
      exact Lf.keysSi
    · rw [getS_updS_ne wF si j fFin2 hjs] at hr ⊢
      exact Lf.keys j hjs hr
  · exact JInv_updS_mono wF si fFin2 rfl rfl rfl
      (fun hg => ⟨hg.1, hg.2.2.2⟩) Lf.jinv
  · refine EdgeSym_transport (fun j => ?_) (fun j => ?_) Lf.esym <;>
      rcases field_updS wF si fFin2 j with h | ⟨rfl, hl, h⟩ <;> rw [h]
  · intro j hjr c e he
    by_cases hjs : j = si
    · exfalso
      rw [hjs, getS_updS_self wF si fFin2 Lf.siLt] at hjr
      exact Bool.false_ne_true hjr.symm
    · have hjr' : (getS wF j).registered = false := by
        rw [getS_updS_ne wF si j fFin2 hjs] at hjr
        exact hjr
      have he' : e ∈ (getS wF c).parents := by
        rcases field_updS wF si fFin2 c with h | ⟨rfl, hl, h⟩ <;> rw [h] at he <;>
          exact he
      exact Lf.freshX j hjs hjr' c e he'

theorem GInv_svcs {m m' : MState} (h : m'.svcs = m.svcs) (g : GInv m) :
    GInv m' := by
  refine GInv_transport (fun j => ?_) g
  show eqGR (getS m j) (getS m' j)
  unfold getS
  rw [h]
  exact eqGRRefl _

theorem setManager_len (env : Env) (si : Nat) (m : MState) :
    (setManager env si m).svcs.length = m.svcs.length := by
  rw [setManager_eq, len_updS,
    foldl_len_pres _ _ (fun w c => linkStep_len si w c) _, len_updS]

theorem AddService_svcs (env : Env) (i : Nat) (m : MState)
    (h : ¬(getS m i).registered = true) :
    (AddService env i m).svcs =
      updAt (setManager env i m).svcs i
        (fun s => { s with serial := (setManager env i m).serial + 1 + 1 }) := by
  unfold AddService
  rw [if_neg h]
  rfl

theorem AddService_len (env : Env) (i : Nat) (m : MState) :
    (AddService env i m).svcs.length = m.svcs.length := by
  by_cases h : (getS m i).registered = true
  · have hx : AddService env i m = m := by unfold AddService; rw [if_pos h]
    rw [hx]
  · rw [AddService_svcs env i m h, length_updAt, setManager_len]

theorem AddService_pres (env : Env) (i : Nat) {m : MState} (g : GInv m)
    (hlt : i < m.svcs.length) : GInv (AddService env i m) := by
  by_cases h : (getS m i).registered = true
  · have hx : AddService env i m = m := by unfold AddService; rw [if_pos h]
    rw [hx]; exact g
  · have hunreg : (getS m i).registered = false := by
      cases hx : (getS m i).registered
      · rfl
      · exact absurd hx h
    have gsm := setManager_pres env i g hunreg hlt
    have g2 : GInv (updS (setManager env i m) i
        (fun s => { s with serial := (setManager env i m).serial + 1 + 1 })) :=
      GInv_transport
        (eqGR_updS _ i _ ⟨rfl, rfl, rfl, rfl, rfl, rfl, rfl, rfl⟩) gsm
    refine GInv_svcs ?_ g2
    rw [AddService_svcs env i m h]
    rfl

theorem getD_prop {α : Type} [Inhabited α] (P : α → Prop) (l : List α)
    (hall : ∀ s ∈ l, P s) (hdef : P default) : ∀ j, P (l.getD j default) := by
  induction l with
  | nil => intro j; exact hdef
  | cons a l ih =>
    intro j
    cases j with
    | zero => exact hall a (List.mem_cons_self a l)
    | succ n => exact ih (fun s hs => hall s (List.mem_cons_of_mem a hs)) n

theorem initManager_eq (now : Nat) (specs : List SvcSpec) :
    initManager now specs =
      (List.range (specs.map NewService).length).foldl
        (fun m i => AddService (Env.mk now (fun _ => none) (fun _ => none)) i m)
        { NewManager now "govisor" with svcs := specs.map NewService } := rfl

/-- A freshly initialised manager satisfies the global invariant. -/
theorem initManager_pres (now : Nat) (specs : List SvcSpec) :
    GInv (initManager now specs) := by
  rw [initManager_eq]
  set env0 := Env.mk now (fun _ => none) (fun _ => none) with henv0
  set m0 : MState :=
    { NewManager now "govisor" with svcs := specs.map NewService } with hm0
  have hP : ∀ j, (getS m0 j).running = false ∧ (getS m0 j).stopping = false ∧
      (getS m0 j).enabled = false ∧ (getS m0 j).registered = false ∧
      (getS m0 j).parents = [] := by
    intro j
    refine getD_prop (fun s => s.running = false ∧ s.stopping = false ∧
      s.enabled = false ∧ s.registered = false ∧ s.parents = [])
      (specs.map NewService) ?_ ?_ j
    · intro s hs
      obtain ⟨p, hp, rfl⟩ := List.mem_map.mp hs
      exact ⟨rfl, rfl, rfl, rfl, rfl⟩
    · exact ⟨rfl, rfl, rfl, rfl, rfl⟩
  have g0 : GInv m0 := by
    refine ⟨?_, ?_, ?_, ?_, ?_, ?_, ?_⟩
    · intro j; exact (hP j).2.1
    · intro j hr
      rw [(hP j).1] at hr
      exact absurd hr Bool.false_ne_true
    · intro j he
      rw [(hP j).2.2.1] at he
      exact absurd he Bool.false_ne_true
    · intro j hr
      rw [(hP j).2.2.2.1] at hr
      exact absurd hr Bool.false_ne_true
    · intro j hrj hsj e' he'
      rw [(hP j).1] at hrj
      exact absurd hrj Bool.false_ne_true
    · intro c e' he' v hv
      rw [(hP c).2.2.2.2] at he'
      exact absurd he' (List.not_mem_nil e')
    · intro j hjr c e he
      rw [(hP c).2.2.2.2] at he
      exact absurd he (List.not_mem_nil e)
  have hall : ∀ (L : List Nat), (∀ x ∈ L, x < (specs.map NewService).length) →
      ∀ w : MState, w.svcs.length = (specs.map NewService).length → GInv w →
      GInv (L.foldl (fun m i => AddService env0 i m) w) := by
    intro L
    induction L with
    | nil => intro hmem w hlen gw; exact gw
    | cons a L ih =>
      intro hmem w hlen gw
      have ha : a < w.svcs.length := by
        rw [hlen]; exact hmem a (List.mem_cons_self a L)
      have g1 := AddService_pres env0 a gw ha
      have hlen1 : (AddService env0 a w).svcs.length =
          (specs.map NewService).length := by
        rw [AddService_len]; exact hlen
      exact ih (fun x hx => hmem x (List.mem_cons_of_mem a hx)) _ hlen1 g1
  exact hall (List.range _) (fun x hx => List.mem_range.mp hx) m0 rfl g0

theorem monitorPass_pres (env : Env) {m : MState} (g : GInv m) :
    GInv (monitorPass env m) := by
  unfold monitorPass
  split_ifs with h1
  · have hfold : ∀ (L : List Nat) (w : MState), GInv w →
        GInv (L.foldl (monitorStep env) w) := by
      intro L
      induction L with
      | nil => intro w gw; exact gw
      | cons a L ih => intro w gw; exact ih _ (monitorStep_pres env a gw)
    exact hfold _ m g
  · exact g

theorem runOp_pres {m : MState} (o : Op) (g : GInv m) : GInv (runOp m o) := by
  cases o with
  | enable i env => exact Enable_pres env i g
  | disable i env => exact Disable_pres env i g
  | restart i env => exact Restart_pres env i g
  | clear i env => exact Clear_pres env i g
  | check i env => exact Check_pres env i g
  | monitor env => exact monitorPass_pres env g
  | shutdown env => exact Shutdown_pres env g

/-- The global invariant holds in every state reachable by the public
operations. -/
theorem runOps_pres (ops : List Op) : ∀ {m : MState}, GInv m →
    GInv (runOps ops m) := by
  induction ops with
  | nil => intro m g; exact g
  | cons o ops ih => intro m g; exact ih (runOp_pres o g)

/-- Unconditional frame of the start walk: the `TFr` fields of every service
are preserved. -/
theorem startRecurse_fr : ∀ (fuel : Nat) (env : Env) (detail : String)
    (i : Nat) (m : MState) (j : Nat),
    TFr (getS m j) (getS (startRecurse env fuel detail i m) j) := by
  intro fuel
  induction fuel with
  | zero => intro env det i m j; exact tfrRefl _
  | succ fuel ih =>
    intro env det i m j
    have fold_fr : ∀ (cs : List Nat) (w : MState) (j : Nat),
        TFr (getS w j) (getS (startFold env fuel cs w) j) := by
      intro cs
      induction cs with
      | nil => intro w j; exact tfrRefl _
      | cons c cs' ihc =>
        intro w j
        rw [startFold_cons]
        exact tfrComp (ih env "Dependency running" c w j) (ihc _ j)
    rw [startRecurse_succ]
    set m1 := pushEv m (.startRec i) with hm1
    by_cases hrun : (getS m1 i).running = true
    · rw [if_pos hrun]; exact tfrRefl _
    · rw [if_neg hrun]
      by_cases hcan : canRun m1.svcs i = true
      · rw [if_neg (by rw [hcan]; decide)]
        rcases htq : tooQuickly (getS m1 i) env.now with ⟨e, s'⟩
        have hkeep := tooQuickly_keep (getS m1 i) env.now
        rw [htq] at hkeep
        have hT2 : TFr (getS m1 i) s' :=
          ⟨hkeep.1, hkeep.2.2.1, fun h => by rw [hkeep.2.1]; exact h,
            hkeep.2.2.2.2.1, hkeep.2.2.2.2.2.1, hkeep.2.2.2.2.2.2.1,
            hkeep.2.2.2.2.2.2.2.1, hkeep.2.2.2.2.2.2.2.2.1,
            hkeep.2.2.2.2.2.2.2.2.2.1⟩
        cases e with
        | some err => exact TFr_updS m1 i _ hT2 j
        | none =>
          set m2 := updS m1 i (fun _ => s') with hm2
          have fT12 : ∀ j, TFr (getS m1 j) (getS m2 j) := TFr_updS m1 i _ hT2
          set f3 := fun (s : Service) => { s with
            startTimes := s.startTimes.set (s.starts % s.rateLimit) env.now }
            with hf3
          set m3 := if 0 < (getS m2 i).rateLimit then updS m2 i f3 else m2
            with hm3
          have fT23 : ∀ j, TFr (getS m2 j) (getS m3 j) := by
            rw [hm3]
            split_ifs
            · exact TFr_updS m2 i _ ⟨rfl, rfl, id, rfl, rfl, rfl, rfl, rfl, rfl⟩
            · exact fun j => tfrRefl _
          set m4 := updS m3 i (fun s => { s with starts := s.starts + 1 })
            with hm4
          have fT34 : ∀ j, TFr (getS m3 j) (getS m4 j) :=
            TFr_updS m3 i _ ⟨rfl, rfl, id, rfl, rfl, rfl, rfl, rfl, rfl⟩
          set m5 := pushEv m4 (.provStart i) with hm5
          have fT15 : ∀ j, TFr (getS m1 j) (getS m5 j) := by
            intro j
            exact tfrComp (tfrComp (fT12 j) (fT23 j)) (fT34 j)
          cases hse : env.startErr i with
          | some msg =>
            exact tfrComp (fT15 j)
              (TFr_updS m5 i _ ⟨rfl, rfl, id, rfl, rfl, rfl, rfl, rfl, rfl⟩ j)
          | none =>
            exact tfrComp (fT15 j)
              (tfrComp
                (TFr_updS m5 i _
                  ⟨rfl, rfl, fun _ => rfl, rfl, rfl, rfl, rfl, rfl, rfl⟩ j)
                (fold_fr _ _ j))
      · have hcan' : (!(canRun m1.svcs i)) = true := by
          cases hc : canRun m1.svcs i
          · rfl
          · exact absurd hc hcan
        rw [if_pos hcan']
        exact tfrRefl _

/-- Unconditional frame of the stop walk: the `SFr` fields of every service
are preserved, the list of services keeps its length, and the event trace
only grows. -/
theorem stopRecurse_fr : ∀ (fuel : Nat) (env : Env) (det : String) (s : Nat)
    (m : MState),
    (∀ j, SFr (getS m j) (getS (stopRecurse env fuel det s m) j)) ∧
    (stopRecurse env fuel det s m).svcs.length = m.svcs.length ∧
    ∃ E, (stopRecurse env fuel det s m).evs = m.evs ++ E := by
  intro fuel
  induction fuel with
  | zero =>
    intro env det s m
    exact ⟨fun j => sfrRefl _, rfl, ⟨[], (List.append_nil m.evs).symm⟩⟩
  | succ fuel ih =>
    intro env det s m
    have fold_fr : ∀ (cs : List Nat) (w : MState),
        (∀ j, SFr (getS w j) (getS (stopFold env fuel cs w) j)) ∧
        (stopFold env fuel cs w).svcs.length = w.svcs.length ∧
        ∃ E, (stopFold env fuel cs w).evs = w.evs ++ E := by
      intro cs
      induction cs with
      | nil =>
        intro w
        exact ⟨fun j => sfrRefl _, rfl, ⟨[], (List.append_nil w.evs).symm⟩⟩
      | cons c cs' ihc =>
        intro w
        rw [stopFold_cons]
        by_cases hcr : canRun w.svcs c = true
        · rw [if_pos hcr]; exact ihc w
        · rw [if_neg hcr]
          obtain ⟨ihf, ihl, ihE⟩ :=
            ihc (stopRecurse env fuel "Dependency stopped" c w)
          obtain ⟨shf, shl, shE⟩ := ih env "Dependency stopped" c w
          obtain ⟨E1, h1⟩ := shE
          obtain ⟨E2, h2⟩ := ihE
          exact ⟨fun j => sfrComp (shf j) (ihf j), by rw [ihl, shl],
            ⟨E1 ++ E2, by rw [h2, h1, List.append_assoc]⟩⟩
    rw [stopRecurse_succ]
    by_cases hg : (!(getS m s).running || (getS m s).stopping) = true
    · rw [if_pos hg]
      exact ⟨fun j => sfrRefl _, rfl, ⟨[], (List.append_nil m.evs).symm⟩⟩
    · rw [if_neg hg]
      have hgor : (getS m s).running = true ∧ (getS m s).stopping = false := by
        revert hg
        cases h1 : (getS m s).running <;> cases h2 : (getS m s).stopping <;> simp
      set fStp := fun (x : Service) => { x with stopping := true } with hfStp
      set mA := updS m s fStp with hmA
      set wM := stopFold env fuel ((getS mA s).children) mA with hwM
      set fFin := fun (x : Service) => { x with
        reason := "Stopped: " ++ det, stamp := env.now
        running := false, stopping := false } with hfFin
      obtain ⟨hfw, hlw, hwE⟩ := fold_fr ((getS mA s).children) mA
      have hlenW : wM.svcs.length = m.svcs.length := by
        rw [hlw, hmA, len_updS]
      have hmAevs : mA.evs = m.evs := by rw [hmA, evs_updS]
      obtain ⟨E, hWE⟩ := hwE
      have hevs : (updS (pushEv wM (Ev.provStop s)) s fFin).evs =
          m.evs ++ (E ++ [Ev.provStop s]) := by
        rw [evs_updS]
        show wM.evs ++ [Ev.provStop s] = m.evs ++ (E ++ [Ev.provStop s])
        rw [hWE, hmAevs, List.append_assoc]
      refine ⟨?_, by rw [len_updS]; exact hlenW, ⟨E ++ [Ev.provStop s], hevs⟩⟩
      intro j
      by_cases hjs : j = s
      · subst hjs
        by_cases hl : j < m.svcs.length
        · have hAs : getS mA j = fStp (getS m j) := getS_updS_self m j fStp hl
          have hfin : getS (updS (pushEv wM (Ev.provStop j)) j fFin) j =
              fFin (getS wM j) :=
            getS_updS_self (pushEv wM (Ev.provStop j)) j fFin
              (by show j < wM.svcs.length; rw [hlenW]; exact hl)
          have hws := hfw j
          rw [hfin]
          exact ⟨hws.enabled.trans (by rw [hAs]),
            hws.failed.trans (by rw [hAs]),
            hgor.2.symm,
            fun _ => hgor.1,
            hws.parents.trans (by rw [hAs]),
            hws.children.trans (by rw [hAs]),
            hws.incompat.trans (by rw [hAs]),
            hws.depends.trans (by rw [hAs]),
            hws.registered.trans (by rw [hAs]),
            hws.err.trans (by rw [hAs]),
            hws.checking.trans (by rw [hAs]),
            hws.starts.trans (by rw [hAs]),
            hws.startTimes.trans (by rw [hAs]),
            hws.rateLog.trans (by rw [hAs])⟩
        · have hle : m.svcs.length ≤ j := le_of_not_lt hl
          have h1 : getS mA j = getS m j := getS_updS_out m j j fStp hle
          have h2 : getS (updS (pushEv wM (Ev.provStop j)) j fFin) j =
              getS wM j :=
            getS_updS_out (pushEv wM (Ev.provStop j)) j j fFin
              (by show wM.svcs.length ≤ j; rw [hlenW]; exact hle)
          rw [h2, ← h1]
          exact hfw j
      · have h2 : getS (updS (pushEv wM (Ev.provStop s)) s fFin) j = getS wM j := by
          have := getS_updS_ne (pushEv wM (Ev.provStop s)) s j fFin hjs
          exact this
        have h1 : getS mA j = getS m j := getS_updS_ne m s j fStp hjs
        rw [h2, ← h1]
        exact hfw j

/-- Standalone frame of the child stop loop. -/
theorem stopFold_fr (env : Env) (fuel : Nat) (cs : List Nat) (w : MState) :
    (∀ j, SFr (getS w j) (getS (stopFold env fuel cs w) j)) ∧
    (stopFold env fuel cs w).svcs.length = w.svcs.length ∧
    ∃ E, (stopFold env fuel cs w).evs = w.evs ++ E := by
  induction cs generalizing w with
  | nil => exact ⟨fun j => sfrRefl _, rfl, ⟨[], (List.append_nil w.evs).symm⟩⟩
  | cons c cs' ihc =>
    rw [stopFold_cons]
    by_cases hcr : canRun w.svcs c = true
    · rw [if_pos hcr]; exact ihc _
    · rw [if_neg hcr]
      obtain ⟨ihf, ihl, ihE⟩ := ihc (stopRecurse env fuel "Dependency stopped" c w)
      obtain ⟨shf, shl, shE⟩ := stopRecurse_fr fuel env "Dependency stopped" c w
      obtain ⟨E1, h1⟩ := shE
      obtain ⟨E2, h2⟩ := ihE
      exact ⟨fun j => sfrComp (shf j) (ihf j), by rw [ihl, shl],
        ⟨E1 ++ E2, by rw [h2, h1, List.append_assoc]⟩⟩

/-- Clearing an already-clear checking flag is the identity. -/
theorem svc_set_checking_false (s : Service) (h : s.checking = false) :
    ({ s with checking := false } : Service) = s := by
  rw [← h]

theorem JInvX_of_JInv {m : MState} {s : Nat} (h : JInv m []) : JInvX m [] s := by
  intro i hne hr hs e he
  rcases h i hr hs e he with hg | hc
  · exact Or.inl hg
  · obtain ⟨p, hp, -⟩ := hc
    exact absurd hp (List.not_mem_nil p)

/-- C3.  In every state reachable from a freshly registered service set by
the public operations, every running service has, for each declared
dependency name `d`, a provider in `parents[d]` that is running, not failed
and not stopping; and from any such state the stop walk emits the provider
stop of the stopped service last, after all the (child) stops it caused. -/
theorem c3_reachable_dependency_liveness (now : Nat) (specs : List SvcSpec)
    (ops : List Op) (i : Nat) (d : String)
    (hrun : (getS (runOps ops (initManager now specs)) i).running = true)
    (hd : d ∈ (getS (runOps ops (initManager now specs)) i).depends) :
    (∃ p ∈ lookupParents (runOps ops (initManager now specs)) i d,
      (getS (runOps ops (initManager now specs)) p).running = true ∧
      (getS (runOps ops (initManager now specs)) p).failed = false ∧
      (getS (runOps ops (initManager now specs)) p).stopping = false) ∧
    (∀ (env : Env) (det : String) (s : Nat),
      (getS (runOps ops (initManager now specs)) s).running = true →
      ∃ E, (stopRecurse env (bigFuel (runOps ops (initManager now specs))) det s
          (runOps ops (initManager now specs))).evs =
        (runOps ops (initManager now specs)).evs ++ E ++ [Ev.provStop s]) := by
  set M := runOps ops (initManager now specs) with hM
  have g : GInv M := runOps_pres ops (initManager_pres now specs)
  constructor
  · have hkeys : (getS M i).parents.map Prod.fst = (getS M i).depends :=
      g.keys i (g.enReg i (g.runEn i hrun))
    rw [← hkeys] at hd
    obtain ⟨e0, he0, he0d⟩ := List.mem_map.mp hd
    rcases hfind : (getS M i).parents.find? (fun e => e.1 == d) with - | e'
    · exfalso
      exact (List.find?_eq_none.mp hfind e0 he0)
        (by rw [he0d]; exact beq_self_eq_true d)
    · have hmem : e' ∈ (getS M i).parents := List.mem_of_find?_eq_some hfind
      have hlook : lookupParents M i d = e'.2 := by
        unfold lookupParents
        rw [hfind]
        rfl
      rcases g.jinv i hrun (g.nostop i) e' hmem with ⟨p, hp, hgp⟩ | hc
      · refine ⟨p, ?_, hgp.2.1, hgp.2.2.2, hgp.2.2.1⟩
        rw [hlook]
        exact hp
      · obtain ⟨q, hq, -⟩ := hc
        exact absurd hq (List.not_mem_nil q)
  · intro env det s hr
    have post := stopRecurse_sound (bigFuel M) env det s M []
      (by have := muRS_le_len M.svcs; unfold bigFuel; omega)
      g.esym (JInvX_of_JInv g.jinv)
    exact post.evsStop hr (g.nostop s)

theorem c3_reachable_dependency_liveness_witness :
    ((getS (runOps
        [Op.enable 0 (Env.mk 5 (fun _ => none) (fun _ => none)),
         Op.enable 1 (Env.mk 5 (fun _ => none) (fun _ => none))]
        (initManager 1
          [⟨"a", "", [], [], [], false, 0, 0⟩,
           ⟨"b", "", [], ["a"], [], false, 0, 0⟩])) 1).running = true) ∧
    ("a" ∈ (getS (runOps
        [Op.enable 0 (Env.mk 5 (fun _ => none) (fun _ => none)),
         Op.enable 1 (Env.mk 5 (fun _ => none) (fun _ => none))]
        (initManager 1
          [⟨"a", "", [], [], [], false, 0, 0⟩,
           ⟨"b", "", [], ["a"], [], false, 0, 0⟩])) 1).depends) ∧
    ((∃ p ∈ lookupParents (runOps
        [Op.enable 0 (Env.mk 5 (fun _ => none) (fun _ => none)),
         Op.enable 1 (Env.mk 5 (fun _ => none) (fun _ => none))]
        (initManager 1
          [⟨"a", "", [], [], [], false, 0, 0⟩,
           ⟨"b", "", [], ["a"], [], false, 0, 0⟩])) 1 "a",
      (getS (runOps
        [Op.enable 0 (Env.mk 5 (fun _ => none) (fun _ => none)),
         Op.enable 1 (Env.mk 5 (fun _ => none) (fun _ => none))]
        (initManager 1
          [⟨"a", "", [], [], [], false, 0, 0⟩,
           ⟨"b", "", [], ["a"], [], false, 0, 0⟩])) p).running = true ∧
      (getS (runOps
        [Op.enable 0 (Env.mk 5 (fun _ => none) (fun _ => none)),
         Op.enable 1 (Env.mk 5 (fun _ => none) (fun _ => none))]
        (initManager 1
          [⟨"a", "", [], [], [], false, 0, 0⟩,
           ⟨"b", "", [], ["a"], [], false, 0, 0⟩])) p).failed = false ∧
      (getS (runOps
        [Op.enable 0 (Env.mk 5 (fun _ => none) (fun _ => none)),
         Op.enable 1 (Env.mk 5 (fun _ => none) (fun _ => none))]
        (initManager 1
          [⟨"a", "", [], [], [], false, 0, 0⟩,
           ⟨"b", "", [], ["a"], [], false, 0, 0⟩])) p).stopping = false) ∧
    (∀ (env : Env) (det : String) (s : Nat),
      (getS (runOps
        [Op.enable 0 (Env.mk 5 (fun _ => none) (fun _ => none)),
         Op.enable 1 (Env.mk 5 (fun _ => none) (fun _ => none))]
        (initManager 1
          [⟨"a", "", [], [], [], false, 0, 0⟩,
           ⟨"b", "", [], ["a"], [], false, 0, 0⟩])) s).running = true →
      ∃ E, (stopRecurse env (bigFuel (runOps
          [Op.enable 0 (Env.mk 5 (fun _ => none) (fun _ => none)),
           Op.enable 1 (Env.mk 5 (fun _ => none) (fun _ => none))]
          (initManager 1
            [⟨"a", "", [], [], [], false, 0, 0⟩,
             ⟨"b", "", [], ["a"], [], false, 0, 0⟩]))) det s
          (runOps
            [Op.enable 0 (Env.mk 5 (fun _ => none) (fun _ => none)),
             Op.enable 1 (Env.mk 5 (fun _ => none) (fun _ => none))]
            (initManager 1
              [⟨"a", "", [], [], [], false, 0, 0⟩,
               ⟨"b", "", [], ["a"], [], false, 0, 0⟩]))).evs =
        (runOps
          [Op.enable 0 (Env.mk 5 (fun _ => none) (fun _ => none)),
           Op.enable 1 (Env.mk 5 (fun _ => none) (fun _ => none))]
          (initManager 1
            [⟨"a", "", [], [], [], false, 0, 0⟩,
             ⟨"b", "", [], ["a"], [], false, 0, 0⟩])).evs ++ E ++
          [Ev.provStop s])) :=
  ⟨by decide, by decide,
    c3_reachable_dependency_liveness 1
      [⟨"a", "", [], [], [], false, 0, 0⟩, ⟨"b", "", [], ["a"], [], false, 0, 0⟩]
      [Op.enable 0 (Env.mk 5 (fun _ => none) (fun _ => none)),
       Op.enable 1 (Env.mk 5 (fun _ => none) (fun _ => none))]
      1 "a" (by decide) (by decide)⟩

/-- C6.  `Enable` on a registered, disabled service returns `ConflictError`
and changes nothing when some incompatible service is enabled; otherwise it
sets `enabled`, resets `starts` to 0, sets the status to
"Waiting to start" with the current time stamp, and invokes the start walk.
`Enable` on an already-enabled and `Disable` on an already-disabled service
return nil and change nothing, and both operations are idempotent:
`Enable;Enable ≡ Enable` and `Disable;Disable ≡ Disable`. -/
theorem c6_enable_disable_semantics (env env2 : Env) (i : Nat) (m : MState) :
    ((getS m i).registered = true → (getS m i).enabled = false →
      (getS m i).incompat.any (fun c => (getS m c).enabled) = true →
      Enable env i m = (some .conflict, m)) ∧
    ((getS m i).registered = true → (getS m i).enabled = false →
      (getS m i).incompat.any (fun c => (getS m c).enabled) = false →
      Enable env i m = (none, startRecurse env
        (bigFuel (updS m i (fun s => { s with
          reason := "Waiting to start", stamp := env.now
          enabled := true, starts := 0 })))
        "Enabled service" i
        (updS m i (fun s => { s with
          reason := "Waiting to start", stamp := env.now
          enabled := true, starts := 0 })))) ∧
    ((getS m i).registered = true → (getS m i).enabled = true →
      Enable env i m = (none, m)) ∧
    ((getS m i).registered = true → (getS m i).enabled = false →
      Disable env i m = (none, m)) ∧
    ((Enable env2 i (Enable env i m).2).2 = (Enable env i m).2) ∧
    ((Disable env2 i (Disable env i m).2).2 = (Disable env i m).2) := by
  refine ⟨?_, ?_, ?_, ?_, ?_, ?_⟩
  · intro hreg hen hconf
    rw [Enable_eq, if_neg (by rw [hreg]; decide), if_neg (by rw [hen]; decide),
      if_pos hconf]
  · intro hreg hen hconf
    rw [Enable_eq, if_neg (by rw [hreg]; decide), if_neg (by rw [hen]; decide),
      if_neg (by rw [hconf]; decide)]
  · intro hreg hen
    rw [Enable_eq, if_neg (by rw [hreg]; decide), if_pos hen]
  · intro hreg hen
    rw [Disable_eq, if_neg (by rw [hreg]; decide), if_pos (by rw [hen]; rfl)]
  · rw [Enable_eq env i m]
    split_ifs with h1 h2 h3
    · rw [Enable_eq env2 i m, if_pos h1]
    · rw [Enable_eq env2 i m, if_neg h1, if_pos h2]
    · rw [Enable_eq env2 i m, if_neg h1, if_neg h2, if_pos h3]
    · have hreg : (getS m i).registered = true := by
        revert h1; cases (getS m i).registered <;> simp
      have hlt : i < m.svcs.length := lt_length_of_registered hreg
      set fA := fun (s : Service) => { s with
        reason := "Waiting to start", stamp := env.now
        enabled := true, starts := 0 } with hfA
      set mA := updS m i fA with hmA
      set M2 := startRecurse env (bigFuel mA) "Enabled service" i mA with hM2
      have hfr := startRecurse_fr (bigFuel mA) env "Enabled service" i mA i
      have hregM : (getS M2 i).registered = true := by
        rw [hfr.registered, getS_updS_self m i fA hlt]
        exact hreg
      have henM : (getS M2 i).enabled = true := by
        rw [hfr.enabled, getS_updS_self m i fA hlt]
      rw [Enable_eq env2 i M2, if_neg (by rw [hregM]; decide), if_pos henM]
  · rw [Disable_eq env i m]
    split_ifs with h1 h2
    · rw [Disable_eq env2 i m, if_pos h1]
    · rw [Disable_eq env2 i m, if_neg h1, if_pos h2]
    · have hreg : (getS m i).registered = true := by
        revert h1; cases (getS m i).registered <;> simp
      have hlt : i < m.svcs.length := lt_length_of_registered hreg
      set fD := fun (s : Service) => { s with
        stamp := env.now, reason := "Disabled service"
        enabled := false, failed := false, err := none } with hfD
      set mA := updS m i fD with hmA
      set M2 := stopRecurse env (bigFuel mA) "Disabled service" i mA with hM2
      have hfr := (stopRecurse_fr (bigFuel mA) env "Disabled service" i mA).1 i
      have hregM : (getS M2 i).registered = true := by
        rw [hfr.registered, getS_updS_self m i fD hlt]
        exact hreg
      have henM : (getS M2 i).enabled = false := by
        rw [hfr.enabled, getS_updS_self m i fD hlt]
      rw [Disable_eq env2 i M2, if_neg (by rw [hregM]; decide),
        if_pos (by rw [henM]; rfl)]

theorem c6_enable_disable_semantics_witness :
    ((getS (runOps [Op.enable 0 (Env.mk 5 (fun _ => none) (fun _ => none))]
        (initManager 1 [⟨"a", "", [], [], [], false, 0, 0⟩])) 0).registered
      = true) ∧
    ((getS (runOps [Op.enable 0 (Env.mk 5 (fun _ => none) (fun _ => none))]
        (initManager 1 [⟨"a", "", [], [], [], false, 0, 0⟩])) 0).enabled
      = true) ∧
    Enable (Env.mk 7 (fun _ => none) (fun _ => none)) 0
      (runOps [Op.enable 0 (Env.mk 5 (fun _ => none) (fun _ => none))]
        (initManager 1 [⟨"a", "", [], [], [], false, 0, 0⟩])) =
      (none, runOps [Op.enable 0 (Env.mk 5 (fun _ => none) (fun _ => none))]
        (initManager 1 [⟨"a", "", [], [], [], false, 0, 0⟩])) ∧
    (Enable (Env.mk 7 (fun _ => none) (fun _ => none)) 0
      (Enable (Env.mk 5 (fun _ => none) (fun _ => none)) 0
        (initManager 1 [⟨"a", "", [], [], [], false, 0, 0⟩])).2).2 =
      (Enable (Env.mk 5 (fun _ => none) (fun _ => none)) 0
        (initManager 1 [⟨"a", "", [], [], [], false, 0, 0⟩])).2 :=
  ⟨by decide, by decide,
    (c6_enable_disable_semantics (Env.mk 7 (fun _ => none) (fun _ => none))
      (Env.mk 7 (fun _ => none) (fun _ => none)) 0
      (runOps [Op.enable 0 (Env.mk 5 (fun _ => none) (fun _ => none))]
        (initManager 1 [⟨"a", "", [], [], [], false, 0, 0⟩]))).2.2.1
      (by decide) (by decide),
    (c6_enable_disable_semantics (Env.mk 5 (fun _ => none) (fun _ => none))
      (Env.mk 7 (fun _ => none) (fun _ => none)) 0
      (initManager 1 [⟨"a", "", [], [], [], false, 0, 0⟩])).2.2.2.2.1⟩

/-- C7.  `checkService` returns the latched `err` (recording only the check
entry, not a provider call) when `failed` is set; returns `NotRunningError`
without state change when not running; on a provider check error it latches
`failed`, records the error, runs the stop walk with reason
"Faulted: <msg>" (so the final status reads "Stopped: Faulted: <msg>" and the
trace ends with the provider stop), clears `checking`, and returns the
error; on provider success it returns nil and, when `checking` was clear,
leaves every service record unchanged. -/
theorem c7_check_service_semantics (env : Env) (i : Nat) (m : MState)
    (msg : String) :
    ((getS m i).failed = true →
      checkService env i m = ((getS m i).err, pushEv m (Ev.checkSvc i))) ∧
    ((getS m i).failed = false → (getS m i).running = false →
      checkService env i m = (some .notRunning, pushEv m (Ev.checkSvc i))) ∧
    ((getS m i).failed = false → (getS m i).running = true →
      env.checkErr i = none →
      checkService env i m = (none,
        updS (chkPre i m) i (fun s => { s with checking := false })) ∧
      ((getS m i).checking = false →
        ∀ j, getS (checkService env i m).2 j = getS m j)) ∧
    ((getS m i).failed = false → (getS m i).running = true →
      env.checkErr i = some msg →
      (checkService env i m).1 = some (.provErr msg) ∧
      (getS (checkService env i m).2 i).failed = true ∧
      (getS (checkService env i m).2 i).err = some (.provErr msg) ∧
      (getS (checkService env i m).2 i).checking = false ∧
      ((getS m i).stopping = false →
        (getS (checkService env i m).2 i).reason =
          "Stopped: " ++ ("Faulted: " ++ msg) ∧
        ∃ E, (checkService env i m).2.evs =
          m.evs ++ [Ev.checkSvc i, Ev.provCheck i] ++ E ++ [Ev.provStop i])) := by
  refine ⟨?_, ?_, ?_, ?_⟩
  · intro hfl
    rw [checkService_eq, if_pos hfl]
  · intro hfl hrun2
    rw [checkService_eq, if_neg (by rw [hfl]; decide),
      if_pos (by rw [hrun2]; rfl)]
  · intro hfl hrun hce
    have hltm : i < m.svcs.length := lt_length_of_running hrun
    have hlenPre : (chkPre i m).svcs.length = m.svcs.length := by
      show (updS (pushEv m (Ev.checkSvc i)) i
        (fun s => { s with checking := true })).svcs.length = m.svcs.length
      rw [len_updS]
      rfl
    have hPre : getS (chkPre i m) i =
        (fun s => { s with checking := true }) (getS m i) := by
      show getS (updS (pushEv m (Ev.checkSvc i)) i
        (fun s => { s with checking := true })) i = _
      exact getS_updS_self (pushEv m (Ev.checkSvc i)) i _ hltm
    have heq : checkService env i m = (none,
        updS (chkPre i m) i (fun s => { s with checking := false })) := by
      rw [checkService_eq, if_neg (by rw [hfl]; decide),
        if_neg (by rw [hrun]; decide), hce]
    refine ⟨heq, ?_⟩
    intro hchk j
    rw [heq]
    show getS (updS (chkPre i m) i (fun s => { s with checking := false })) j
      = getS m j
    by_cases hji : j = i
    · rw [hji, getS_updS_self (chkPre i m) i _ (by rw [hlenPre]; exact hltm),
        hPre]
      show ({ getS m i with checking := false } : Service) = getS m i
      exact svc_set_checking_false _ hchk
    · rw [getS_updS_ne (chkPre i m) i j _ hji]
      show getS (updS (pushEv m (Ev.checkSvc i)) i
        (fun s => { s with checking := true })) j = getS m j
      rw [getS_updS_ne (pushEv m (Ev.checkSvc i)) i j _ hji]
      rfl
  · intro hfl hrun hce
    have hltm : i < m.svcs.length := lt_length_of_running hrun
    have hlenPre : (chkPre i m).svcs.length = m.svcs.length := by
      show (updS (pushEv m (Ev.checkSvc i)) i
        (fun s => { s with checking := true })).svcs.length = m.svcs.length
      rw [len_updS]
      rfl
    have hPre : getS (chkPre i m) i =
        (fun s => { s with checking := true }) (getS m i) := by
      show getS (updS (pushEv m (Ev.checkSvc i)) i
        (fun s => { s with checking := true })) i = _
      exact getS_updS_self (pushEv m (Ev.checkSvc i)) i _ hltm
    set ff := fun (s : Service) => { s with failed := true } with hff
    set mC := updS (chkPre i m) i ff with hmC
    have hlenC : mC.svcs.length = m.svcs.length := by
      rw [hmC, len_updS, hlenPre]
    have hCi : getS mC i = ff ((fun s => { s with checking := true })
        (getS m i)) := by
      rw [hmC, getS_updS_self (chkPre i m) i ff (by rw [hlenPre]; exact hltm),
        hPre]
    have hrunC : (getS mC i).running = true := by rw [hCi]; exact hrun
    have hfailC : (getS mC i).failed = true := by rw [hCi]
    set mD := stopRecurse env (bigFuel mC) ("Faulted: " ++ msg) i mC with hmD
    obtain ⟨hfrD, hlenD, -⟩ :=
      stopRecurse_fr (bigFuel mC) env ("Faulted: " ++ msg) i mC
    have hltD : i < mD.svcs.length := by rw [hlenD, hlenC]; exact hltm
    set fLast := fun (s : Service) => { s with
      err := some (GErr.provErr msg), checking := false } with hfLast
    have heq : checkService env i m = (some (.provErr msg), updS mD i fLast) := by
      rw [checkService_eq, if_neg (by rw [hfl]; decide),
        if_neg (by rw [hrun]; decide), hce]
      rfl
    rw [heq]
    have hlast : getS (updS mD i fLast) i = fLast (getS mD i) :=
      getS_updS_self mD i fLast hltD
    refine ⟨rfl, ?_, ?_, ?_, ?_⟩
    · rw [hlast]
      show (getS mD i).failed = true
      rw [(hfrD i).failed, hfailC]
    · rw [hlast]
    · rw [hlast]
    · intro hstp
      have hstpC : (getS mC i).stopping = false := by rw [hCi]; exact hstp
      have hguard : ¬((!(getS mC i).running || (getS mC i).stopping) = true) := by
        rw [hrunC, hstpC]
        decide
      set fStp := fun (x : Service) => { x with stopping := true } with hfStp
      set mA := updS mC i fStp with hmA
      have hmD1 : mD = updS (pushEv
          (stopFold env mC.svcs.length ((getS mA i).children) mA)
          (Ev.provStop i)) i
          (fun x => { x with
            reason := "Stopped: " ++ ("Faulted: " ++ msg), stamp := env.now
            running := false, stopping := false }) := by
        rw [hmD, show bigFuel mC = mC.svcs.length + 1 from rfl,
          stopRecurse_succ, if_neg hguard]
      obtain ⟨-, hlenF, hevF⟩ :=
        stopFold_fr env mC.svcs.length ((getS mA i).children) mA
      obtain ⟨E, hE⟩ := hevF
      have hltF : i < (pushEv
          (stopFold env mC.svcs.length ((getS mA i).children) mA)
          (Ev.provStop i)).svcs.length := by
        show i < (stopFold env mC.svcs.length ((getS mA i).children) mA).svcs.length
        rw [hlenF, hmA, len_updS, hlenC]
        exact hltm
      constructor
      · rw [hlast]
        show (getS mD i).reason = "Stopped: " ++ ("Faulted: " ++ msg)
        rw [hmD1, getS_updS_self _ i _ hltF]
      · refine ⟨E, ?_⟩
        show (updS mD i fLast).evs =
          m.evs ++ [Ev.checkSvc i, Ev.provCheck i] ++ E ++ [Ev.provStop i]
        rw [evs_updS, hmD1, evs_updS]
        show (stopFold env mC.svcs.length ((getS mA i).children) mA).evs ++
          [Ev.provStop i] =
          m.evs ++ [Ev.checkSvc i, Ev.provCheck i] ++ E ++ [Ev.provStop i]
        rw [hE]
        have hmAevs : mA.evs = ((m.evs ++ [Ev.checkSvc i]) ++ [Ev.provCheck i]) := by
          rw [hmA, evs_updS, hmC, evs_updS]
          rfl
        rw [hmAevs]
        simp [List.append_assoc]

theorem c7_check_service_semantics_witness :
    ((getS (runOps [Op.enable 0 (Env.mk 5 (fun _ => none) (fun _ => none))]
        (initManager 1 [⟨"a", "", [], [], [], false, 0, 0⟩])) 0).failed
      = false) ∧
    ((getS (runOps [Op.enable 0 (Env.mk 5 (fun _ => none) (fun _ => none))]
        (initManager 1 [⟨"a", "", [], [], [], false, 0, 0⟩])) 0).running
      = true) ∧
    ((Env.mk 9 (fun _ => none) (fun _ => some "boom")).checkErr 0
      = some "boom") ∧
    ((checkService (Env.mk 9 (fun _ => none) (fun _ => some "boom")) 0
        (runOps [Op.enable 0 (Env.mk 5 (fun _ => none) (fun _ => none))]
          (initManager 1 [⟨"a", "", [], [], [], false, 0, 0⟩]))).1 =
        some (.provErr "boom") ∧
      (getS (checkService (Env.mk 9 (fun _ => none) (fun _ => some "boom")) 0
        (runOps [Op.enable 0 (Env.mk 5 (fun _ => none) (fun _ => none))]
          (initManager 1 [⟨"a", "", [], [], [], false, 0, 0⟩]))).2 0).failed
        = true ∧
      (getS (checkService (Env.mk 9 (fun _ => none) (fun _ => some "boom")) 0
        (runOps [Op.enable 0 (Env.mk 5 (fun _ => none) (fun _ => none))]
          (initManager 1 [⟨"a", "", [], [], [], false, 0, 0⟩]))).2 0).err
        = some (.provErr "boom") ∧
      (getS (checkService (Env.mk 9 (fun _ => none) (fun _ => some "boom")) 0
        (runOps [Op.enable 0 (Env.mk 5 (fun _ => none) (fun _ => none))]
          (initManager 1 [⟨"a", "", [], [], [], false, 0, 0⟩]))).2 0).checking
        = false ∧
      ((getS (runOps [Op.enable 0 (Env.mk 5 (fun _ => none) (fun _ => none))]
          (initManager 1 [⟨"a", "", [], [], [], false, 0, 0⟩])) 0).stopping
          = false →
        (getS (checkService (Env.mk 9 (fun _ => none) (fun _ => some "boom")) 0
          (runOps [Op.enable 0 (Env.mk 5 (fun _ => none) (fun _ => none))]
            (initManager 1 [⟨"a", "", [], [], [], false, 0, 0⟩]))).2 0).reason
          = "Stopped: " ++ ("Faulted: " ++ "boom") ∧
        ∃ E, (checkService (Env.mk 9 (fun _ => none) (fun _ => some "boom")) 0
          (runOps [Op.enable 0 (Env.mk 5 (fun _ => none) (fun _ => none))]
            (initManager 1 [⟨"a", "", [], [], [], false, 0, 0⟩]))).2.evs =
          (runOps [Op.enable 0 (Env.mk 5 (fun _ => none) (fun _ => none))]
            (initManager 1 [⟨"a", "", [], [], [], false, 0, 0⟩])).evs ++
            [Ev.checkSvc 0, Ev.provCheck 0] ++ E ++ [Ev.provStop 0])) :=
  ⟨by decide, by decide, rfl,
    (c7_check_service_semantics (Env.mk 9 (fun _ => none) (fun _ => some "boom"))
      0 (runOps [Op.enable 0 (Env.mk 5 (fun _ => none) (fun _ => none))]
        (initManager 1 [⟨"a", "", [], [], [], false, 0, 0⟩]))
      "boom").2.2.2 (by decide) (by decide) rfl⟩

/-- C10.  With a positive rate limit, a permitted start attempt stamps
`start_times[starts mod rate_limit]` with the current time and increments
`starts` before `provider.Start` runs; when the provider fails, the attempt
is therefore counted (starts is one higher, the slot holds the stamp),
`running` stays false, `failed` is latched with the error recorded, and no
other service is touched (no child propagation). -/
theorem c10_failed_start_counts (env : Env) (det : String) (i : Nat)
    (m : MState) (fuel : Nat) (msg : String)
    (hrun : (getS m i).running = false)
    (hcan : canRun m.svcs i = true)
    (htq : (tooQuickly (getS m i) env.now).1 = none)
    (hrl : 0 < (getS m i).rateLimit)
    (hse : env.startErr i = some msg) :
    (getS (startRecurse env (fuel + 1) det i m) i).starts
        = (getS m i).starts + 1 ∧
    (getS (startRecurse env (fuel + 1) det i m) i).startTimes
        = (getS m i).startTimes.set ((getS m i).starts % (getS m i).rateLimit)
            env.now ∧
    (getS (startRecurse env (fuel + 1) det i m) i).running = false ∧
    (getS (startRecurse env (fuel + 1) det i m) i).failed = true ∧
    (getS (startRecurse env (fuel + 1) det i m) i).err
        = some (.provErr msg) ∧
    (getS (startRecurse env (fuel + 1) det i m) i).reason
        = "Failed to start:" ++ msg ∧
    (getS (startRecurse env (fuel + 1) det i m) i).stamp = env.now ∧
    (∀ j, j ≠ i → getS (startRecurse env (fuel + 1) det i m) j = getS m j) ∧
    (startRecurse env (fuel + 1) det i m).evs
        = m.evs ++ [Ev.startRec i, Ev.provStart i] := by
  have hen : (getS m i).enabled = true := ((canRun_iff m i).mp hcan).2.1
  have hlt : i < m.svcs.length := lt_length_of_enabled hen
  rcases htq2 : tooQuickly (getS m i) env.now with ⟨e, s'⟩
  have htq3 : (tooQuickly (getS m i) env.now).1 = e := by rw [htq2]
  rw [htq3] at htq
  subst htq
  have hkeep := tooQuickly_keep (getS m i) env.now
  rw [htq2] at hkeep
  have hkRun : s'.running = (getS m i).running := hkeep.2.1
  have hkStarts : s'.starts = (getS m i).starts :=
    hkeep.2.2.2.2.2.2.2.2.2.2.1
  have hkST : s'.startTimes = (getS m i).startTimes :=
    hkeep.2.2.2.2.2.2.2.2.2.2.2.1
  have hkRL : s'.rateLimit = (getS m i).rateLimit :=
    hkeep.2.2.2.2.2.2.2.2.2.2.2.2
  rw [startRecurse_succ]
  simp only []
  have hg1 : getS (pushEv m (Ev.startRec i)) i = getS m i := rfl
  rw [if_neg (show ¬((getS (pushEv m (Ev.startRec i)) i).running = true) from by
    rw [hg1, hrun]; decide)]
  rw [if_neg (show ¬((!(canRun (pushEv m (Ev.startRec i)).svcs i)) = true) from by
    show ¬((!(canRun m.svcs i)) = true)
    rw [hcan]; decide)]
  rw [show tooQuickly (getS (pushEv m (Ev.startRec i)) i) env.now = (none, s')
    from htq2]
  simp only []
  set w1 := pushEv m (Ev.startRec i) with hw1
  set w2 := updS w1 i (fun _ => s') with hw2
  have hlt2 : i < w2.svcs.length := by rw [hw2, len_updS]; exact hlt
  have hg2 : getS w2 i = s' := by
    rw [hw2]
    exact getS_updS_self w1 i (fun _ => s') hlt
  rw [if_pos (show 0 < (getS w2 i).rateLimit from by rw [hg2, hkRL]; exact hrl)]
  rw [show env.startErr i = some msg from hse]
  simp only []
  set f3 := fun (s : Service) => { s with
    startTimes := s.startTimes.set (s.starts % s.rateLimit) env.now } with hf3
  set w3 := updS w2 i f3 with hw3
  set f4 := fun (s : Service) => { s with starts := s.starts + 1 } with hf4
  set w4 := updS w3 i f4 with hw4
  set w5 := pushEv w4 (Ev.provStart i) with hw5
  set f6 := fun (s : Service) => { s with
    reason := "Failed to start:" ++ msg, stamp := env.now
    err := some (GErr.provErr msg), failed := true } with hf6
  have hlt3 : i < w3.svcs.length := by rw [hw3, len_updS]; exact hlt2
  have hlt4 : i < w4.svcs.length := by rw [hw4, len_updS]; exact hlt3
  have hlt5 : i < w5.svcs.length := hlt4
  have hg3 : getS w3 i = f3 s' := by
    rw [hw3, getS_updS_self w2 i f3 hlt2, hg2]
  have hg4 : getS w4 i = f4 (f3 s') := by
    rw [hw4, getS_updS_self w3 i f4 hlt3, hg3]
  have hg5 : getS w5 i = f4 (f3 s') := hg4
  have hgT : getS (updS w5 i f6) i = f6 (f4 (f3 s')) := by
    rw [getS_updS_self w5 i f6 hlt5, hg5]
  refine ⟨?_, ?_, ?_, ?_, ?_, ?_, ?_, ?_, ?_⟩
  · rw [hgT]
    show s'.starts + 1 = (getS m i).starts + 1
    rw [hkStarts]
  · rw [hgT]
    show s'.startTimes.set (s'.starts % s'.rateLimit) env.now =
      (getS m i).startTimes.set ((getS m i).starts % (getS m i).rateLimit)
        env.now
    rw [hkStarts, hkST, hkRL]
  · rw [hgT]
    show s'.running = false
    rw [hkRun]
    exact hrun
  · rw [hgT]
  · rw [hgT]
  · rw [hgT]
  · rw [hgT]
  · intro j hj
    rw [getS_updS_ne w5 i j f6 hj]
    show getS w4 j = getS m j
    rw [hw4, getS_updS_ne w3 i j f4 hj, hw3, getS_updS_ne w2 i j f3 hj,
      hw2, getS_updS_ne w1 i j (fun _ => s') hj]
    rfl
  · rw [evs_updS]
    show w4.evs ++ [Ev.provStart i] = m.evs ++ [Ev.startRec i, Ev.provStart i]
    rw [hw4, evs_updS, hw3, evs_updS, hw2, evs_updS]
    show (m.evs ++ [Ev.startRec i]) ++ [Ev.provStart i] =
      m.evs ++ [Ev.startRec i, Ev.provStart i]
    rw [List.append_assoc]
    rfl

theorem c10_failed_start_counts_witness :
    ((getS (runOps [Op.enable 0 (Env.mk 5 (fun _ => some "x") (fun _ => none))]
        (initManager 1 [⟨"a", "", [], [], [], false, 2, 50⟩])) 0).running
      = false ∧
     canRun (runOps [Op.enable 0 (Env.mk 5 (fun _ => some "x") (fun _ => none))]
        (initManager 1 [⟨"a", "", [], [], [], false, 2, 50⟩])).svcs 0 = true ∧
     (tooQuickly (getS (runOps [Op.enable 0 (Env.mk 5 (fun _ => some "x") (fun _ => none))]
        (initManager 1 [⟨"a", "", [], [], [], false, 2, 50⟩])) 0)
       (Env.mk 9 (fun _ => some "bad") (fun _ => none)).now).1 = none ∧
     0 < (getS (runOps [Op.enable 0 (Env.mk 5 (fun _ => some "x") (fun _ => none))]
        (initManager 1 [⟨"a", "", [], [], [], false, 2, 50⟩])) 0).rateLimit)
    ∧
    ((getS (startRecurse (Env.mk 9 (fun _ => some "bad") (fun _ => none))
        (0 + 1) "x" 0 (runOps [Op.enable 0 (Env.mk 5 (fun _ => some "x") (fun _ => none))]
        (initManager 1 [⟨"a", "", [], [], [], false, 2, 50⟩]))) 0).starts
      = (getS (runOps [Op.enable 0 (Env.mk 5 (fun _ => some "x") (fun _ => none))]
        (initManager 1 [⟨"a", "", [], [], [], false, 2, 50⟩])) 0).starts + 1 ∧
     (getS (startRecurse (Env.mk 9 (fun _ => some "bad") (fun _ => none))
        (0 + 1) "x" 0 (runOps [Op.enable 0 (Env.mk 5 (fun _ => some "x") (fun _ => none))]
        (initManager 1 [⟨"a", "", [], [], [], false, 2, 50⟩]))) 0).startTimes
      = (getS (runOps [Op.enable 0 (Env.mk 5 (fun _ => some "x") (fun _ => none))]
        (initManager 1 [⟨"a", "", [], [], [], false, 2, 50⟩])) 0).startTimes.set
          ((getS (runOps [Op.enable 0 (Env.mk 5 (fun _ => some "x") (fun _ => none))]
        (initManager 1 [⟨"a", "", [], [], [], false, 2, 50⟩])) 0).starts %
            (getS (runOps [Op.enable 0 (Env.mk 5 (fun _ => some "x") (fun _ => none))]
        (initManager 1 [⟨"a", "", [], [], [], false, 2, 50⟩])) 0).rateLimit)
          (Env.mk 9 (fun _ => some "bad") (fun _ => none)).now ∧
     (getS (startRecurse (Env.mk 9 (fun _ => some "bad") (fun _ => none))
        (0 + 1) "x" 0 (runOps [Op.enable 0 (Env.mk 5 (fun _ => some "x") (fun _ => none))]
        (initManager 1 [⟨"a", "", [], [], [], false, 2, 50⟩]))) 0).running
      = false ∧
     (getS (startRecurse (Env.mk 9 (fun _ => some "bad") (fun _ => none))
        (0 + 1) "x" 0 (runOps [Op.enable 0 (Env.mk 5 (fun _ => some "x") (fun _ => none))]
        (initManager 1 [⟨"a", "", [], [], [], false, 2, 50⟩]))) 0).failed
      = true ∧
     (getS (startRecurse (Env.mk 9 (fun _ => some "bad") (fun _ => none))
        (0 + 1) "x" 0 (runOps [Op.enable 0 (Env.mk 5 (fun _ => some "x") (fun _ => none))]
        (initManager 1 [⟨"a", "", [], [], [], false, 2, 50⟩]))) 0).err
      = some (.provErr "bad") ∧
     (getS (startRecurse (Env.mk 9 (fun _ => some "bad") (fun _ => none))
        (0 + 1) "x" 0 (runOps [Op.enable 0 (Env.mk 5 (fun _ => some "x") (fun _ => none))]
        (initManager 1 [⟨"a", "", [], [], [], false, 2, 50⟩]))) 0).reason
      = "Failed to start:" ++ "bad" ∧
     (getS (startRecurse (Env.mk 9 (fun _ => some "bad") (fun _ => none))
        (0 + 1) "x" 0 (runOps [Op.enable 0 (Env.mk 5 (fun _ => some "x") (fun _ => none))]
        (initManager 1 [⟨"a", "", [], [], [], false, 2, 50⟩]))) 0).stamp
      = (Env.mk 9 (fun _ => some "bad") (fun _ => none)).now ∧
     (∀ j, j ≠ 0 → getS (startRecurse (Env.mk 9 (fun _ => some "bad") (fun _ => none))
        (0 + 1) "x" 0 (runOps [Op.enable 0 (Env.mk 5 (fun _ => some "x") (fun _ => none))]
        (initManager 1 [⟨"a", "", [], [], [], false, 2, 50⟩]))) j
        = getS (runOps [Op.enable 0 (Env.mk 5 (fun _ => some "x") (fun _ => none))]
        (initManager 1 [⟨"a", "", [], [], [], false, 2, 50⟩])) j) ∧
     (startRecurse (Env.mk 9 (fun _ => some "bad") (fun _ => none))
        (0 + 1) "x" 0 (runOps [Op.enable 0 (Env.mk 5 (fun _ => some "x") (fun _ => none))]
        (initManager 1 [⟨"a", "", [], [], [], false, 2, 50⟩]))).evs
      = (runOps [Op.enable 0 (Env.mk 5 (fun _ => some "x") (fun _ => none))]
        (initManager 1 [⟨"a", "", [], [], [], false, 2, 50⟩])).evs ++
          [Ev.startRec 0, Ev.provStart 0]) :=
  ⟨⟨by decide, by decide, by decide, by decide⟩,
    c10_failed_start_counts (Env.mk 9 (fun _ => some "bad") (fun _ => none))
      "x" 0 (runOps [Op.enable 0 (Env.mk 5 (fun _ => some "x") (fun _ => none))]
        (initManager 1 [⟨"a", "", [], [], [], false, 2, 50⟩])) 0 "bad"
      (by decide) (by decide) (by decide) (by decide) rfl⟩

theorem find?_first {α : Type} (p : α → Bool) {l : List α} {b : α}
    (h : l.find? p = some b) :
    p b = true ∧ ∃ pre post, l = pre ++ b :: post ∧
      ∀ x ∈ pre, p x = false := by
  induction l with
  | nil => cases h
  | cons a l ih =>
    by_cases hp : p a = true
    · rw [List.find?_cons_of_pos l hp] at h
      obtain rfl : a = b := by injection h
      exact ⟨hp, [], l, rfl, fun x hx => absurd hx (List.not_mem_nil x)⟩
    · rw [List.find?_cons_of_neg l hp] at h
      obtain ⟨hb, pre, post, heq, hpre⟩ := ih h
      refine ⟨hb, a :: pre, post, by rw [heq]; rfl, ?_⟩
      intro x hx
      rcases List.mem_cons.mp hx with rfl | hx2
      · revert hp; cases p x <;> simp
      · exact hpre x hx2

/-- C1.  Contrary to the spec, the lifecycle operations never bump the
manager's global serial: `Enable` changes the observable state of a
registered service (its `enabled` bit flips and its stamp is set to the
current time) while the manager serial is exactly what `NewManager` seeded.
(The counterexample: enabling the sole service of a fresh manager.) -/
theorem c1_enable_leaves_manager_serial_unchanged :
    ((Enable (Env.mk 5 (fun _ => none) (fun _ => none)) 0
        (initManager 1 [⟨"a", "", [], [], [], false, 0, 0⟩])).2).serial =
      (initManager 1 [⟨"a", "", [], [], [], false, 0, 0⟩]).serial ∧
    (getS ((Enable (Env.mk 5 (fun _ => none) (fun _ => none)) 0
        (initManager 1 [⟨"a", "", [], [], [], false, 0, 0⟩])).2) 0).enabled
      = true ∧
    (getS (initManager 1 [⟨"a", "", [], [], [], false, 0, 0⟩]) 0).enabled
      = false ∧
    (getS ((Enable (Env.mk 5 (fun _ => none) (fun _ => none)) 0
        (initManager 1 [⟨"a", "", [], [], [], false, 0, 0⟩])).2) 0).stamp
      = 5 := by decide

/-- C4 counterexample.  Registering a service that matches two dependency
names of an existing service links only the first: with `t` depending on
`"a"` and `"b"` and a service named `"a"` that provides `"b"`, after
registration `t.parents["a"] = [1]` but `t.parents["b"]` is empty even
though the same service matches `"b"`. -/
theorem c4_counterexample :
    svcMatches (getS (initManager 1
      [⟨"t", "", [], ["a", "b"], [], false, 0, 0⟩,
       ⟨"a", "", ["b"], [], [], false, 0, 0⟩]) 1) "b" = true ∧
    "b" ∈ (getS (initManager 1
      [⟨"t", "", [], ["a", "b"], [], false, 0, 0⟩,
       ⟨"a", "", ["b"], [], [], false, 0, 0⟩]) 0).depends ∧
    (getS (initManager 1
      [⟨"t", "", [], ["a", "b"], [], false, 0, 0⟩,
       ⟨"a", "", ["b"], [], [], false, 0, 0⟩]) 1).registered = true ∧
    lookupParents (initManager 1
      [⟨"t", "", [], ["a", "b"], [], false, 0, 0⟩,
       ⟨"a", "", ["b"], [], [], false, 0, 0⟩]) 0 "a" = [1] ∧
    lookupParents (initManager 1
      [⟨"t", "", [], ["a", "b"], [], false, 0, 0⟩,
       ⟨"a", "", ["b"], [], [], false, 0, 0⟩]) 0 "b" = [] := by decide

/-- C4 amended.  What registration actually does: for each existing service
and in each direction, the `break` means only the FIRST dependency name the
other side matches receives the `parents`/`children` edge pair; the edges
inserted are exactly `addParent`/`insertId` on that first match. -/
theorem c4_amended (si tj : Nat) (m : MState) (d : String) :
    (linkStep si m tj =
      if tj == si || !(getS m tj).registered then m
      else linkCf2 si tj (linkCf1 si tj (linkDep2 si tj (linkDep1 si tj m)))) ∧
    ((tj == si) = false → (getS m tj).registered = true →
      (getS m tj).depends.find? (fun x => svcMatches (getS m si) x) = some d →
      svcMatches (getS m si) d = true ∧
      (∃ pre post, (getS m tj).depends = pre ++ d :: post ∧
        ∀ x ∈ pre, svcMatches (getS m si) x = false) ∧
      (getS (linkDep1 si tj m) tj).parents
        = addParent d si (getS m tj).parents ∧
      (si < m.svcs.length →
        (getS (linkDep1 si tj m) si).children
          = insertId tj (getS m si).children)) ∧
    ((tj == si) = false → si < m.svcs.length →
      (getS m si).depends.find? (fun x => svcMatches (getS m tj) x) = some d →
      (getS (linkDep2 si tj m) si).parents
        = addParent d tj (getS m si).parents ∧
      (tj < m.svcs.length →
        (getS (linkDep2 si tj m) tj).children
          = insertId si (getS m tj).children)) := by
  refine ⟨rfl, ?_, ?_⟩
  · intro hne hreg hfind
    have htlt : tj < m.svcs.length := lt_length_of_registered hreg
    have htsi : tj ≠ si := by
      intro h
      rw [h, beq_self_eq_true] at hne
      cases hne
    obtain ⟨hmatch, pre, post, hsplit, hpre⟩ := find?_first _ hfind
    refine ⟨hmatch, ⟨pre, post, hsplit, hpre⟩, ?_, ?_⟩
    · show (getS (linkDep1 si tj m) tj).parents = _
      unfold linkDep1
      rw [hfind]
      show (getS (updS (updS m tj
        (fun t => { t with parents := addParent d si t.parents })) si
        (fun s => { s with children := insertId tj s.children })) tj).parents = _
      rw [getS_updS_ne _ si tj _ htsi,
        getS_updS_self m tj _ htlt]
    · intro hslt
      unfold linkDep1
      rw [hfind]
      show (getS (updS (updS m tj
        (fun t => { t with parents := addParent d si t.parents })) si
        (fun s => { s with children := insertId tj s.children })) si).children = _
      rw [getS_updS_self (updS m tj
        (fun t => { t with parents := addParent d si t.parents })) si _
        (by rw [len_updS]; exact hslt)]
      show insertId tj (getS (updS m tj
        (fun t => { t with parents := addParent d si t.parents })) si).children
        = insertId tj (getS m si).children
      rw [getS_updS_ne m tj si _ (Ne.symm htsi)]
  · intro hne hslt hfind2
    have htsi : tj ≠ si := by
      intro h
      rw [h, beq_self_eq_true] at hne
      cases hne
    unfold linkDep2
    rw [hfind2]
    constructor
    · show (getS (updS (updS m si
        (fun s => { s with parents := addParent d tj s.parents })) tj
        (fun t => { t with children := insertId si t.children })) si).parents = _
      rw [getS_updS_ne _ tj si _ (Ne.symm htsi),
        getS_updS_self m si _ hslt]
    · intro htlt
      show (getS (updS (updS m si
        (fun s => { s with parents := addParent d tj s.parents })) tj
        (fun t => { t with children := insertId si t.children })) tj).children = _
      rw [getS_updS_self (updS m si
        (fun s => { s with parents := addParent d tj s.parents })) tj _
        (by rw [len_updS]; exact htlt)]
      show insertId si (getS (updS m si
        (fun s => { s with parents := addParent d tj s.parents })) tj).children
        = insertId si (getS m tj).children
      rw [getS_updS_ne m si tj _ htsi]

theorem c4_amended_witness :
    ((0 == 1) = false) ∧
    ((getS (initManager 1
      [⟨"t", "", [], ["a", "b"], [], false, 0, 0⟩,
       ⟨"a", "", ["b"], [], [], false, 0, 0⟩]) 0).registered = true) ∧
    ((getS (initManager 1
      [⟨"t", "", [], ["a", "b"], [], false, 0, 0⟩,
       ⟨"a", "", ["b"], [], [], false, 0, 0⟩]) 0).depends.find?
        (fun x => svcMatches (getS (initManager 1
          [⟨"t", "", [], ["a", "b"], [], false, 0, 0⟩,
           ⟨"a", "", ["b"], [], [], false, 0, 0⟩]) 1) x) = some "a") ∧
    (svcMatches (getS (initManager 1
        [⟨"t", "", [], ["a", "b"], [], false, 0, 0⟩,
         ⟨"a", "", ["b"], [], [], false, 0, 0⟩]) 1) "a" = true ∧
      (∃ pre post, (getS (initManager 1
        [⟨"t", "", [], ["a", "b"], [], false, 0, 0⟩,
         ⟨"a", "", ["b"], [], [], false, 0, 0⟩]) 0).depends = pre ++ "a" :: post ∧
        ∀ x ∈ pre, svcMatches (getS (initManager 1
          [⟨"t", "", [], ["a", "b"], [], false, 0, 0⟩,
           ⟨"a", "", ["b"], [], [], false, 0, 0⟩]) 1) x = false) ∧
      (getS (linkDep1 1 0 (initManager 1
        [⟨"t", "", [], ["a", "b"], [], false, 0, 0⟩,
         ⟨"a", "", ["b"], [], [], false, 0, 0⟩])) 0).parents
        = addParent "a" 1 (getS (initManager 1
          [⟨"t", "", [], ["a", "b"], [], false, 0, 0⟩,
           ⟨"a", "", ["b"], [], [], false, 0, 0⟩]) 0).parents ∧
      (1 < (initManager 1
        [⟨"t", "", [], ["a", "b"], [], false, 0, 0⟩,
         ⟨"a", "", ["b"], [], [], false, 0, 0⟩]).svcs.length →
        (getS (linkDep1 1 0 (initManager 1
          [⟨"t", "", [], ["a", "b"], [], false, 0, 0⟩,
           ⟨"a", "", ["b"], [], [], false, 0, 0⟩])) 1).children
          = insertId 0 (getS (initManager 1
            [⟨"t", "", [], ["a", "b"], [], false, 0, 0⟩,
             ⟨"a", "", ["b"], [], [], false, 0, 0⟩]) 1).children)) :=
  ⟨rfl, by decide, by decide,
    (c4_amended 1 0 (initManager 1
      [⟨"t", "", [], ["a", "b"], [], false, 0, 0⟩,
       ⟨"a", "", ["b"], [], [], false, 0, 0⟩]) "a").2.1
      rfl (by decide) (by decide)⟩

/-- The start walk only appends to the event trace. -/
theorem startRecurse_evs : ∀ (fuel : Nat) (env : Env) (det : String) (i : Nat)
    (m : MState), ∃ E, (startRecurse env fuel det i m).evs = m.evs ++ E := by
  intro fuel
  induction fuel with
  | zero => intro env det i m; exact ⟨[], (List.append_nil m.evs).symm⟩
  | succ fuel ih =>
    intro env det i m
    have fold_evs : ∀ (cs : List Nat) (w : MState),
        ∃ E, (startFold env fuel cs w).evs = w.evs ++ E := by
      intro cs
      induction cs with
      | nil => intro w; exact ⟨[], (List.append_nil w.evs).symm⟩
      | cons c cs' ihc =>
        intro w
        rw [startFold_cons]
        obtain ⟨E1, h1⟩ := ih env "Dependency running" c w
        obtain ⟨E2, h2⟩ := ihc (startRecurse env fuel "Dependency running" c w)
        exact ⟨E1 ++ E2, by rw [h2, h1, List.append_assoc]⟩
    rw [startRecurse_succ]
    set m1 := pushEv m (.startRec i) with hm1
    have hm1evs : m1.evs = m.evs ++ [Ev.startRec i] := rfl
    by_cases hrun : (getS m1 i).running = true
    · rw [if_pos hrun]; exact ⟨[Ev.startRec i], hm1evs⟩
    · rw [if_neg hrun]
      by_cases hcan : canRun m1.svcs i = true
      · rw [if_neg (by rw [hcan]; decide)]
        rcases htq : tooQuickly (getS m1 i) env.now with ⟨e, s'⟩
        cases e with
        | some err => exact ⟨[Ev.startRec i], by rw [evs_updS]; exact hm1evs⟩
        | none =>
          set m2 := updS m1 i (fun _ => s') with hm2
          set m3 := if 0 < (getS m2 i).rateLimit then
              updS m2 i (fun s => { s with
                startTimes := s.startTimes.set (s.starts % s.rateLimit) env.now })
            else m2 with hm3
          have hm3evs : m3.evs = m1.evs := by
            rw [hm3]
            split_ifs <;> rfl
          set m4 := updS m3 i (fun s => { s with starts := s.starts + 1 })
            with hm4
          set m5 := pushEv m4 (.provStart i) with hm5
          have hm5evs : m5.evs =
              m.evs ++ [Ev.startRec i] ++ [Ev.provStart i] := by
            rw [hm5]
            show m4.evs ++ [Ev.provStart i] = _
            rw [hm4, evs_updS, hm3evs, hm1evs]
          cases hse : env.startErr i with
          | some msg =>
            refine ⟨[Ev.startRec i] ++ [Ev.provStart i], ?_⟩
            rw [evs_updS, hm5evs, List.append_assoc]
          | none =>
            set f6 := fun (s : Service) => { s with
              reason := "Started: " ++ det, stamp := env.now
              running := true, failed := false } with hf6
            obtain ⟨E2, h2⟩ :=
              fold_evs ((getS (updS m5 i f6) i).children) (updS m5 i f6)
            refine ⟨[Ev.startRec i] ++ [Ev.provStart i] ++ E2, ?_⟩
            rw [h2, evs_updS, hm5evs]
            simp [List.append_assoc]
      · have hcan' : (!(canRun m1.svcs i)) = true := by
          cases hc : canRun m1.svcs i
          · rfl
          · exact absurd hc hcan
        rw [if_pos hcan']
        exact ⟨[Ev.startRec i], hm1evs⟩

/-- `checkService` records its entry as a `checkSvc` event and only appends
events after it. -/
theorem checkService_evs (env : Env) (i : Nat) (m : MState) :
    ∃ E, (checkService env i m).2.evs = m.evs ++ [Ev.checkSvc i] ++ E := by
  rw [checkService_eq]
  split_ifs with h1 h2
  · exact ⟨[], by rw [List.append_nil]; rfl⟩
  · exact ⟨[], by rw [List.append_nil]; rfl⟩
  · rcases hce : env.checkErr i with - | msg
    · exact ⟨[Ev.provCheck i], rfl⟩
    · obtain ⟨-, -, hE⟩ := stopRecurse_fr
        (bigFuel (updS (chkPre i m) i (fun s => { s with failed := true })))
        env ("Faulted: " ++ msg) i
        (updS (chkPre i m) i (fun s => { s with failed := true }))
      obtain ⟨E', hE'⟩ := hE
      refine ⟨[Ev.provCheck i] ++ E', ?_⟩
      show (chkFault env msg i m).evs = _
      have hx : (chkFault env msg i m).evs =
          (stopRecurse env
            (bigFuel (updS (chkPre i m) i (fun s => { s with failed := true })))
            ("Faulted: " ++ msg) i
            (updS (chkPre i m) i (fun s => { s with failed := true }))).evs := rfl
      rw [hx, hE', evs_updS]
      show ((m.evs ++ [Ev.checkSvc i]) ++ [Ev.provCheck i]) ++ E' =
        m.evs ++ [Ev.checkSvc i] ++ ([Ev.provCheck i] ++ E')
      simp [List.append_assoc]

theorem notifyHandler_eq (env : Env) (i : Nat) (m : MState) :
    notifyHandler env i m =
      if (getS m i).checking then m
      else if (getS m i).enabled then
        match checkService env i m with
        | (some _, m1) => selfHeal env i m1
        | (none, m1) => m1
      else m := rfl

/-- C5 counterexample.  A monitored service that is enabled, not running,
not failed, with restart set: `checkService` returns `NotRunningError`
(a non-nil error), yet the monitor body performs no self-heal at all — the
state after the step is exactly the input plus the check event, with no
`startRec`/`provStart` events.  The code gates self-healing on the `failed`
latch, not on the returned error. -/
theorem c5_counterexample :
    (getS (runOps [Op.enable 0 (Env.mk 5 (fun _ => none) (fun _ => none))]
      (initManager 1
        [⟨"a", "", [], ["b"], [], true, 0, 0⟩,
         ⟨"b", "", [], [], [], false, 0, 0⟩])) 0).registered = true ∧
    (getS (runOps [Op.enable 0 (Env.mk 5 (fun _ => none) (fun _ => none))]
      (initManager 1
        [⟨"a", "", [], ["b"], [], true, 0, 0⟩,
         ⟨"b", "", [], [], [], false, 0, 0⟩])) 0).enabled = true ∧
    (getS (runOps [Op.enable 0 (Env.mk 5 (fun _ => none) (fun _ => none))]
      (initManager 1
        [⟨"a", "", [], ["b"], [], true, 0, 0⟩,
         ⟨"b", "", [], [], [], false, 0, 0⟩])) 0).restart = true ∧
    (checkService (Env.mk 9 (fun _ => none) (fun _ => none)) 0
      (runOps [Op.enable 0 (Env.mk 5 (fun _ => none) (fun _ => none))]
        (initManager 1
          [⟨"a", "", [], ["b"], [], true, 0, 0⟩,
           ⟨"b", "", [], [], [], false, 0, 0⟩]))).1 = some .notRunning ∧
    monitorStep (Env.mk 9 (fun _ => none) (fun _ => none))
      (runOps [Op.enable 0 (Env.mk 5 (fun _ => none) (fun _ => none))]
        (initManager 1
          [⟨"a", "", [], ["b"], [], true, 0, 0⟩,
           ⟨"b", "", [], [], [], false, 0, 0⟩])) 0 =
      pushEv (runOps [Op.enable 0 (Env.mk 5 (fun _ => none) (fun _ => none))]
        (initManager 1
          [⟨"a", "", [], ["b"], [], true, 0, 0⟩,
           ⟨"b", "", [], [], [], false, 0, 0⟩])) (Ev.checkSvc 0) := by decide

/-- C5 amended.  What the monitor actually does: a pass folds the per-service
body over all services when `monitoring` is set; the body checks exactly the
registered-and-enabled services (recording `checkSvc`); self-healing runs
only when the check returned an error AND the post-check record has `failed`
with `restart` set; the notify handler is the monitor body for its service
when its `checking` flag is clear (the handler tests `checking`/`enabled`
where the monitor body tests `registered`/`enabled`), and does nothing while
a check is in flight. -/
theorem c5_amended (env : Env) (m : MState) (i : Nat) :
    (monitorPass env m = if m.monitoring then
        (List.range m.svcs.length).foldl (monitorStep env) m else m) ∧
    (((getS m i).registered && (getS m i).enabled) = true →
      ∃ E, (monitorStep env m i).evs = m.evs ++ [Ev.checkSvc i] ++ E) ∧
    (monitorStep env m i =
      if ((getS m i).registered && (getS m i).enabled) = true then
        (if (checkService env i m).1 ≠ none ∧
            ((getS (checkService env i m).2 i).failed &&
              (getS (checkService env i m).2 i).restart) = true then
          startRecurse env (bigFuel (checkService env i m).2)
            "Self-healing attempt" i (checkService env i m).2
        else (checkService env i m).2)
      else m) ∧
    ((getS m i).checking = false → (getS m i).registered = true →
      notifyHandler env i m = monitorStep env m i) ∧
    ((getS m i).checking = true → notifyHandler env i m = m) := by
  refine ⟨rfl, ?_, ?_, ?_, ?_⟩
  · intro hre
    rw [monitorStep_eq, if_pos hre]
    rcases hcs : checkService env i m with ⟨e, m1⟩
    obtain ⟨E1, h1⟩ := checkService_evs env i m
    rw [hcs] at h1
    cases e with
    | none => exact ⟨E1, h1⟩
    | some a =>
      show ∃ E, (selfHeal env i m1).evs = m.evs ++ [Ev.checkSvc i] ++ E
      rw [selfHeal_eq]
      split_ifs with hh
      · obtain ⟨E2, h2⟩ :=
          startRecurse_evs (bigFuel m1) env "Self-healing attempt" i m1
        exact ⟨E1 ++ E2, by
          rw [h2]
          show m1.evs ++ E2 = m.evs ++ [Ev.checkSvc i] ++ (E1 ++ E2)
          rw [h1]
          simp [List.append_assoc]⟩
      · exact ⟨E1, h1⟩
  · by_cases hre : ((getS m i).registered && (getS m i).enabled) = true
    · rw [monitorStep_eq, if_pos hre, if_pos hre]
      rcases hcs : checkService env i m with ⟨e, m1⟩
      cases e with
      | none =>
        rw [if_neg (fun hc => hc.1 rfl)]
      | some a =>
        by_cases hh : ((getS m1 i).failed && (getS m1 i).restart) = true
        · rw [if_pos ⟨fun h => Option.noConfusion h, hh⟩]
          show selfHeal env i m1 = _
          rw [selfHeal_eq, if_pos hh]
        · rw [if_neg (fun hc => hh hc.2)]
          show selfHeal env i m1 = m1
          rw [selfHeal_eq, if_neg hh]
    · rw [monitorStep_eq, if_neg hre, if_neg hre]
  · intro hchk hreg
    rw [notifyHandler_eq, if_neg (by rw [hchk]; decide), monitorStep_eq, hreg]
    rw [Bool.true_and]
  · intro hchk
    rw [notifyHandler_eq, if_pos hchk]

theorem c5_amended_witness :
    ((getS (runOps [Op.enable 0 (Env.mk 5 (fun _ => none) (fun _ => none))]
        (initManager 1 [⟨"a", "", [], [], [], true, 0, 0⟩])) 0).registered &&
      (getS (runOps [Op.enable 0 (Env.mk 5 (fun _ => none) (fun _ => none))]
        (initManager 1 [⟨"a", "", [], [], [], true, 0, 0⟩])) 0).enabled)
      = true ∧
    ∃ E, (monitorStep (Env.mk 9 (fun _ => none) (fun _ => none))
      (runOps [Op.enable 0 (Env.mk 5 (fun _ => none) (fun _ => none))]
        (initManager 1 [⟨"a", "", [], [], [], true, 0, 0⟩])) 0).evs =
      (runOps [Op.enable 0 (Env.mk 5 (fun _ => none) (fun _ => none))]
        (initManager 1 [⟨"a", "", [], [], [], true, 0, 0⟩])).evs ++
        [Ev.checkSvc 0] ++ E :=
  ⟨by decide,
    (c5_amended (Env.mk 9 (fun _ => none) (fun _ => none))
      (runOps [Op.enable 0 (Env.mk 5 (fun _ => none) (fun _ => none))]
        (initManager 1 [⟨"a", "", [], [], [], true, 0, 0⟩])) 0).2.1
      (by decide)⟩

end Govisor
